import Mathlib

/-!
# Cookie transport layer of the gatekeeper proxy

A shallow embedding of `cookies.go`: the budget calculator
(`getMaxCookieChunkLength`), the cookie write primitive (`dropCookie`), the
chunking writer (`dropCookieWithChunks`), the two erasers
(`clearRefreshTokenCookie`, `clearAccessTokenCookie`) and the state issuer
(`writeStateParameterCookie`).

Conventions of the embedding.

* A Go `string` is a finite byte sequence, `GoString = List (Fin 256)`, and
  `len` is its number of bytes.  Go `int` is `Int`; the 64-bit wrap-around is
  not modelled (every integer the code computes is bounded by the length of a
  string held in memory plus 4069).
* The response writer is the list of cookies handed to `http.SetCookie`
  (line 64 of `cookies.go`), in call order.  What `http.SetCookie` puts on the
  response for them is `setCookieHeaders`: no header for a cookie whose name is
  not a valid cookie name, the value and the path without the bytes that
  `net/http` drops, the `Domain` attribute only for a valid domain.  A
  statement about the physical cookies that reach the browser is made of
  `writtenHeaders`, a statement about what the code hands over of `written`.
* The request carries the list of cookies parsed from its `Cookie` header;
  `req.Cookie(name)` finds the first one with that name.
* `time.Now()` is read once per `dropCookie`.  The embedding takes a clock
  `clock : Nat → Int` (nanoseconds since the Unix epoch, the zone being UTC) and
  reads `clock n` at the write that finds `n` cookies already on the response,
  so successive writes may see different times.  A `time.Duration` is an `Int`
  number of nanoseconds.
* `strconv.Itoa`, `base64.StdEncoding` and the cookie functions of `net/http`
  are library code; they are modelled by `Itoa`, `StdEncoding.EncodeToString`,
  `StdEncoding.DecodeString` and, under their Go names, `SetCookie`,
  `Cookie.String`, `sanitizeCookieValue`, `isCookieNameValid` and
  `validCookieDomain`.
  `uuid.NewV4()` is an input of `writeStateParameterCookie`.
* A Go run-time panic (slice bounds out of range, integer division by zero) is
  the outcome `panicked`; loops whose termination needs an argument run on
  fuel and report `outOfFuel` when it is exhausted.
-/

namespace Gatekeeper

/-! ## Strings -/

/-- A byte. -/
abbrev Byte := Fin 256

/-- A Go string: an immutable sequence of bytes. -/
abbrev GoString := List Byte

/-- The bytes of an ASCII literal. -/
def ascii (s : String) : GoString :=
  s.toList.map (fun c => ⟨c.toNat % 256, Nat.mod_lt _ (by decide)⟩)

/-- Go `len(s)` as an `int`. -/
def len (s : GoString) : Int := (s.length : Int)

/-- The slice expression `s[lo:hi]`; `none` is the run-time panic raised when
the bounds are not `0 ≤ lo ≤ hi ≤ len(s)`. -/
def slice? (s : GoString) (lo hi : Int) : Option GoString :=
  if 0 ≤ lo ∧ lo ≤ hi ∧ hi ≤ len s then
    some ((s.drop lo.toNat).take (hi.toNat - lo.toNat))
  else none

/-- The ASCII decimal digit of `d % 10`. -/
def digitByte (d : Nat) : Byte := ⟨48 + d % 10, by omega⟩

/-- Decimal digits of `n`, most significant first, pushed in front of `acc`. -/
def itoaDigits : Nat → Nat → GoString → GoString
  | 0, _, acc => acc
  | fuel + 1, n, acc =>
    if n < 10 then digitByte n :: acc
    else itoaDigits fuel (n / 10) (digitByte n :: acc)

/-- Decimal rendering of a natural number (`"0"` for zero). -/
def formatNat (n : Nat) : GoString := itoaDigits (n + 1) n []

/-- Go `strconv.Itoa`. -/
def Itoa (i : Int) : GoString :=
  if i < 0 then 45 :: formatNat i.natAbs else formatNat i.toNat

/-- The part of `s` before its first `':'`: `strings.Split(s, ":")[0]`. -/
def splitHostPort (s : GoString) : GoString := s.takeWhile (fun b => b != 58)

/-! ## Base64 -/

/-- Go `encodeStd`, the alphabet of `base64.StdEncoding`. -/
def encodeStd : GoString :=
  ascii "ABCDEFGHIJKLMNOPQRSTUVWXYZabcdefghijklmnopqrstuvwxyz0123456789+/"

/-- The character that encodes the 6-bit value `i`. -/
def b64Char (i : Nat) : Byte := encodeStd.getD i 61

/-- The 6-bit value a character encodes, `none` for a character outside the
alphabet (the padding character `'='` among them). -/
def b64Index (c : Byte) : Option Nat :=
  if encodeStd.indexOf c < 64 then some (encodeStd.indexOf c) else none

/-- The low byte of a number: the Go conversion `byte(n)`. -/
def toByte (n : Nat) : Byte := ⟨n % 256, Nat.mod_lt _ (by decide)⟩

/-- Go `base64.StdEncoding.EncodeToString`: three bytes become four characters,
and a last group of one or two bytes is padded with `'='`. -/
def StdEncoding.EncodeToString : GoString → GoString
  | a :: b :: c :: rest =>
    b64Char ((a.val * 65536 + b.val * 256 + c.val) / 262144 % 64)
      :: b64Char ((a.val * 65536 + b.val * 256 + c.val) / 4096 % 64)
      :: b64Char ((a.val * 65536 + b.val * 256 + c.val) / 64 % 64)
      :: b64Char ((a.val * 65536 + b.val * 256 + c.val) % 64)
      :: StdEncoding.EncodeToString rest
  | [a, b] =>
    [b64Char ((a.val * 65536 + b.val * 256) / 262144 % 64),
      b64Char ((a.val * 65536 + b.val * 256) / 4096 % 64),
      b64Char ((a.val * 65536 + b.val * 256) / 64 % 64), 61]
  | [a] =>
    [b64Char ((a.val * 65536) / 262144 % 64), b64Char ((a.val * 65536) / 4096 % 64), 61, 61]
  | [] => []

/-- The bytes that one group of four characters decodes to. -/
def decodeQuantum (w x y z : Byte) : Option GoString :=
  match b64Index w, b64Index x with
  | some i, some j =>
    if y = 61 then
      if z = 61 then some [toByte ((i * 262144 + j * 4096) / 65536)] else none
    else
      match b64Index y with
      | none => none
      | some k =>
        if z = 61 then
          some [toByte ((i * 262144 + j * 4096 + k * 64) / 65536),
            toByte ((i * 262144 + j * 4096 + k * 64) / 256)]
        else
          match b64Index z with
          | none => none
          | some l =>
            some [toByte ((i * 262144 + j * 4096 + k * 64 + l) / 65536),
              toByte ((i * 262144 + j * 4096 + k * 64 + l) / 256),
              toByte (i * 262144 + j * 4096 + k * 64 + l)]
  | _, _ => none

/-- Go `base64.StdEncoding.DecodeString` on a text without line breaks; `none`
is a `CorruptInputError`.  A padded group must be the last one. -/
def StdEncoding.DecodeString : GoString → Option GoString
  | [] => some []
  | w :: x :: y :: z :: rest =>
    match decodeQuantum w x y z with
    | none => none
    | some q =>
      if q.length < 3 then (if rest = [] then some q else none)
      else
        match StdEncoding.DecodeString rest with
        | none => none
        | some r => some (q ++ r)
  | _ => none

/-! ## Data model -/

/-- The fields of `Config` (doc.go) that `cookies.go` reads. -/
structure Config where
  BaseURI : GoString
  EnableSessionCookies : Bool
  CookieDomain : GoString
  CookieAccessName : GoString
  CookieRefreshName : GoString
  CookieOAuthStateName : GoString
  CookieRequestURIName : GoString
  SecureCookie : Bool
  HTTPOnlyCookie : Bool
  SameSiteCookie : GoString
  NoProxy : Bool
  NoRedirects : Bool
  deriving DecidableEq

/-- The `http.SameSite` values that `dropCookie` can produce: the zero value
(attribute absent), `SameSiteLaxMode` and `SameSiteStrictMode`. -/
inductive SameSite where
  | unset
  | lax
  | strict
  deriving DecidableEq

/-- The fields of `http.Cookie` that `dropCookie` sets.  `Expires = none` is
the zero `time.Time`, for which no `Expires` attribute is emitted. -/
structure Cookie where
  Domain : GoString
  HttpOnly : Bool
  Name : GoString
  Path : GoString
  Secure : Bool
  Value : GoString
  Expires : Option Int
  SameSite : SameSite
  deriving DecidableEq

/-- A cookie as a request carries it: a name and a value. -/
structure RequestCookie where
  Name : GoString
  Value : GoString
  deriving DecidableEq

/-- The parts of `http.Request` that `cookies.go` reads. -/
structure Request where
  Host : GoString
  Cookies : List RequestCookie
  RequestURI : GoString
  XForwardedUri : GoString
  deriving DecidableEq

/-- Go `req.Cookie(name)`: the first cookie of the request with that name;
`none` is `http.ErrNoCookie`. -/
def Request.Cookie (req : Request) (name : GoString) : Option RequestCookie :=
  req.Cookies.find? (fun c => c.Name == name)

/-- The response writer: the cookies given to `http.SetCookie`, in order.  Its
`Set-Cookie` headers are `setCookieHeaders`. -/
abbrev ResponseWriter := List Cookie

/-- How a call ended. -/
inductive Outcome where
  | returned
  | panicked
  | outOfFuel
  deriving DecidableEq

/-- The response writer after a call, and how the call ended. -/
structure Run where
  wrt : ResponseWriter
  outcome : Outcome
  deriving DecidableEq

/-- What `uuid.NewV4()` returned: the text of the UUID (`uuid.String()`), and
whether the error is not `nil`. -/
structure NewV4Result where
  text : GoString
  failed : Bool
  deriving DecidableEq

/-- The result of `writeStateParameterCookie`: the response writer after the
call, the status code given to `wrt.WriteHeader` (called before any cookie is
added) if it was called, and the returned string. -/
structure StateRun where
  wrt : ResponseWriter
  status : Option Int
  token : GoString
  deriving DecidableEq

/-- Modelled from the spec: the constant `constant.SameSiteStrict` of
`pkg/constant`, the mode whose attribute text is `"SameSite=Strict "`. -/
def SameSiteStrict : GoString := ascii "Strict"

/-- Modelled from the spec: the constant `constant.SameSiteLax` of
`pkg/constant`, the mode whose attribute text is `"SameSite=Lax "`. -/
def SameSiteLax : GoString := ascii "Lax"

/-- The `time.Duration` constant `time.Hour`, in nanoseconds. -/
def Hour : Int := 3600000000000

/-! ## `cookies.go` -/

/-- The `http.Cookie` that `dropCookie` builds (lines 32-62), `now` being the
value of `time.Now()`. -/
def newCookie (cfg : Config) (now : Int) (name value : GoString) (duration : Int) : Cookie :=
  let domain : GoString := if cfg.CookieDomain ≠ [] then cfg.CookieDomain else []
  let path : GoString := if cfg.BaseURI = [] then ascii "/" else cfg.BaseURI
  { Domain := domain
    HttpOnly := cfg.HTTPOnlyCookie
    Name := name
    Path := path
    Secure := cfg.SecureCookie
    Value := value
    Expires :=
      if !cfg.EnableSessionCookies && duration != 0 then some (now + duration) else none
    SameSite :=
      if cfg.SameSiteCookie = SameSiteStrict then SameSite.strict
      else if cfg.SameSiteCookie = SameSiteLax then SameSite.lax
      else SameSite.unset }

/-- Go `dropCookie`: drops a cookie into the response.  The `host` argument is
not used by the body.  Line 64 hands the cookie to `http.SetCookie`: the
response writer records it, and `SetCookie` below says which `Set-Cookie`
header, if any, it becomes. -/
def dropCookie (cfg : Config) (clock : Nat → Int) (wrt : ResponseWriter)
    (_host name value : GoString) (duration : Int) : ResponseWriter :=
  wrt ++ [newCookie cfg (clock wrt.length) name value duration]

/-- Go `getMaxCookieChunkLength`: the maximal length of a cookie value. -/
def getMaxCookieChunkLength (cfg : Config) (req : Request) (cookieName : GoString) : Int :=
  let m0 : Int := 4069 - len cookieName
  let m1 : Int :=
    if cfg.CookieDomain ≠ [] then m0 - len cfg.CookieDomain
    else m0 - len (splitHostPort req.Host)
  let m2 : Int := if cfg.HTTPOnlyCookie then m1 - len (ascii "HttpOnly; ") else m1
  let m3 : Int :=
    if !cfg.EnableSessionCookies then
      m2 - len (ascii "Expires=Mon, 02 Jan 2006 03:04:05 MST; ")
    else m2
  let m4 : Int :=
    if cfg.SameSiteCookie = SameSiteStrict then m3 - len (ascii "SameSite=Strict ")
    else if cfg.SameSiteCookie = SameSiteLax then m3 - len (ascii "SameSite=Lax ")
    else m3
  if cfg.SecureCookie then m4 - len (ascii "Secure") else m4

/-- The `for` loop of `dropCookieWithChunks` (lines 109-123), entered with the
loop variable at `idx`. -/
def chunkLoop (cfg : Config) (clock : Nat → Int) (host name value : GoString)
    (duration : Int) (maxCookieChunkLength : Int) :
    Nat → Int → ResponseWriter → Run
  | 0, _, wrt => ⟨wrt, Outcome.outOfFuel⟩
  | fuel + 1, idx, wrt =>
    if idx < len value then
      let end0 : Int := idx + maxCookieChunkLength
      let end1 : Int := if end0 > len value then len value else end0
      if maxCookieChunkLength = 0 then ⟨wrt, Outcome.panicked⟩
      else
        match slice? value idx end1 with
        | none => ⟨wrt, Outcome.panicked⟩
        | some chunk =>
          chunkLoop cfg clock host name value duration maxCookieChunkLength fuel
            (idx + maxCookieChunkLength)
            (dropCookie cfg clock wrt host
              (name ++ ascii "-" ++ Itoa (idx.tdiv maxCookieChunkLength)) chunk duration)
    else ⟨wrt, Outcome.returned⟩

/-- Go `dropCookieWithChunks`: drops a cookie into the response, split into
chunks when the value is longer than the budget. -/
def dropCookieWithChunks (cfg : Config) (clock : Nat → Int) (req : Request)
    (wrt : ResponseWriter) (name value : GoString) (duration : Int) : Run :=
  let maxCookieChunkLength := getMaxCookieChunkLength cfg req name
  if len value ≤ maxCookieChunkLength then
    ⟨dropCookie cfg clock wrt req.Host name value duration, Outcome.returned⟩
  else
    match slice? value 0 maxCookieChunkLength with
    | none => ⟨wrt, Outcome.panicked⟩
    | some chunk =>
      chunkLoop cfg clock req.Host name value duration maxCookieChunkLength
        (value.length + 1) maxCookieChunkLength
        (dropCookie cfg clock wrt req.Host name chunk duration)

/-- Go `dropAccessTokenCookie`. -/
def dropAccessTokenCookie (cfg : Config) (clock : Nat → Int) (req : Request)
    (w : ResponseWriter) (value : GoString) (duration : Int) : Run :=
  dropCookieWithChunks cfg clock req w cfg.CookieAccessName value duration

/-- Go `dropRefreshTokenCookie`. -/
def dropRefreshTokenCookie (cfg : Config) (clock : Nat → Int) (req : Request)
    (w : ResponseWriter) (value : GoString) (duration : Int) : Run :=
  dropCookieWithChunks cfg clock req w cfg.CookieRefreshName value duration

/-- The loop `for idx := ...; idx < bound; idx++` shared by the two erasers
(lines 171-185 and 193-207), entered with the loop variable at `idx`: the
cookie `name-idx` is cleared when the request carries it, and the loop breaks
at the first one it does not carry. -/
def clearLoop (cfg : Config) (clock : Nat → Int) (req : Request) (name : GoString)
    (bound : Int) : Nat → Int → ResponseWriter → Run
  | 0, _, wrt => ⟨wrt, Outcome.outOfFuel⟩
  | fuel + 1, idx, wrt =>
    if idx < bound then
      match req.Cookie (name ++ ascii "-" ++ Itoa idx) with
      | some _ =>
        clearLoop cfg clock req name bound fuel (idx + 1)
          (dropCookie cfg clock wrt req.Host (name ++ ascii "-" ++ Itoa idx)
            [] (-10 * Hour))
      | none => ⟨wrt, Outcome.returned⟩
    else ⟨wrt, Outcome.returned⟩

/-- Go `clearRefreshTokenCookie`. -/
def clearRefreshTokenCookie (cfg : Config) (clock : Nat → Int) (req : Request)
    (wrt : ResponseWriter) : Run :=
  clearLoop cfg clock req cfg.CookieRefreshName 600 600 1
    (dropCookie cfg clock wrt req.Host cfg.CookieRefreshName [] (-10 * Hour))

/-- Go `clearAccessTokenCookie`. -/
def clearAccessTokenCookie (cfg : Config) (clock : Nat → Int) (req : Request)
    (wrt : ResponseWriter) : Run :=
  clearLoop cfg clock req cfg.CookieAccessName (req.Cookies.length : Int)
    (req.Cookies.length + 1) 1
    (dropCookie cfg clock wrt req.Host cfg.CookieAccessName [] (-10 * Hour))

/-- The constant `http.StatusInternalServerError`. -/
def StatusInternalServerError : Int := 500

/-- Go `writeStateParameterCookie`: sets the request-URI cookie and the state
cookie into the response and returns the state.  `gen` is what `uuid.NewV4()`
returns, `req.RequestURI` is `req.URL.RequestURI()` and `req.XForwardedUri` is
`req.Header.Get("X-Forwarded-Uri")`. -/
def writeStateParameterCookie (cfg : Config) (clock : Nat → Int) (gen : NewV4Result)
    (req : Request) (wrt : ResponseWriter) : StateRun :=
  let status : Option Int := if gen.failed then some StatusInternalServerError else none
  let requestURI : GoString :=
    if cfg.NoProxy && !cfg.NoRedirects then req.XForwardedUri else req.RequestURI
  let encRequestURI : GoString := StdEncoding.EncodeToString requestURI
  let wrt1 := dropCookie cfg clock wrt req.Host cfg.CookieRequestURIName encRequestURI 0
  let wrt2 := dropCookie cfg clock wrt1 req.Host cfg.CookieOAuthStateName gen.text 0
  ⟨wrt2, status, gen.text⟩

/-! ## `net/http`: the `Set-Cookie` header of a cookie

Line 64 of `cookies.go` hands the cookie to `http.SetCookie`, which adds the
header `cookie.String()` unless that text is empty.  The functions of
`net/http` (`cookie.go`) that decide what this header holds are embedded here
under their Go names. -/

/-- Go `validCookieValueByte`: `0x20 <= b && b < 0x7f && b != '"' && b != ';'
&& b != '\\'`. -/
def validCookieValueByte (b : Byte) : Bool :=
  decide (0x20 ≤ b.val) && decide (b.val < 0x7f) && b != 34 && b != 59 && b != 92

/-- Go `validCookiePathByte`: `0x20 <= b && b < 0x7f && b != ';'`. -/
def validCookiePathByte (b : Byte) : Bool :=
  decide (0x20 ≤ b.val) && decide (b.val < 0x7f) && b != 59

/-- Go `sanitizeOrWarn`: the bytes of `v` that are valid, in order (the
warning goes to the log). -/
def sanitizeOrWarn (valid : Byte → Bool) (v : GoString) : GoString := v.filter valid

/-- Go `sanitizeCookieValue`: the invalid bytes are dropped, and what is left
is put between double quotes when it contains a space or a comma. -/
def sanitizeCookieValue (v : GoString) : GoString :=
  let v1 := sanitizeOrWarn validCookieValueByte v
  if v1.length = 0 then v1
  else if v1.any (fun b => b == 32 || b == 44) then [34] ++ v1 ++ [34]
  else v1

/-- Go `sanitizeCookiePath`. -/
def sanitizeCookiePath (v : GoString) : GoString := sanitizeOrWarn validCookiePathByte v

/-- The token bytes of `httpguts.IsTokenRune`: the letters, the digits and
the bytes of ``!#$%&'*+-.^_`|~``. -/
def isTokenByte (b : Byte) : Bool :=
  (ascii "!#$%&*+-.^_|~").contains b || b == 39 || b == 96
    || (decide (48 ≤ b.val) && decide (b.val ≤ 57))
    || (decide (65 ≤ b.val) && decide (b.val ≤ 90))
    || (decide (97 ≤ b.val) && decide (b.val ≤ 122))

/-- Go `isCookieNameValid`: the name is not empty and
`strings.IndexFunc(raw, isNotToken) < 0`.  A rune that is not a single ASCII
byte is not a token rune, so the test is one on the bytes. -/
def isCookieNameValid (raw : GoString) : Bool :=
  raw != [] && raw.all isTokenByte

/-- The `for` loop of Go `isCookieDomainName` over the bytes that remain, with
its variables `last`, `ok` (a letter was seen) and `partlen`, followed by the
final test `last == '-' || partlen > 63`. -/
def domainNameLoop : GoString → Byte → Bool → Nat → Bool
  | [], last, ok, partlen => if last = 45 ∨ partlen > 63 then false else ok
  | c :: rest, last, ok, partlen =>
    if (97 ≤ c.val ∧ c.val ≤ 122) ∨ (65 ≤ c.val ∧ c.val ≤ 90) then
      domainNameLoop rest c true (partlen + 1)
    else if 48 ≤ c.val ∧ c.val ≤ 57 then domainNameLoop rest c ok (partlen + 1)
    else if c = 45 then
      if last = 46 then false else domainNameLoop rest c ok (partlen + 1)
    else if c = 46 then
      if last = 46 ∨ last = 45 then false
      else if partlen > 63 ∨ partlen = 0 then false
      else domainNameLoop rest c ok 0
    else false

/-- Go `isCookieDomainName`: a domain name of 1 to 255 bytes, with or without
a leading dot. -/
def isCookieDomainName (s : GoString) : Bool :=
  if s.length = 0 then false
  else if s.length > 255 then false
  else domainNameLoop (if s.head? = some 46 then s.drop 1 else s) 46 false 0

/-- The loop of Go `parseIPv4Fields` (`net/netip`), by which `net.ParseIP`
reads a text without `':'`: four decimal fields of at most 255 without a
leading zero, separated by dots.  The variables are `val`, `pos` and
`digLen`. -/
def parseIPv4Fields : GoString → Nat → Nat → Nat → Bool
  | [], _, pos, _ => decide (pos = 3)
  | c :: rest, val, pos, digLen =>
    if 48 ≤ c.val ∧ c.val ≤ 57 then
      if digLen = 1 ∧ val = 0 then false
      else if val * 10 + (c.val - 48) > 255 then false
      else parseIPv4Fields rest (val * 10 + (c.val - 48)) pos (digLen + 1)
    else if c = 46 then
      if digLen = 0 ∨ rest = [] then false
      else if pos = 3 then false
      else parseIPv4Fields rest 0 (pos + 1) 0
    else false

/-- Go `validCookieDomain`: a cookie domain name, or
`net.ParseIP(v) != nil && !strings.Contains(v, ":")`, which is an IPv4 address
in dotted decimal form. -/
def validCookieDomain (v : GoString) : Bool :=
  isCookieDomainName v || (parseIPv4Fields v 0 0 0 && !v.contains 58)

/-- The instant 1601-01-01 00:00:00 UTC, in nanoseconds since the Unix epoch. -/
def year1601 : Int := -11644473600000000000

/-- Go `validCookieExpires`: `t.Year() >= 1601`. -/
def validCookieExpires (t : Int) : Bool := decide (year1601 ≤ t)

/-- The attributes that Go `(*Cookie).String` writes for a cookie with a valid
name, given as the cookie that the header text spells out.  The value and the
path are sanitised; the `Domain` attribute is written only for a valid domain,
without its leading dot; the `Expires` attribute is written only for a year
from 1601 on; `HttpOnly`, `Secure` and `SameSite` are written as they are. -/
def Cookie.headerLine (c : Cookie) : Cookie :=
  { Domain :=
      if c.Domain.length > 0 then
        if validCookieDomain c.Domain then
          (if c.Domain.head? = some 46 then c.Domain.drop 1 else c.Domain)
        else []
      else []
    HttpOnly := c.HttpOnly
    Name := c.Name
    Path := if c.Path.length > 0 then sanitizeCookiePath c.Path else []
    Secure := c.Secure
    Value := sanitizeCookieValue c.Value
    Expires := c.Expires.filter validCookieExpires
    SameSite := c.SameSite }

/-- Go `(*Cookie).String`: `none` is the empty text, returned when
`!isCookieNameValid(c.Name)`. -/
def Cookie.String (c : Cookie) : Option Cookie :=
  if !isCookieNameValid c.Name then none else some c.headerLine

/-- Go `http.SetCookie(w, cookie)`, acting on the `Set-Cookie` headers of the
response: `if v := cookie.String(); v != "" { w.Header().Add("Set-Cookie", v) }`. -/
def SetCookie (header : List Cookie) (cookie : Cookie) : List Cookie :=
  match cookie.String with
  | some v => header ++ [v]
  | none => header

/-- The `Set-Cookie` headers of a response: `http.SetCookie` run over the
cookies that were handed to it, in call order. -/
def setCookieHeaders (wrt : ResponseWriter) : List Cookie := wrt.foldl SetCookie []

/-! ## Vocabulary of the statements -/

/-- The cookies a call added to a response that held `before`. -/
def written (before : ResponseWriter) (r : Run) : List Cookie :=
  r.wrt.drop before.length

/-- The `Set-Cookie` headers a call added to a response that held `before`:
the physical cookies that reach the browser. -/
def writtenHeaders (before : ResponseWriter) (r : Run) : List Cookie :=
  setCookieHeaders (written before r)

/-- A cookie octet of RFC 6265: a byte that `sanitizeCookieValue` neither
drops nor answers with quotes, that is `0x21` to `0x7E` without `'"'`, `','`,
`';'` and `'\\'`. -/
def isCookieOctet (b : Byte) : Bool := validCookieValueByte b && b != 32 && b != 44

/-- The cookie a browser sends back for a cookie it was given. -/
def sentBack (c : Cookie) : RequestCookie := ⟨c.Name, c.Value⟩

/-- The physical name of chunk `i` of the logical cookie `name`: the bare name
for chunk 0, `name-i` for the others. -/
def chunkName (name : GoString) (i : Nat) : GoString :=
  if i = 0 then name else name ++ ascii "-" ++ Itoa i

/-- The number of physical cookies for a value of length `n` under budget
`b`: one when the value fits, `ceil(n / b)` otherwise. -/
def chunkCount (b n : Nat) : Nat :=
  if n ≤ b then 1 else (n + b - 1) / b

/-- The cookie that carries chunk `i` when the response held `base` cookies
before the call. -/
def chunkCookie (cfg : Config) (clock : Nat → Int) (base : Nat) (name value : GoString)
    (duration : Int) (b i : Nat) : Cookie :=
  newCookie cfg (clock (base + i)) (chunkName name i) ((value.drop (i * b)).take b) duration

/-- The tombstone of chunk `i`, written when the response holds `base + i`
cookies. -/
def tombstone (cfg : Config) (clock : Nat → Int) (base : Nat) (name : GoString)
    (i : Nat) : Cookie :=
  newCookie cfg (clock (base + i)) (chunkName name i) [] (-10 * Hour)

/-- The number a decimal string denotes. -/
def parseNat (s : GoString) : Nat :=
  Nat.ofDigits 10 ((s.map (fun b => b.val - 48)).reverse)

/-- Modelled from the spec: the probe of `Decode` (§4.3), whose code is not in
`cookies.go`: "probe `name + "-1"`, `name + "-2"`, … in increasing order
against the same cookie source, concatenating values in that exact order,
stopping at the first missing index".  `acc` is the value read so far; the
result is the first missing index with the value read up to it, and `none`
means the fuel ran out before a missing index was met. -/
def decodeProbe (req : Request) (name : GoString) :
    Nat → Nat → GoString → Option (Nat × GoString)
  | 0, _, _ => none
  | fuel + 1, idx, acc =>
    match req.Cookie (name ++ ascii "-" ++ Itoa idx) with
    | some c => decodeProbe req name fuel (idx + 1) (acc ++ c.Value)
    | none => some (idx, acc)

/-- Modelled from the spec: the index of a suffixed physical name (§6:
"logical name `N` decomposes into physical cookies `N`, `N-1`, `N-2`, …; no
other suffix form is recognized"): `some i` when `physical` is `name + "-"`
followed by the decimal text of `i ≥ 1` as `strconv.Itoa` prints it. -/
def chunkIndex? (name physical : GoString) : Option Nat :=
  if physical.take (name.length + 1) = name ++ ascii "-" then
    if 0 < parseNat (physical.drop (name.length + 1)) ∧
        Itoa (parseNat (physical.drop (name.length + 1)) : Nat)
          = physical.drop (name.length + 1) then
      some (parseNat (physical.drop (name.length + 1)))
    else none
  else none

/-- Modelled from the spec: a gap in the chunk indices (§7(c)), seen from the
first missing index `stop`: the request carries a suffixed cookie of the
family with an index above it. -/
def hasChunkBeyond (req : Request) (name : GoString) (stop : Nat) : Bool :=
  req.Cookies.any (fun c =>
    match chunkIndex? name c.Name with
    | some j => decide (stop < j)
    | none => false)

/-- The result of `Decode`: the logical cookie is absent, or it has a value,
or its chunk indices have a gap ("no valid token"). -/
inductive Decoded where
  | notPresent
  | value (v : GoString)
  | noValidToken
  | outOfFuel
  deriving DecidableEq

/-- Modelled from the spec: `Decode(name, cookieLookup)` of §4.3, the read side
of the chunk codec, whose code is not in `cookies.go`: "read the bare-name
cookie as chunk 0 (absence of this one cookie means the logical cookie is
entirely absent)", then probe the suffixed names; by §7(c) "a logical cookie
with a gap in chunk indices is treated as absent/corrupt …: decode stops at
the gap and the partial bytes are discarded, signaling "no valid token" to the
caller rather than returning a truncated value".  The names `name-1`,
`name-2`, … are pairwise different, so a request with `n` cookies misses one of
the first `n + 1` of them: that is the fuel. -/
def Decode (req : Request) (name : GoString) : Decoded :=
  match req.Cookie name with
  | none => Decoded.notPresent
  | some c0 =>
    match decodeProbe req name (req.Cookies.length + 1) 1 c0.Value with
    | some (stop, v) =>
      if hasChunkBeyond req name stop then Decoded.noValidToken else Decoded.value v
    | none => Decoded.outOfFuel

/-- The two logical token cookies. -/
inductive Family where
  | access
  | refresh
  deriving DecidableEq

/-- The configured name of a family. -/
def Family.cookieName (cfg : Config) : Family → GoString
  | Family.access => cfg.CookieAccessName
  | Family.refresh => cfg.CookieRefreshName

/-- The write operation of a family: `dropAccessTokenCookie` or
`dropRefreshTokenCookie`. -/
def dropTokenCookie (f : Family) (cfg : Config) (clock : Nat → Int) (req : Request)
    (w : ResponseWriter) (value : GoString) (duration : Int) : Run :=
  match f with
  | Family.access => dropAccessTokenCookie cfg clock req w value duration
  | Family.refresh => dropRefreshTokenCookie cfg clock req w value duration

/-- The clear operation of a family: `clearAccessTokenCookie` or
`clearRefreshTokenCookie`. -/
def clearTokenCookie (f : Family) (cfg : Config) (clock : Nat → Int) (req : Request)
    (wrt : ResponseWriter) : Run :=
  match f with
  | Family.access => clearAccessTokenCookie cfg clock req wrt
  | Family.refresh => clearRefreshTokenCookie cfg clock req wrt

/-! ## Sample inputs -/

/-- A configuration with a persistent, HTTP-only cookie on `example.com`: the
budget of the name `kc-access` is `4069 - 9 - 11 - 10 - 39 = 4000`. -/
def demoConfig : Config :=
  ⟨[], false, ascii "example.com", ascii "kc-access", ascii "kc-state",
    ascii "OAuth_Token_Request_State", ascii "request_uri", false, true, [], false, false⟩

/-- A configuration with session cookies and a cookie domain of 4067 bytes:
the budget of a one-letter name is `4069 - 1 - 4067 = 1`. -/
def tinyConfig : Config :=
  ⟨[], true, List.replicate 4067 97, ascii "a", ascii "r", ascii "s", ascii "u",
    false, false, [], false, false⟩

/-- A configuration with session cookies and a cookie domain of 4068 bytes:
the budget of a one-letter name is `4069 - 1 - 4068 = 0`. -/
def zeroConfig : Config :=
  ⟨[], true, List.replicate 4068 97, ascii "a", ascii "r", ascii "s", ascii "u",
    false, false, [], false, false⟩

/-- The configuration `demoConfig` with session cookies enabled. -/
def sessionConfig : Config :=
  ⟨[], true, ascii "example.com", ascii "kc-access", ascii "kc-state",
    ascii "OAuth_Token_Request_State", ascii "request_uri", false, true, [], false, false⟩

/-- A request to `example.com:8080` that carries no cookie. -/
def demoRequest : Request := ⟨ascii "example.com:8080", [], ascii "/", []⟩

/-- A clock that advances by one nanosecond per write. -/
def demoClock : Nat → Int := fun n => 1000000 + n

/-- A request that carries the chunk cookie `kc-access-1` and nothing else. -/
def strayRequest : Request :=
  ⟨ascii "example.com:8080", [⟨ascii "kc-access-1", ascii "x"⟩], ascii "/", []⟩

/-- A request that carries `kc-state`, `kc-state-1`, `kc-state-2` and
`kc-state-4`. -/
def gapRequest : Request :=
  ⟨ascii "example.com:8080",
    [⟨ascii "kc-state", ascii "p"⟩, ⟨ascii "kc-state-2", ascii "r"⟩,
      ⟨ascii "kc-state-1", ascii "q"⟩, ⟨ascii "kc-state-4", ascii "s"⟩], ascii "/", []⟩

/-- A configuration without a cookie domain: persistent, HTTP-only cookies. -/
def hostConfig : Config :=
  ⟨[], false, [], ascii "kc-access", ascii "kc-state",
    ascii "OAuth_Token_Request_State", ascii "request_uri", false, true, [], false, false⟩

/-- The configuration `hostConfig` with the SameSite mode `bogus`. -/
def bogusConfig : Config :=
  ⟨[], false, [], ascii "kc-access", ascii "kc-state",
    ascii "OAuth_Token_Request_State", ascii "request_uri", false, true, ascii "bogus",
    false, false⟩

/-- A request to the IPv6 loopback address, port 8080, that carries no
cookie. -/
def ipv6Request : Request := ⟨ascii "[::1]:8080", [], ascii "/", []⟩

/-- A forward-auth configuration: `hostConfig` with `NoProxy` set. -/
def forwardAuthConfig : Config :=
  ⟨[], false, [], ascii "kc-access", ascii "kc-state",
    ascii "OAuth_Token_Request_State", ascii "request_uri", false, true, [], true, false⟩

/-- A request for `/auth` whose `X-Forwarded-Uri` header is `/app?x=1`. -/
def forwardedRequest : Request :=
  ⟨ascii "example.com", [], ascii "/auth", ascii "/app?x=1"⟩

/-- A successfully generated state token. -/
def demoToken : NewV4Result :=
  ⟨ascii "6ba7b810-9dad-41d1-80b4-00c04fd430c8", false⟩

/-- A failed generation of the state token: the error is not `nil`, and the
UUID is the nil UUID. -/
def failedToken : NewV4Result :=
  ⟨ascii "00000000-0000-0000-0000-000000000000", true⟩

/-- The request `strayRequest` with one more cookie, `theme`, which belongs to
no family. -/
def crowdedRequest : Request :=
  ⟨ascii "example.com:8080",
    [⟨ascii "kc-access-1", ascii "x"⟩, ⟨ascii "theme", ascii "dark"⟩], ascii "/", []⟩

/-- The configuration `demoConfig` with the refresh family under the name of
the access family, `kc-access`, so that both erasers look for the same
cookies. -/
def mirrorConfig : Config :=
  ⟨[], false, ascii "example.com", ascii "kc-access", ascii "kc-access",
    ascii "OAuth_Token_Request_State", ascii "request_uri", false, true, [], false, false⟩

/-- The configuration `demoConfig` with the cookie domain `.example.com`,
written with a leading dot. -/
def dotConfig : Config :=
  ⟨[], false, ascii ".example.com", ascii "kc-access", ascii "kc-state",
    ascii "OAuth_Token_Request_State", ascii "request_uri", false, true, [], false, false⟩

/-- The configuration `demoConfig` with the cookie domain `example.com:8080`,
which is not a domain name because of the port. -/
def portConfig : Config :=
  ⟨[], false, ascii "example.com:8080", ascii "kc-access", ascii "kc-state",
    ascii "OAuth_Token_Request_State", ascii "request_uri", false, true, [], false, false⟩

/-- The configuration `demoConfig` with the base URI `/app;v=1`. -/
def oddPathConfig : Config :=
  ⟨ascii "/app;v=1", false, ascii "example.com", ascii "kc-access", ascii "kc-state",
    ascii "OAuth_Token_Request_State", ascii "request_uri", false, true, [], false, false⟩

/-- The request a browser sends once it holds exactly the given cookies. -/
def requestWith (cs : List Cookie) : Request :=
  ⟨ascii "example.com:8080", cs.map sentBack, ascii "/", []⟩

/-! ## Decimal rendering -/

theorem digitByte_mod (n : Nat) : digitByte (n % 10) = digitByte n := by
  simp [digitByte, Nat.mod_mod]

theorem itoaDigits_eq (fuel : Nat) :
    ∀ (n : Nat) (acc : GoString), 0 < n → n < fuel →
      itoaDigits fuel n acc = ((Nat.digits 10 n).reverse.map digitByte) ++ acc := by
  induction fuel with
  | zero => intro n acc _ h; omega
  | succ fuel ih =>
    intro n acc h0 h
    rw [itoaDigits]
    by_cases h10 : n < 10
    · rw [if_pos h10, Nat.digits_of_lt 10 n (by omega) h10]
      simp
    · rw [if_neg h10, ih (n / 10) _ (by omega) (by omega),
        Nat.digits_def' (by decide) h0]
      simp [digitByte_mod]

theorem parseNat_formatNat (n : Nat) : parseNat (formatNat n) = n := by
  rcases Nat.eq_zero_or_pos n with h | h
  · subst h
    decide
  · rw [formatNat, itoaDigits_eq (n + 1) n [] h (by omega), parseNat]
    have hmap : List.map (fun b : Byte => b.val - 48)
        (List.map digitByte (Nat.digits 10 n).reverse ++ []) = (Nat.digits 10 n).reverse := by
      rw [List.append_nil, List.map_map]
      conv_rhs => rw [← List.map_id (Nat.digits 10 n).reverse]
      apply List.map_congr_left
      intro d hd
      have hlt : d < 10 := Nat.digits_lt_base (by decide) (List.mem_reverse.mp hd)
      simp only [Function.comp, digitByte, id]
      omega
    rw [hmap, List.reverse_reverse, Nat.ofDigits_digits]

theorem Itoa_natCast (n : Nat) : Itoa (n : Int) = formatNat n := by
  simp [Itoa]

theorem Itoa_natCast_inj {i j : Nat} (h : Itoa (i : Int) = Itoa (j : Int)) : i = j := by
  rw [Itoa_natCast, Itoa_natCast] at h
  have := congrArg parseNat h
  rwa [parseNat_formatNat, parseNat_formatNat] at this

theorem chunkName_zero (name : GoString) : chunkName name 0 = name := by
  simp [chunkName]

theorem chunkName_pos (name : GoString) {i : Nat} (h : 0 < i) :
    chunkName name i = name ++ ascii "-" ++ Itoa i := by
  simp [chunkName, Nat.pos_iff_ne_zero.mp h]

theorem chunkName_inj (name : GoString) {i j : Nat}
    (h : chunkName name i = chunkName name j) : i = j := by
  unfold chunkName at h
  by_cases hi : i = 0 <;> by_cases hj : j = 0
  · omega
  · rw [if_pos hi, if_neg hj] at h
    have := congrArg List.length h
    simp [ascii] at this
  · rw [if_neg hi, if_pos hj] at h
    have := congrArg List.length h
    simp [ascii] at this
  · rw [if_neg hi, if_neg hj] at h
    exact Itoa_natCast_inj (List.append_cancel_left h)

/-! ## The chunking writer -/

theorem slice_window (value : GoString) {b o : Nat} (ho : o < value.length) :
    slice? value (o : Int)
      (if (o : Int) + (b : Int) > len value then len value else (o : Int) + (b : Int))
      = some ((value.drop o).take b) := by
  unfold slice? len
  by_cases h : (o : Int) + (b : Int) > (value.length : Int)
  · rw [if_pos h, if_pos (by omega)]
    have h1 : (value.drop o).length ≤ (value.length : Int).toNat - (o : Int).toNat := by
      rw [List.length_drop]; omega
    have h2 : (value.drop o).length ≤ b := by
      rw [List.length_drop]; omega
    simp only [Int.toNat_ofNat]
    rw [List.take_of_length_le (by simp), List.take_of_length_le h2]
  · rw [if_neg h, if_pos (by omega)]
    have h1 : ((o : Int) + (b : Int)).toNat - (o : Int).toNat = b := by omega
    rw [h1]
    simp

theorem slice_head (value : GoString) {b : Nat} (hb : b < value.length) :
    slice? value 0 (b : Int) = some (value.take b) := by
  unfold slice? len
  rw [if_pos (by omega)]
  simp

theorem ceil_gt_iff {b : Nat} (hb : 0 < b) (n k : Nat) :
    k < (n + b - 1) / b ↔ k * b < n := by
  rw [Nat.lt_iff_add_one_le, Nat.le_div_iff_mul_le hb, Nat.add_mul]
  omega

theorem chunkLoop_eq (cfg : Config) (clock : Nat → Int) (host name value : GoString)
    (duration : Int) (base : Nat) {b : Nat} (hb : 0 < b) (fuel : Nat) :
    ∀ (k : Nat) (wrt : ResponseWriter), 0 < k → wrt.length = base + k →
      (value.length + b - 1) / b - k < fuel →
      chunkLoop cfg clock host name value duration (b : Int) fuel ((k * b : Nat) : Int) wrt
        = ⟨wrt ++ (List.range' k ((value.length + b - 1) / b - k)).map
            (chunkCookie cfg clock base name value duration b), Outcome.returned⟩ := by
  induction fuel with
  | zero => intro k wrt _ _ h; omega
  | succ fuel ih =>
    intro k wrt hk hlen hfuel
    rw [chunkLoop]
    by_cases hlt : k * b < value.length
    · have hcond : ((k * b : Nat) : Int) < len value := by
        unfold len; exact_mod_cast hlt
      have hb0 : ¬ ((b : Int) = 0) := by omega
      have hdiv : ((k * b : Nat) : Int).tdiv (b : Int) = (k : Int) := by
        rw [Nat.cast_mul]; exact Int.mul_tdiv_cancel _ hb0
      have hnext : ((k * b : Nat) : Int) + (b : Int) = (((k + 1) * b : Nat) : Int) := by
        push_cast; ring
      have hkN : k < (value.length + b - 1) / b := (ceil_gt_iff hb _ _).mpr hlt
      have hcount : (value.length + b - 1) / b - k
          = ((value.length + b - 1) / b - (k + 1)) + 1 := by omega
      simp only [if_pos hcond, if_neg hb0]
      rw [slice_window value hlt]
      simp only [hdiv]
      rw [hnext, ih (k + 1) _ (by omega) (by simp [dropCookie, hlen]; omega) (by omega)]
      rw [hcount, List.range'_succ, List.map_cons]
      simp [dropCookie, chunkCookie, hlen, chunkName_pos name hk]
    · have hcond : ¬ (((k * b : Nat) : Int) < len value) := by
        unfold len; exact_mod_cast hlt
      have hkN : ¬ (k < (value.length + b - 1) / b) := fun h => hlt ((ceil_gt_iff hb _ _).mp h)
      have hzero : (value.length + b - 1) / b - k = 0 := by omega
      rw [if_neg hcond, hzero]
      simp

theorem ceil_le_length {b : Nat} (hb : 0 < b) (n : Nat) : (n + b - 1) / b ≤ n := by
  by_contra h
  have h1 : n * b < n := (ceil_gt_iff hb n n).mp (by omega)
  have h2 : n ≤ n * b := Nat.le_mul_of_pos_right n hb
  omega

theorem dropCookieWithChunks_eq (cfg : Config) (clock : Nat → Int) (req : Request)
    (wrt : ResponseWriter) (name value : GoString) (duration : Int) {b : Nat} (hb : 0 < b)
    (hbudget : getMaxCookieChunkLength cfg req name = (b : Int)) :
    dropCookieWithChunks cfg clock req wrt name value duration
      = ⟨wrt ++ (List.range (chunkCount b value.length)).map
          (chunkCookie cfg clock wrt.length name value duration b), Outcome.returned⟩ := by
  unfold dropCookieWithChunks
  simp only [hbudget]
  by_cases hfit : value.length ≤ b
  · have hcond : len value ≤ (b : Int) := by unfold len; exact_mod_cast hfit
    rw [if_pos hcond]
    simp [chunkCount, hfit, dropCookie, chunkCookie, chunkName_zero,
      List.take_of_length_le hfit, List.range_succ]
  · have hcond : ¬ (len value ≤ (b : Int)) := by unfold len; exact_mod_cast hfit
    have hN : 1 < (value.length + b - 1) / b := (ceil_gt_iff hb _ _).mpr (by omega)
    have hle := ceil_le_length hb value.length
    have hloop := chunkLoop_eq cfg clock req.Host name value duration wrt.length hb
      (value.length + 1) 1 (dropCookie cfg clock wrt req.Host name (value.take b) duration)
      (by omega) (by simp [dropCookie]) (by omega)
    rw [Nat.one_mul] at hloop
    rw [if_neg hcond, slice_head value (by omega)]
    simp only []
    rw [hloop]
    have hrange : List.range (chunkCount b value.length)
        = 0 :: List.range' 1 ((value.length + b - 1) / b - 1) := by
      rw [chunkCount, if_neg hfit, List.range_eq_range']
      have : (value.length + b - 1) / b = ((value.length + b - 1) / b - 1) + 1 := by omega
      conv_lhs => rw [this, List.range'_succ]
    rw [hrange]
    simp [dropCookie, chunkCookie, chunkName_zero]

theorem budget_nat {B : Int} (h : 1 ≤ B) : ∃ b : Nat, 0 < b ∧ B = (b : Int) ∧ B.toNat = b :=
  ⟨B.toNat, by omega, by omega, rfl⟩

theorem written_append (wrt l : ResponseWriter) (o : Outcome) :
    written wrt ⟨wrt ++ l, o⟩ = l := by
  simp [written]

theorem written_encode (cfg : Config) (clock : Nat → Int) (req : Request)
    (wrt : ResponseWriter) (name value : GoString) (duration : Int) {b : Nat} (hb : 0 < b)
    (hbudget : getMaxCookieChunkLength cfg req name = (b : Int)) :
    written wrt (dropCookieWithChunks cfg clock req wrt name value duration)
      = (List.range (chunkCount b value.length)).map
          (chunkCookie cfg clock wrt.length name value duration b) := by
  rw [dropCookieWithChunks_eq cfg clock req wrt name value duration hb hbudget, written_append]

theorem chunkCount_pos (b n : Nat) (hb : 0 < b) : 0 < chunkCount b n := by
  unfold chunkCount
  split
  · omega
  · exact Nat.lt_of_le_of_lt (Nat.zero_le _) ((ceil_gt_iff hb n 0).mpr (by omega))

theorem chunkCount_mul_ge (b n : Nat) (hb : 0 < b) : n ≤ chunkCount b n * b := by
  unfold chunkCount
  split
  · omega
  · by_contra h
    have := (ceil_gt_iff hb n ((n + b - 1) / b)).mpr (by omega)
    omega

theorem flatten_windows (value : GoString) (b : Nat) (n : Nat) :
    ((List.range n).map (fun i => (value.drop (i * b)).take b)).flatten
      = value.take (n * b) := by
  induction n with
  | zero => simp
  | succ n ih =>
    rw [List.range_succ, List.map_append, List.flatten_append, ih, Nat.succ_mul,
      List.take_add]
    simp

theorem values_encode (cfg : Config) (clock : Nat → Int) (req : Request)
    (wrt : ResponseWriter) (name value : GoString) (duration : Int) {b : Nat} (hb : 0 < b)
    (hbudget : getMaxCookieChunkLength cfg req name = (b : Int)) :
    (written wrt (dropCookieWithChunks cfg clock req wrt name value duration)).map Cookie.Value
      = (List.range (chunkCount b value.length)).map (fun i => (value.drop (i * b)).take b) := by
  rw [written_encode cfg clock req wrt name value duration hb hbudget, List.map_map]
  rfl

theorem names_encode (cfg : Config) (clock : Nat → Int) (req : Request)
    (wrt : ResponseWriter) (name value : GoString) (duration : Int) {b : Nat} (hb : 0 < b)
    (hbudget : getMaxCookieChunkLength cfg req name = (b : Int)) :
    (written wrt (dropCookieWithChunks cfg clock req wrt name value duration)).map Cookie.Name
      = (List.range (chunkCount b value.length)).map (chunkName name) := by
  rw [written_encode cfg clock req wrt name value duration hb hbudget, List.map_map]
  rfl

theorem flatten_encode (cfg : Config) (clock : Nat → Int) (req : Request)
    (wrt : ResponseWriter) (name value : GoString) (duration : Int) {b : Nat} (hb : 0 < b)
    (hbudget : getMaxCookieChunkLength cfg req name = (b : Int)) :
    ((written wrt (dropCookieWithChunks cfg clock req wrt name value duration)).map
      Cookie.Value).flatten = value := by
  rw [values_encode cfg clock req wrt name value duration hb hbudget, flatten_windows,
    List.take_of_length_le (chunkCount_mul_ge b value.length hb)]

/-! ## Looking cookies up in a request -/

theorem find_of_nodup_names (l : List RequestCookie)
    (hnd : (l.map RequestCookie.Name).Nodup) (c : RequestCookie) (hc : c ∈ l) :
    l.find? (fun x => x.Name == c.Name) = some c := by
  induction l with
  | nil => cases hc
  | cons a l ih =>
    rw [List.map_cons, List.nodup_cons] at hnd
    rcases List.mem_cons.mp hc with h | h
    · subst h
      simp
    · have hne : a.Name ≠ c.Name := by
        intro heq
        exact hnd.1 (heq ▸ List.mem_map_of_mem RequestCookie.Name h)
      rw [List.find?_cons_of_neg _ (by simpa using hne)]
      exact ih hnd.2 h

theorem cookie_none_of_not_mem (req : Request) (n : GoString)
    (h : n ∉ req.Cookies.map RequestCookie.Name) : req.Cookie n = none := by
  unfold Request.Cookie
  rw [List.find?_eq_none]
  intro x hx hxn
  exact h (by
    have : x.Name = n := by simpa using hxn
    exact this ▸ List.mem_map_of_mem RequestCookie.Name hx)

theorem cookie_some_of_mem (req : Request)
    (hnd : (req.Cookies.map RequestCookie.Name).Nodup) (c : RequestCookie)
    (hc : c ∈ req.Cookies) : req.Cookie c.Name = some c :=
  find_of_nodup_names req.Cookies hnd c hc

theorem cookie_isSome_iff (req : Request) (n : GoString) :
    (req.Cookie n).isSome ↔ n ∈ req.Cookies.map RequestCookie.Name := by
  constructor
  · intro h
    by_contra hn
    rw [cookie_none_of_not_mem req n hn] at h
    cases h
  · intro h
    obtain ⟨c, hc, hcn⟩ := List.mem_map.mp h
    unfold Request.Cookie
    rw [List.find?_isSome]
    exact ⟨c, hc, by simpa using hcn⟩

theorem chunkNames_nodup (name : GoString) (n : Nat) :
    ((List.range n).map (chunkName name)).Nodup :=
  List.Nodup.map_on (fun _ _ _ _ h => chunkName_inj name h) (List.nodup_range n)

theorem sentBack_encode (cfg : Config) (clock : Nat → Int) (req : Request)
    (wrt : ResponseWriter) (name value : GoString) (duration : Int) {b : Nat} (hb : 0 < b)
    (hbudget : getMaxCookieChunkLength cfg req name = (b : Int)) :
    (written wrt (dropCookieWithChunks cfg clock req wrt name value duration)).map sentBack
      = (List.range (chunkCount b value.length)).map
          (fun i => (⟨chunkName name i, (value.drop (i * b)).take b⟩ : RequestCookie)) := by
  rw [written_encode cfg clock req wrt name value duration hb hbudget, List.map_map]
  rfl

theorem lookup_encoded (name value : GoString) (b n : Nat) (back : Request)
    (hperm : back.Cookies.Perm ((List.range n).map
      (fun i => (⟨chunkName name i, (value.drop (i * b)).take b⟩ : RequestCookie)))) :
    back.Cookies.length = n ∧
    (∀ i, i < n → back.Cookie (chunkName name i)
        = some ⟨chunkName name i, (value.drop (i * b)).take b⟩) ∧
    (∀ i, n ≤ i → back.Cookie (chunkName name i) = none) := by
  have hnames : (back.Cookies.map RequestCookie.Name).Perm
      ((List.range n).map (chunkName name)) := by
    have := hperm.map RequestCookie.Name
    rwa [List.map_map] at this
  have hnd : (back.Cookies.map RequestCookie.Name).Nodup :=
    (hnames.nodup_iff).mpr (chunkNames_nodup name n)
  refine ⟨by simpa using hperm.length_eq, ?_, ?_⟩
  · intro i hi
    have hmem : (⟨chunkName name i, (value.drop (i * b)).take b⟩ : RequestCookie)
        ∈ back.Cookies :=
      hperm.mem_iff.mpr (List.mem_map.mpr ⟨i, List.mem_range.mpr hi, rfl⟩)
    exact cookie_some_of_mem back hnd _ hmem
  · intro i hi
    apply cookie_none_of_not_mem
    intro hmem
    obtain ⟨j, hj, hji⟩ := List.mem_map.mp (hnames.mem_iff.mp hmem)
    have := chunkName_inj name hji
    have := List.mem_range.mp hj
    omega

theorem chunkIndex?_eq (name physical : GoString) (j : Nat)
    (h : chunkIndex? name physical = some j) : physical = chunkName name j ∧ 0 < j := by
  unfold chunkIndex? at h
  split_ifs at h with h1 h2
  have hj : parseNat (physical.drop (name.length + 1)) = j := Option.some.inj h
  rw [hj] at h2
  refine ⟨?_, h2.1⟩
  rw [chunkName_pos name h2.1, h2.2, ← h1, List.take_append_drop]

theorem no_chunk_beyond_encoded (name value : GoString) (b n : Nat) (back : Request)
    (hperm : back.Cookies.Perm ((List.range n).map
      (fun i => (⟨chunkName name i, (value.drop (i * b)).take b⟩ : RequestCookie))))
    (stop : Nat) (hstop : n ≤ stop) : hasChunkBeyond back name stop = false := by
  unfold hasChunkBeyond
  rw [List.any_eq_false]
  intro c hc
  cases hidx : chunkIndex? name c.Name with
  | none => simp
  | some j =>
    obtain ⟨hname, _⟩ := chunkIndex?_eq name c.Name j hidx
    obtain ⟨i, hi, hci⟩ := List.mem_map.mp (hperm.mem_iff.mp hc)
    have hnm : chunkName name i = chunkName name j := by
      rw [← hname, ← hci]
    have hij := chunkName_inj name hnm
    have := List.mem_range.mp hi
    simp only [decide_eq_true_eq]
    omega

theorem decodeProbe_eq (name value : GoString) (b n : Nat) (back : Request)
    (hsome : ∀ i, i < n → back.Cookie (chunkName name i)
        = some ⟨chunkName name i, (value.drop (i * b)).take b⟩)
    (hnone : ∀ i, n ≤ i → back.Cookie (chunkName name i) = none) (fuel : Nat) :
    ∀ (idx : Nat) (acc : GoString), 0 < idx → idx ≤ n → n - idx < fuel →
      decodeProbe back name fuel idx acc
        = some (n, acc ++ ((List.range' idx (n - idx)).map
            (fun i => (value.drop (i * b)).take b)).flatten) := by
  induction fuel with
  | zero => intro idx acc _ _ h; omega
  | succ fuel ih =>
    intro idx acc hidx hle hfuel
    rw [decodeProbe, ← chunkName_pos name hidx]
    by_cases hlt : idx < n
    · rw [hsome idx hlt]
      simp only []
      rw [ih (idx + 1) _ (by omega) (by omega) (by omega)]
      have : n - idx = (n - (idx + 1)) + 1 := by omega
      rw [this, List.range'_succ]
      simp
    · have : n - idx = 0 := by omega
      have hn : idx = n := by omega
      rw [hnone idx (by omega), this]
      simp [hn]

/-! ## The erasers -/

theorem clearLoop_eq (cfg : Config) (clock : Nat → Int) (req : Request) (name : GoString)
    (bound base : Nat) (fuel : Nat) :
    ∀ (j : Nat) (wrt : ResponseWriter), 0 < j → wrt.length = base + j →
      0 < fuel → bound < fuel + j →
      ∃ m : Nat,
        (∀ i, j ≤ i → i < j + m → i < bound ∧ (req.Cookie (chunkName name i)).isSome) ∧
        (j + m < bound → req.Cookie (chunkName name (j + m)) = none) ∧
        clearLoop cfg clock req name (bound : Int) fuel (j : Int) wrt
          = ⟨wrt ++ (List.range' j m).map (tombstone cfg clock base name),
              Outcome.returned⟩ := by
  induction fuel with
  | zero => intro j wrt _ _ h; omega
  | succ fuel ih =>
    intro j wrt hj hlen _ hfuel
    rw [clearLoop, ← chunkName_pos name hj]
    by_cases hlt : j < bound
    · have hcond : (j : Int) < (bound : Int) := by exact_mod_cast hlt
      rw [if_pos hcond]
      cases hc : req.Cookie (chunkName name j) with
      | none =>
        refine ⟨0, ?_, ?_, ?_⟩
        · intro i h1 h2; omega
        · intro _; simpa using hc
        · simp
      | some c =>
        have hnext : (j : Int) + 1 = ((j + 1 : Nat) : Int) := by push_cast; rfl
        obtain ⟨m, hall, hstop, heq⟩ := ih (j + 1)
          (dropCookie cfg clock wrt req.Host (chunkName name j) [] (-10 * Hour))
          (by omega) (by simp [dropCookie, hlen]; omega) (by omega) (by omega)
        refine ⟨m + 1, ?_, ?_, ?_⟩
        · intro i h1 h2
          rcases Nat.eq_or_lt_of_le h1 with h | h
          · subst h
            exact ⟨hlt, by simp [hc]⟩
          · exact hall i (by omega) (by omega)
        · intro h
          have := hstop (by omega)
          rwa [show j + 1 + m = j + (m + 1) by omega] at this
        · simp only []
          rw [hnext, heq, List.range'_succ, List.map_cons]
          simp [dropCookie, tombstone, hlen]
    · have hcond : ¬ ((j : Int) < (bound : Int)) := by exact_mod_cast hlt
      rw [if_neg hcond]
      refine ⟨0, ?_, ?_, ?_⟩
      · intro i h1 h2; omega
      · intro h; omega
      · simp

theorem clearFrom_eq (cfg : Config) (clock : Nat → Int) (req : Request) (name : GoString)
    (bound fuel : Nat) (wrt : ResponseWriter) (hfuel : bound ≤ fuel) (hpos : 0 < fuel) :
    ∃ k : Nat,
      (∀ i, 1 ≤ i → i ≤ k → i < bound ∧ (req.Cookie (chunkName name i)).isSome) ∧
      (k + 1 < bound → req.Cookie (chunkName name (k + 1)) = none) ∧
      clearLoop cfg clock req name (bound : Int) fuel 1
          (dropCookie cfg clock wrt req.Host name [] (-10 * Hour))
        = ⟨wrt ++ (List.range (k + 1)).map (tombstone cfg clock wrt.length name),
            Outcome.returned⟩ := by
  obtain ⟨m, hall, hstop, heq⟩ := clearLoop_eq cfg clock req name bound wrt.length fuel 1
    (dropCookie cfg clock wrt req.Host name [] (-10 * Hour)) (by omega)
    (by simp [dropCookie]) hpos (by omega)
  refine ⟨m, ?_, ?_, ?_⟩
  · intro i h1 h2
    exact hall i h1 (by omega)
  · intro h
    have := hstop (by omega)
    rwa [show 1 + m = m + 1 by omega] at this
  · have hcast : ((1 : Nat) : Int) = 1 := rfl
    rw [hcast] at heq
    rw [heq, List.range_eq_range', show m + 1 = m + 1 from rfl, List.range'_succ]
    simp [dropCookie, tombstone, chunkName_zero]

theorem clearRefreshTokenCookie_eq (cfg : Config) (clock : Nat → Int) (req : Request)
    (wrt : ResponseWriter) :
    ∃ k : Nat,
      (∀ i, 1 ≤ i → i ≤ k →
        i < 600 ∧ (req.Cookie (chunkName cfg.CookieRefreshName i)).isSome) ∧
      (k + 1 < 600 → req.Cookie (chunkName cfg.CookieRefreshName (k + 1)) = none) ∧
      clearRefreshTokenCookie cfg clock req wrt
        = ⟨wrt ++ (List.range (k + 1)).map (tombstone cfg clock wrt.length cfg.CookieRefreshName),
            Outcome.returned⟩ := by
  have := clearFrom_eq cfg clock req cfg.CookieRefreshName 600 600 wrt (by omega) (by omega)
  exact this

theorem clearAccessTokenCookie_eq (cfg : Config) (clock : Nat → Int) (req : Request)
    (wrt : ResponseWriter) :
    ∃ k : Nat,
      (∀ i, 1 ≤ i → i ≤ k →
        i < req.Cookies.length ∧ (req.Cookie (chunkName cfg.CookieAccessName i)).isSome) ∧
      (k + 1 < req.Cookies.length →
        req.Cookie (chunkName cfg.CookieAccessName (k + 1)) = none) ∧
      clearAccessTokenCookie cfg clock req wrt
        = ⟨wrt ++ (List.range (k + 1)).map (tombstone cfg clock wrt.length cfg.CookieAccessName),
            Outcome.returned⟩ := by
  have := clearFrom_eq cfg clock req cfg.CookieAccessName req.Cookies.length
    (req.Cookies.length + 1) wrt (by omega) (by omega)
  exact this

/-! ## Budgets of the sample inputs -/

theorem len_replicate (n : Nat) (x : Byte) : len (List.replicate n x) = n := by
  simp [len]

theorem replicate_ne_nil (n : Nat) (x : Byte) (h : 0 < n) : List.replicate n x ≠ [] := by
  intro h0
  have := congrArg List.length h0
  rw [List.length_replicate] at this
  simp at this
  omega

theorem demoBudget :
    getMaxCookieChunkLength demoConfig demoRequest (ascii "kc-access") = 4000 := by
  decide

theorem tinyBudget (req : Request) (name : GoString) (h : len name = 1) :
    getMaxCookieChunkLength tinyConfig req name = 1 := by
  unfold getMaxCookieChunkLength tinyConfig
  simp only [if_pos (replicate_ne_nil 4067 97 (by decide)), len_replicate, h]
  decide

theorem zeroBudget (req : Request) (name : GoString) (h : len name = 1) :
    getMaxCookieChunkLength zeroConfig req name = 0 := by
  unfold getMaxCookieChunkLength zeroConfig
  simp only [if_pos (replicate_ne_nil 4068 97 (by decide)), len_replicate, h]
  decide

theorem requestWith_cookies (cs : List Cookie) :
    (requestWith cs).Cookies = cs.map sentBack := rfl

theorem requestWith_perm (cs : List Cookie) :
    (requestWith cs).Cookies.Perm (cs.map sentBack) := by
  rw [requestWith_cookies]

theorem window_length (value : GoString) (b i : Nat) :
    ((value.drop (i * b)).take b).length = min b (value.length - i * b) := by
  simp [List.length_take, List.length_drop]

theorem ceil_bracket {b : Nat} (hb : 0 < b) {n : Nat} (hn : b < n) :
    1 < (n + b - 1) / b ∧ ((n + b - 1) / b - 1) * b < n ∧ n ≤ (n + b - 1) / b * b := by
  have h1 : 1 < (n + b - 1) / b := (ceil_gt_iff hb n 1).mpr (by omega)
  refine ⟨h1, (ceil_gt_iff hb n _).mp (by omega), ?_⟩
  by_contra h
  have := (ceil_gt_iff hb n ((n + b - 1) / b)).mpr (by omega)
  omega

theorem chunkCount_long {b n : Nat} (hn : b < n) : chunkCount b n = (n + b - 1) / b := by
  unfold chunkCount
  rw [if_neg (by omega)]

theorem slice_window_min (value : GoString) {b i : Nat} (hi : i * b < value.length) :
    slice? value ((i : Int) * (b : Int)) (min (((i : Int) + 1) * (b : Int)) (len value))
      = some ((value.drop (i * b)).take b) := by
  have h := slice_window value (b := b) hi
  have h1 : ((i * b : Nat) : Int) = (i : Int) * (b : Int) := by push_cast; ring
  have h2 : ((i : Int) + 1) * (b : Int) = (i : Int) * (b : Int) + (b : Int) := by ring
  rw [h1] at h
  rw [h2, ← h]
  congr 1
  by_cases hc : (i : Int) * (b : Int) + (b : Int) > len value
  · rw [if_pos hc, min_eq_right (by omega)]
  · rw [if_neg hc, min_eq_left (by omega)]

theorem demoBudget_lt : getMaxCookieChunkLength demoConfig demoRequest (ascii "kc-access")
    < len (List.replicate 9000 (120 : Byte)) := by
  rw [demoBudget, len_replicate]
  decide

theorem demoCount : ((List.replicate 9000 (120 : Byte)).length
    + (getMaxCookieChunkLength demoConfig demoRequest (ascii "kc-access")).toNat - 1)
    / (getMaxCookieChunkLength demoConfig demoRequest (ascii "kc-access")).toNat = 3 := by
  rw [demoBudget, List.length_replicate]
  decide

theorem dropCookieWithChunks_fits (cfg : Config) (clock : Nat → Int) (req : Request)
    (wrt : ResponseWriter) (name value : GoString) (duration : Int)
    (hfit : len value ≤ getMaxCookieChunkLength cfg req name) :
    dropCookieWithChunks cfg clock req wrt name value duration
      = ⟨wrt ++ [newCookie cfg (clock wrt.length) name value duration], Outcome.returned⟩ := by
  unfold dropCookieWithChunks
  simp only [if_pos hfit, dropCookie]

theorem dropCookieWithChunks_negative (cfg : Config) (clock : Nat → Int) (req : Request)
    (wrt : ResponseWriter) (name value : GoString) (duration : Int)
    (hneg : getMaxCookieChunkLength cfg req name < 0) :
    dropCookieWithChunks cfg clock req wrt name value duration = ⟨wrt, Outcome.panicked⟩ := by
  have hlen : 0 ≤ len value := by unfold len; omega
  unfold dropCookieWithChunks
  simp only [if_neg (show ¬ (len value ≤ getMaxCookieChunkLength cfg req name) by omega)]
  have hs : slice? value 0 (getMaxCookieChunkLength cfg req name) = none := by
    unfold slice?
    rw [if_neg (by omega)]
  rw [hs]

theorem dropCookieWithChunks_zero (cfg : Config) (clock : Nat → Int) (req : Request)
    (wrt : ResponseWriter) (name value : GoString) (duration : Int)
    (hzero : getMaxCookieChunkLength cfg req name = 0) (hne : value ≠ []) :
    dropCookieWithChunks cfg clock req wrt name value duration
      = ⟨wrt ++ [newCookie cfg (clock wrt.length) name [] duration], Outcome.panicked⟩ := by
  have hpos : 0 < value.length := List.length_pos.mpr hne
  have hlen : (0 : Int) < len value := by unfold len; omega
  unfold dropCookieWithChunks
  simp only [hzero, if_neg (show ¬ (len value ≤ 0) by omega)]
  have hs : slice? value 0 0 = some [] := by
    unfold slice?
    rw [if_pos (by omega)]
    simp
  rw [hs]
  simp only []
  rw [chunkLoop]
  simp only [if_pos hlen, if_true, dropCookie]

theorem present_count_le (req : Request) (name : GoString) (n : Nat)
    (h : ∀ i, i < n → (req.Cookie (chunkName name i)).isSome) : n ≤ req.Cookies.length := by
  have hsub : (List.range n).map (chunkName name) ⊆ req.Cookies.map RequestCookie.Name := by
    intro x hx
    obtain ⟨i, hi, rfl⟩ := List.mem_map.mp hx
    exact (cookie_isSome_iff req _).mp (h i (List.mem_range.mp hi))
  have := (List.subperm_of_subset (chunkNames_nodup name n) hsub).length_le
  simpa using this

theorem tombstone_name (cfg : Config) (clock : Nat → Int) (base : Nat) (name : GoString)
    (i : Nat) : (tombstone cfg clock base name i).Name = chunkName name i := rfl

theorem tombstone_value (cfg : Config) (clock : Nat → Int) (base : Nat) (name : GoString)
    (i : Nat) : (tombstone cfg clock base name i).Value = [] := rfl

theorem tombstone_expires (cfg : Config) (clock : Nat → Int) (base : Nat) (name : GoString)
    (i : Nat) :
    (tombstone cfg clock base name i).Expires
      = if cfg.EnableSessionCookies then none else some (clock (base + i) - 10 * Hour) := by
  have hd : ((-10 * Hour : Int) != 0) = true := by decide
  have hsub : clock (base + i) + -10 * Hour = clock (base + i) - 10 * Hour := by ring
  unfold tombstone newCookie
  simp only [hd, Bool.and_true, hsub]
  cases cfg.EnableSessionCookies <;> rfl

theorem tombstone_names (cfg : Config) (clock : Nat → Int) (base : Nat) (name : GoString)
    (k : Nat) :
    ((List.range (k + 1)).map (tombstone cfg clock base name)).map Cookie.Name
      = name :: (List.range k).map
          (fun (i : Nat) => name ++ ascii "-" ++ Itoa ((i : Int) + 1)) := by
  rw [List.map_map, List.range_succ_eq_map, List.map_cons, List.map_map]
  simp only [Function.comp, tombstone_name, chunkName_zero]
  rfl

theorem clearTokenCookie_eq (f : Family) (cfg : Config) (clock : Nat → Int) (req : Request)
    (wrt : ResponseWriter) :
    ∃ k : Nat,
      (∀ i, 1 ≤ i → i ≤ k → (req.Cookie (chunkName (f.cookieName cfg) i)).isSome) ∧
      clearTokenCookie f cfg clock req wrt
        = ⟨wrt ++ (List.range (k + 1)).map (tombstone cfg clock wrt.length (f.cookieName cfg)),
            Outcome.returned⟩ := by
  cases f
  · obtain ⟨k, h1, _, h3⟩ := clearAccessTokenCookie_eq cfg clock req wrt
    exact ⟨k, fun i hi hk => (h1 i hi hk).2, h3⟩
  · obtain ⟨k, h1, _, h3⟩ := clearRefreshTokenCookie_eq cfg clock req wrt
    exact ⟨k, fun i hi hk => (h1 i hi hk).2, h3⟩

theorem dropTokenCookie_eq (f : Family) (cfg : Config) (clock : Nat → Int) (req : Request)
    (w : ResponseWriter) (value : GoString) (duration : Int) :
    dropTokenCookie f cfg clock req w value duration
      = dropCookieWithChunks cfg clock req w (f.cookieName cfg) value duration := by
  cases f <;> rfl

theorem clear_after_encode (f : Family) (cfg : Config) (clock : Nat → Int) (back : Request)
    (wrt : ResponseWriter) (value : GoString) (b n : Nat) (hn : 0 < n)
    (hlen : back.Cookies.length = n)
    (hsome : ∀ i, i < n → back.Cookie (chunkName (f.cookieName cfg) i)
        = some ⟨chunkName (f.cookieName cfg) i, (value.drop (i * b)).take b⟩)
    (hnone : ∀ i, n ≤ i → back.Cookie (chunkName (f.cookieName cfg) i) = none)
    (hbound : f = Family.refresh → n ≤ 600) :
    clearTokenCookie f cfg clock back wrt
      = ⟨wrt ++ (List.range n).map (tombstone cfg clock wrt.length (f.cookieName cfg)),
          Outcome.returned⟩ := by
  cases f
  · obtain ⟨k, h1, h2, h3⟩ := clearAccessTokenCookie_eq cfg clock back wrt
    have hle : k + 1 ≤ n := by
      rcases Nat.eq_zero_or_pos k with h | h
      · omega
      · have := (h1 k h (Nat.le_refl k)).1
        omega
    have hge : n ≤ k + 1 := by
      by_contra hlt
      have ha := h2 (by omega)
      have hs := hsome (k + 1) (by omega)
      simp only [Family.cookieName] at hs
      rw [ha] at hs
      cases hs
    have : k + 1 = n := by omega
    rw [this] at h3
    exact h3
  · obtain ⟨k, h1, h2, h3⟩ := clearRefreshTokenCookie_eq cfg clock back wrt
    have h600 := hbound rfl
    have hle : k + 1 ≤ n := by
      rcases Nat.eq_zero_or_pos k with h | h
      · omega
      · have hp := (h1 k h (Nat.le_refl k)).2
        by_contra hlt
        have ha := hnone k (by omega)
        simp only [Family.cookieName] at ha
        rw [ha] at hp
        cases hp
    have hge : n ≤ k + 1 := by
      by_contra hlt
      have ha := h2 (by omega)
      have hs := hsome (k + 1) (by omega)
      simp only [Family.cookieName] at hs
      rw [ha] at hs
      cases hs
    have : k + 1 = n := by omega
    rw [this] at h3
    exact h3

/-! ## The fuel is always enough -/

theorem dropCookieWithChunks_ends (cfg : Config) (clock : Nat → Int) (req : Request)
    (wrt : ResponseWriter) (name value : GoString) (duration : Int) :
    (dropCookieWithChunks cfg clock req wrt name value duration).outcome
      ≠ Outcome.outOfFuel := by
  rcases Int.lt_or_le 0 (getMaxCookieChunkLength cfg req name) with hpos | hle
  · obtain ⟨b, hb0, hB, _⟩ := budget_nat (show 1 ≤ getMaxCookieChunkLength cfg req name by omega)
    rw [dropCookieWithChunks_eq cfg clock req wrt name value duration hb0 hB]
    simp
  · rcases lt_or_eq_of_le hle with h | h
    · rw [dropCookieWithChunks_negative cfg clock req wrt name value duration h]
      simp
    · by_cases hv : value = []
      · rw [dropCookieWithChunks_fits cfg clock req wrt name value duration
          (by rw [h, hv]; decide)]
        simp
      · rw [dropCookieWithChunks_zero cfg clock req wrt name value duration h hv]
        simp

theorem decodeProbe_none (req : Request) (name : GoString) (fuel : Nat) :
    ∀ (idx : Nat) (acc : GoString), 0 < idx → decodeProbe req name fuel idx acc = none →
      ∀ i, idx ≤ i → i < idx + fuel → (req.Cookie (chunkName name i)).isSome := by
  induction fuel with
  | zero => intro idx acc _ _ i h1 h2; omega
  | succ fuel ih =>
    intro idx acc hidx hnone i h1 h2
    rw [decodeProbe, ← chunkName_pos name hidx] at hnone
    cases hc : req.Cookie (chunkName name idx) with
    | none => rw [hc] at hnone; cases hnone
    | some c =>
      rw [hc] at hnone
      rcases Nat.eq_or_lt_of_le h1 with h | h
      · subst h
        rw [hc]
        rfl
      · exact ih (idx + 1) _ (by omega) hnone i (by omega) (by omega)

theorem Decode_ends (req : Request) (name : GoString) :
    Decode req name ≠ Decoded.outOfFuel := by
  unfold Decode
  cases h0 : req.Cookie name with
  | none => simp
  | some c0 =>
    cases hp : decodeProbe req name (req.Cookies.length + 1) 1 c0.Value with
    | some p =>
      obtain ⟨stop, v⟩ := p
      simp only [hp]
      split <;> simp
    | none =>
      exfalso
      have hall := decodeProbe_none req name _ 1 _ (by omega) hp
      have := present_count_le req name (req.Cookies.length + 2) (by
        intro i hi
        rcases Nat.eq_zero_or_pos i with hz | hz
        · subst hz
          rw [chunkName_zero, h0]
          rfl
        · exact hall i hz (by omega))
      omega

theorem Decode_gap :
    Decode gapRequest (ascii "kc-state") = Decoded.noValidToken := by
  decide

/-! ## The `Set-Cookie` headers of the written cookies -/

theorem foldl_SetCookie (l : ResponseWriter) :
    ∀ acc : List Cookie, l.foldl SetCookie acc = acc ++ l.filterMap Cookie.String := by
  induction l with
  | nil => intro acc; simp
  | cons c l ih =>
    intro acc
    rw [List.foldl_cons, ih]
    cases hc : c.String with
    | none => simp [SetCookie, hc]
    | some v => simp [SetCookie, hc]

theorem setCookieHeaders_eq (wrt : ResponseWriter) :
    setCookieHeaders wrt = wrt.filterMap Cookie.String := by
  unfold setCookieHeaders
  rw [foldl_SetCookie]
  rfl

theorem setCookieHeaders_append (a b : ResponseWriter) :
    setCookieHeaders (a ++ b) = setCookieHeaders a ++ setCookieHeaders b := by
  simp only [setCookieHeaders_eq, List.filterMap_append]

theorem String_of_valid (c : Cookie) (h : isCookieNameValid c.Name = true) :
    c.String = some c.headerLine := by
  simp [Cookie.String, h]

theorem String_of_invalid (c : Cookie) (h : isCookieNameValid c.Name = false) :
    c.String = none := by
  simp [Cookie.String, h]

theorem setCookieHeaders_of_valid (l : ResponseWriter)
    (h : ∀ c ∈ l, isCookieNameValid c.Name = true) :
    setCookieHeaders l = l.map Cookie.headerLine := by
  rw [setCookieHeaders_eq]
  induction l with
  | nil => rfl
  | cons c l ih =>
    rw [List.filterMap_cons, String_of_valid c (h c (List.mem_cons_self c l)), List.map_cons,
      ih (fun x hx => h x (List.mem_cons_of_mem c hx))]

theorem setCookieHeaders_of_invalid (l : ResponseWriter)
    (h : ∀ c ∈ l, isCookieNameValid c.Name = false) :
    setCookieHeaders l = [] := by
  rw [setCookieHeaders_eq]
  induction l with
  | nil => rfl
  | cons c l ih =>
    rw [List.filterMap_cons, String_of_invalid c (h c (List.mem_cons_self c l))]
    exact ih (fun x hx => h x (List.mem_cons_of_mem c hx))

theorem headerLine_name (c : Cookie) : c.headerLine.Name = c.Name := rfl

theorem headerLine_value (c : Cookie) : c.headerLine.Value = sanitizeCookieValue c.Value := rfl

theorem sanitizeCookieValue_of_octets (v : GoString) (h : v.all isCookieOctet = true) :
    sanitizeCookieValue v = v := by
  rw [List.all_eq_true] at h
  have hfilter : sanitizeOrWarn validCookieValueByte v = v := by
    unfold sanitizeOrWarn
    rw [List.filter_eq_self]
    intro b hb
    have := h b hb
    unfold isCookieOctet at this
    simp only [Bool.and_eq_true] at this
    exact this.1.1
  have hany : v.any (fun b => b == 32 || b == 44) = false := by
    rw [List.any_eq_false]
    intro b hb
    have := h b hb
    unfold isCookieOctet at this
    simp only [Bool.and_eq_true, bne_iff_ne, ne_eq] at this
    simp [this.1.2, this.2]
  unfold sanitizeCookieValue
  simp only [hfilter, hany]
  split <;> simp

theorem octets_of_window (value : GoString) (h : value.all isCookieOctet = true) (k b : Nat) :
    ((value.drop k).take b).all isCookieOctet = true := by
  rw [List.all_eq_true] at h ⊢
  intro x hx
  exact h x (List.mem_of_mem_drop (List.mem_of_mem_take hx))

theorem isTokenByte_digitByte (d : Nat) : isTokenByte (digitByte d) = true := by
  have h : ∀ r, r < 10 → isTokenByte (digitByte r) = true := by decide
  rw [← digitByte_mod]
  exact h _ (Nat.mod_lt _ (by decide))

theorem formatNat_token (n : Nat) : (formatNat n).all isTokenByte = true := by
  rcases Nat.eq_zero_or_pos n with h | h
  · subst h
    decide
  · rw [formatNat, itoaDigits_eq (n + 1) n [] h (by omega), List.all_eq_true]
    intro x hx
    rw [List.append_nil, List.mem_map] at hx
    obtain ⟨d, _, rfl⟩ := hx
    exact isTokenByte_digitByte d

theorem isCookieNameValid_chunkName (name : GoString) (i : Nat)
    (h : isCookieNameValid name = true) : isCookieNameValid (chunkName name i) = true := by
  rcases Nat.eq_zero_or_pos i with h0 | h0
  · subst h0
    rw [chunkName_zero]
    exact h
  · rw [chunkName_pos name h0, Itoa_natCast]
    unfold isCookieNameValid at h ⊢
    simp only [Bool.and_eq_true, bne_iff_ne, ne_eq] at h ⊢
    refine ⟨?_, ?_⟩
    · intro hnil
      have := congrArg List.length hnil
      simp [ascii] at this
    · rw [List.all_append, List.all_append, h.2, formatNat_token]
      decide

theorem writtenHeaders_append (wrt l : ResponseWriter) (o : Outcome) :
    writtenHeaders wrt ⟨wrt ++ l, o⟩ = setCookieHeaders l := by
  unfold writtenHeaders
  rw [written_append]

theorem writtenHeaders_encode (cfg : Config) (clock : Nat → Int) (req : Request)
    (wrt : ResponseWriter) (name value : GoString) (duration : Int) {b : Nat} (hb : 0 < b)
    (hbudget : getMaxCookieChunkLength cfg req name = (b : Int))
    (hname : isCookieNameValid name = true) :
    writtenHeaders wrt (dropCookieWithChunks cfg clock req wrt name value duration)
      = (List.range (chunkCount b value.length)).map
          (fun i => (chunkCookie cfg clock wrt.length name value duration b i).headerLine) := by
  unfold writtenHeaders
  rw [written_encode cfg clock req wrt name value duration hb hbudget,
    setCookieHeaders_of_valid, List.map_map]
  · rfl
  · intro c hc
    obtain ⟨i, _, rfl⟩ := List.mem_map.mp hc
    exact isCookieNameValid_chunkName name i hname

theorem header_names_encode (cfg : Config) (clock : Nat → Int) (req : Request)
    (wrt : ResponseWriter) (name value : GoString) (duration : Int) {b : Nat} (hb : 0 < b)
    (hbudget : getMaxCookieChunkLength cfg req name = (b : Int))
    (hname : isCookieNameValid name = true) :
    (writtenHeaders wrt (dropCookieWithChunks cfg clock req wrt name value duration)).map
        Cookie.Name
      = (List.range (chunkCount b value.length)).map (chunkName name) := by
  rw [writtenHeaders_encode cfg clock req wrt name value duration hb hbudget hname,
    List.map_map]
  rfl

theorem header_values_encode (cfg : Config) (clock : Nat → Int) (req : Request)
    (wrt : ResponseWriter) (name value : GoString) (duration : Int) {b : Nat} (hb : 0 < b)
    (hbudget : getMaxCookieChunkLength cfg req name = (b : Int))
    (hname : isCookieNameValid name = true) :
    (writtenHeaders wrt (dropCookieWithChunks cfg clock req wrt name value duration)).map
        Cookie.Value
      = (List.range (chunkCount b value.length)).map
          (fun i => sanitizeCookieValue ((value.drop (i * b)).take b)) := by
  rw [writtenHeaders_encode cfg clock req wrt name value duration hb hbudget hname,
    List.map_map]
  rfl

theorem header_values_of_octets (cfg : Config) (clock : Nat → Int) (req : Request)
    (wrt : ResponseWriter) (name value : GoString) (duration : Int) {b : Nat} (hb : 0 < b)
    (hbudget : getMaxCookieChunkLength cfg req name = (b : Int))
    (hname : isCookieNameValid name = true) (hvalue : value.all isCookieOctet = true) :
    (writtenHeaders wrt (dropCookieWithChunks cfg clock req wrt name value duration)).map
        Cookie.Value
      = (List.range (chunkCount b value.length)).map (fun i => (value.drop (i * b)).take b) := by
  rw [header_values_encode cfg clock req wrt name value duration hb hbudget hname]
  apply List.map_congr_left
  intro i _
  exact sanitizeCookieValue_of_octets _ (octets_of_window value hvalue _ _)

theorem sentBack_headers_encode (cfg : Config) (clock : Nat → Int) (req : Request)
    (wrt : ResponseWriter) (name value : GoString) (duration : Int) {b : Nat} (hb : 0 < b)
    (hbudget : getMaxCookieChunkLength cfg req name = (b : Int))
    (hname : isCookieNameValid name = true) (hvalue : value.all isCookieOctet = true) :
    (writtenHeaders wrt (dropCookieWithChunks cfg clock req wrt name value duration)).map
        sentBack
      = (List.range (chunkCount b value.length)).map
          (fun i => (⟨chunkName name i, (value.drop (i * b)).take b⟩ : RequestCookie)) := by
  rw [writtenHeaders_encode cfg clock req wrt name value duration hb hbudget hname,
    List.map_map]
  apply List.map_congr_left
  intro i _
  show (⟨chunkName name i, sanitizeCookieValue ((value.drop (i * b)).take b)⟩ : RequestCookie)
    = _
  rw [sanitizeCookieValue_of_octets _ (octets_of_window value hvalue _ _)]

/-! ## The claims -/

/-- C1 as stated fails (against the spec's Decode): `http.SetCookie` drops the
byte `';'` from a cookie value, so for the value `tok;en` the physical cookie
holds `token`, and `Decode` of the cookies sent back returns `token`; for the
name `kc access`, which is not a valid cookie name, no cookie is written and
`Decode` finds nothing. -/
theorem roundtrip_loses_invalid_bytes :
    1 ≤ getMaxCookieChunkLength demoConfig demoRequest (ascii "kc-access") ∧
    Decode (requestWith (writtenHeaders [] (dropCookieWithChunks demoConfig demoClock
        demoRequest [] (ascii "kc-access") (ascii "tok;en") Hour))) (ascii "kc-access")
      = Decoded.value (ascii "token") ∧
    ascii "token" ≠ ascii "tok;en" ∧
    1 ≤ getMaxCookieChunkLength demoConfig demoRequest (ascii "kc access") ∧
    Decode (requestWith (writtenHeaders [] (dropCookieWithChunks demoConfig demoClock
        demoRequest [] (ascii "kc access") (ascii "token") Hour))) (ascii "kc access")
      = Decoded.notPresent := by
  decide

/-- C1 (amended; round trip against the spec's Decode): when `name` is a valid
cookie name, every byte of `value` is a cookie octet, the budget computed for
`name` is at least 1 and a request carries exactly the physical cookies that
`dropCookieWithChunks` put on the response for `(name, value)`, in any order,
`Decode` of that request returns exactly `value`. -/
theorem decode_encode_roundtrip (cfg : Config) (clock : Nat → Int) (req : Request)
    (wrt : ResponseWriter) (name value : GoString) (duration : Int) (back : Request)
    (hname : isCookieNameValid name = true)
    (hvalue : value.all isCookieOctet = true)
    (hb : 1 ≤ getMaxCookieChunkLength cfg req name)
    (hback : back.Cookies.Perm
      ((writtenHeaders wrt (dropCookieWithChunks cfg clock req wrt name value duration)).map
        sentBack)) :
    Decode back name = Decoded.value value := by
  obtain ⟨b, hb0, hB, _⟩ := budget_nat hb
  rw [sentBack_headers_encode cfg clock req wrt name value duration hb0 hB hname hvalue]
    at hback
  obtain ⟨hlen, hsome, hnone⟩ := lookup_encoded name value b _ back hback
  have hgap := no_chunk_beyond_encoded name value b _ back hback _ (Nat.le_refl _)
  have hpos := chunkCount_pos b value.length hb0
  have h0 := hsome 0 hpos
  rw [chunkName_zero] at h0
  unfold Decode
  rw [h0]
  simp only []
  rw [hlen, decodeProbe_eq name value b _ back hsome hnone _ 1 _ (by omega) (by omega)
    (by omega)]
  have hflat := flatten_windows value b (chunkCount b value.length)
  rw [List.take_of_length_le (chunkCount_mul_ge b value.length hb0),
    List.range_eq_range',
    show chunkCount b value.length = (chunkCount b value.length - 1) + 1 by omega,
    List.range'_succ] at hflat
  simp only [List.map_cons, List.flatten_cons, Nat.add_sub_cancel, Nat.zero_add] at hflat
  simp only [hgap, hflat]
  rfl

theorem decode_encode_roundtrip_witness :
    isCookieNameValid (ascii "a") = true ∧
    (ascii "hello").all isCookieOctet = true ∧
    1 ≤ getMaxCookieChunkLength tinyConfig demoRequest (ascii "a") ∧
    Decode (requestWith (writtenHeaders [] (dropCookieWithChunks tinyConfig demoClock
      demoRequest [] (ascii "a") (ascii "hello") 0))) (ascii "a")
      = Decoded.value (ascii "hello") :=
  ⟨by decide, by decide, by rw [tinyBudget _ _ (by decide)],
    decode_encode_roundtrip tinyConfig demoClock demoRequest [] (ascii "a") (ascii "hello") 0 _
      (by decide) (by decide) (by rw [tinyBudget _ _ (by decide)]) (requestWith_perm _)⟩

/-- C2 as stated fails: for the value `tok;en` the values of the physical
cookies concatenate to `token`, because `http.SetCookie` drops the byte `';'`;
and the names `kc-access` and `kc access` have the same budget, yet the value
`token` reaches the response under the first and not under the second, which
is not a valid cookie name. -/
theorem header_values_depend_on_bytes_and_name :
    1 ≤ getMaxCookieChunkLength demoConfig demoRequest (ascii "kc-access") ∧
    ((writtenHeaders [] (dropCookieWithChunks demoConfig demoClock demoRequest []
      (ascii "kc-access") (ascii "tok;en") Hour)).map Cookie.Value).flatten = ascii "token" ∧
    ascii "token" ≠ ascii "tok;en" ∧
    getMaxCookieChunkLength demoConfig demoRequest (ascii "kc access")
      = getMaxCookieChunkLength demoConfig demoRequest (ascii "kc-access") ∧
    (writtenHeaders [] (dropCookieWithChunks demoConfig demoClock demoRequest []
      (ascii "kc-access") (ascii "token") Hour)).map Cookie.Value = [ascii "token"] ∧
    (writtenHeaders [] (dropCookieWithChunks demoConfig demoClock demoRequest []
      (ascii "kc access") (ascii "token") Hour)).map Cookie.Value = [] := by
  decide

/-- C2 (amended): when `name` is a valid cookie name and the budget computed
for it is at least 1, the call returns; the values of the physical cookies it
put on the response, concatenated in write order, are exactly `value` when
every byte of `value` is a cookie octet; and a call with any other
configuration, request, response, valid name and lifetime that computes the
same budget puts the same sequence of values on the response. -/
theorem chunk_values_concat_and_depend_on_budget (cfg : Config) (clock : Nat → Int)
    (req : Request) (wrt : ResponseWriter) (name value : GoString) (duration : Int)
    (cfg2 : Config) (clock2 : Nat → Int) (req2 : Request) (wrt2 : ResponseWriter)
    (name2 : GoString) (duration2 : Int)
    (hname : isCookieNameValid name = true)
    (hname2 : isCookieNameValid name2 = true)
    (hb : 1 ≤ getMaxCookieChunkLength cfg req name)
    (hsame : getMaxCookieChunkLength cfg2 req2 name2 = getMaxCookieChunkLength cfg req name) :
    (dropCookieWithChunks cfg clock req wrt name value duration).outcome = Outcome.returned ∧
    (value.all isCookieOctet = true →
      ((writtenHeaders wrt (dropCookieWithChunks cfg clock req wrt name value duration)).map
        Cookie.Value).flatten = value) ∧
    (writtenHeaders wrt2 (dropCookieWithChunks cfg2 clock2 req2 wrt2 name2 value duration2)).map
        Cookie.Value
      = (writtenHeaders wrt (dropCookieWithChunks cfg clock req wrt name value duration)).map
        Cookie.Value := by
  obtain ⟨b, hb0, hB, _⟩ := budget_nat hb
  refine ⟨?_, ?_, ?_⟩
  · rw [dropCookieWithChunks_eq cfg clock req wrt name value duration hb0 hB]
  · intro hvalue
    rw [header_values_of_octets cfg clock req wrt name value duration hb0 hB hname hvalue,
      flatten_windows, List.take_of_length_le (chunkCount_mul_ge b value.length hb0)]
  · rw [header_values_encode cfg clock req wrt name value duration hb0 hB hname,
      header_values_encode cfg2 clock2 req2 wrt2 name2 value duration2 hb0 (hsame.trans hB)
        hname2]

theorem chunk_values_concat_and_depend_on_budget_witness :
    isCookieNameValid (ascii "a") = true ∧ isCookieNameValid (ascii "r") = true ∧
    1 ≤ getMaxCookieChunkLength tinyConfig demoRequest (ascii "a") ∧
    getMaxCookieChunkLength tinyConfig (requestWith []) (ascii "r")
      = getMaxCookieChunkLength tinyConfig demoRequest (ascii "a") ∧
    (dropCookieWithChunks tinyConfig demoClock demoRequest [] (ascii "a") (ascii "hello")
      0).outcome = Outcome.returned ∧
    ((writtenHeaders [] (dropCookieWithChunks tinyConfig demoClock demoRequest [] (ascii "a")
      (ascii "hello") 0)).map Cookie.Value).flatten = ascii "hello" ∧
    (writtenHeaders [] (dropCookieWithChunks tinyConfig (fun _ => 0) (requestWith []) []
        (ascii "r") (ascii "hello") Hour)).map Cookie.Value
      = (writtenHeaders [] (dropCookieWithChunks tinyConfig demoClock demoRequest [] (ascii "a")
        (ascii "hello") 0)).map Cookie.Value := by
  have h := chunk_values_concat_and_depend_on_budget tinyConfig demoClock demoRequest []
    (ascii "a") (ascii "hello") 0 tinyConfig (fun _ => 0) (requestWith []) [] (ascii "r") Hour
    (by decide) (by decide) (by rw [tinyBudget _ _ (by decide)])
    (by rw [tinyBudget _ _ (by decide), tinyBudget _ _ (by decide)])
  exact ⟨by decide, by decide, by rw [tinyBudget _ _ (by decide)],
    by rw [tinyBudget _ _ (by decide), tinyBudget _ _ (by decide)],
    h.1, h.2.1 (by decide), h.2.2⟩

/-- C3 as stated fails: with budget 1 the value `x;y` is cut into the three
chunks `x`, `;` and `y`, and `http.SetCookie` drops the byte `';'`, so the
physical cookie `a-1` has an empty value; under the name `a b`, which is not a
valid cookie name, the value `token` is written as no cookie at all. -/
theorem semicolon_chunk_is_written_empty :
    isCookieNameValid (ascii "a") = true ∧
    1 ≤ getMaxCookieChunkLength tinyConfig demoRequest (ascii "a") ∧
    getMaxCookieChunkLength tinyConfig demoRequest (ascii "a") < len (ascii "x;y") ∧
    (writtenHeaders [] (dropCookieWithChunks tinyConfig demoClock demoRequest [] (ascii "a")
      (ascii "x;y") 0)).map Cookie.Name = [ascii "a", ascii "a-1", ascii "a-2"] ∧
    (writtenHeaders [] (dropCookieWithChunks tinyConfig demoClock demoRequest [] (ascii "a")
      (ascii "x;y") 0)).map Cookie.Value = [ascii "x", [], ascii "y"] ∧
    1 ≤ getMaxCookieChunkLength demoConfig demoRequest (ascii "a b") ∧
    writtenHeaders [] (dropCookieWithChunks demoConfig demoClock demoRequest [] (ascii "a b")
      (ascii "token") Hour) = [] := by
  have hB : getMaxCookieChunkLength tinyConfig demoRequest (ascii "a") = ((1 : Nat) : Int) := by
    rw [tinyBudget _ _ (by decide)]; rfl
  refine ⟨by decide, by rw [tinyBudget _ _ (by decide)],
    by rw [tinyBudget _ _ (by decide)]; decide, ?_, ?_, by decide, by decide⟩
  · rw [header_names_encode tinyConfig demoClock demoRequest [] (ascii "a") (ascii "x;y") 0
      (by decide) hB (by decide)]
    decide
  · rw [header_values_encode tinyConfig demoClock demoRequest [] (ascii "a") (ascii "x;y") 0
      (by decide) hB (by decide)]
    decide

/-- C3 (amended): when `name` is a valid cookie name, the budget `b` computed
for it is at least 1 and `value` is longer than `b`, the call returns after
putting exactly `n = ceil(len(value)/b)` physical cookies on the response
(`(n-1)*b < len(value) ≤ n*b`), named in write order `name`, `name-1`, …,
`name-(n-1)`; no chunk handed to `http.SetCookie` is empty, and when every
byte of `value` is a cookie octet none of the physical cookies has an empty
value. -/
theorem chunk_count_and_names (cfg : Config) (clock : Nat → Int) (req : Request)
    (wrt : ResponseWriter) (name value : GoString) (duration : Int)
    (hname : isCookieNameValid name = true)
    (hb : 1 ≤ getMaxCookieChunkLength cfg req name)
    (hlong : getMaxCookieChunkLength cfg req name < len value) :
    ∃ n : Nat,
      n = (value.length + (getMaxCookieChunkLength cfg req name).toNat - 1)
            / (getMaxCookieChunkLength cfg req name).toNat ∧
      ((n : Int) - 1) * getMaxCookieChunkLength cfg req name < len value ∧
      len value ≤ (n : Int) * getMaxCookieChunkLength cfg req name ∧
      (dropCookieWithChunks cfg clock req wrt name value duration).outcome
        = Outcome.returned ∧
      (writtenHeaders wrt
        (dropCookieWithChunks cfg clock req wrt name value duration)).length = n ∧
      (writtenHeaders wrt
        (dropCookieWithChunks cfg clock req wrt name value duration)).map Cookie.Name
        = name :: (List.range (n - 1)).map
            (fun (i : Nat) => name ++ ascii "-" ++ Itoa ((i : Int) + 1)) ∧
      (∀ c ∈ written wrt (dropCookieWithChunks cfg clock req wrt name value duration),
        c.Value ≠ []) ∧
      (value.all isCookieOctet = true →
        ∀ c ∈ writtenHeaders wrt (dropCookieWithChunks cfg clock req wrt name value duration),
          c.Value ≠ []) := by
  obtain ⟨b, hb0, hB, hBn⟩ := budget_nat hb
  have hlen : b < value.length := by
    unfold len at hlong; rw [hB] at hlong; exact_mod_cast hlong
  obtain ⟨h1, hlo, hhi⟩ := ceil_bracket hb0 hlen
  have hwin : ∀ i ∈ List.range ((value.length + b - 1) / b),
      (value.drop (i * b)).take b ≠ [] := by
    intro i hi hnil
    have hi2 : i * b < value.length := (ceil_gt_iff hb0 _ _).mp (List.mem_range.mp hi)
    have := congrArg List.length hnil
    rw [window_length value b i] at this
    simp at this
    omega
  refine ⟨(value.length + b - 1) / b, by rw [hBn], ?_, ?_, ?_, ?_, ?_, ?_, ?_⟩
  · rw [hB]
    have : (((value.length + b - 1) / b : Nat) : Int) - 1
        = (((value.length + b - 1) / b - 1 : Nat) : Int) := by omega
    rw [this]
    unfold len
    exact_mod_cast hlo
  · rw [hB]
    unfold len
    exact_mod_cast hhi
  · rw [dropCookieWithChunks_eq cfg clock req wrt name value duration hb0 hB]
  · rw [writtenHeaders_encode cfg clock req wrt name value duration hb0 hB hname,
      chunkCount_long hlen]
    simp
  · rw [header_names_encode cfg clock req wrt name value duration hb0 hB hname,
      chunkCount_long hlen]
    have : (value.length + b - 1) / b = ((value.length + b - 1) / b - 1) + 1 := by omega
    conv_lhs => rw [this, List.range_succ_eq_map]
    rw [List.map_cons, chunkName_zero, List.map_map]
    rfl
  · intro c hc
    rw [written_encode cfg clock req wrt name value duration hb0 hB, chunkCount_long hlen,
      List.mem_map] at hc
    obtain ⟨i, hi, rfl⟩ := hc
    exact hwin i hi
  · intro hvalue c hc
    have hv := header_values_of_octets cfg clock req wrt name value duration hb0 hB hname hvalue
    have hmem : c.Value ∈ (writtenHeaders wrt
        (dropCookieWithChunks cfg clock req wrt name value duration)).map Cookie.Value :=
      List.mem_map_of_mem Cookie.Value hc
    rw [hv, chunkCount_long hlen, List.mem_map] at hmem
    obtain ⟨i, hi, hci⟩ := hmem
    rw [← hci]
    exact hwin i hi

theorem chunk_count_and_names_witness :
    isCookieNameValid (ascii "a") = true ∧
    1 ≤ getMaxCookieChunkLength tinyConfig demoRequest (ascii "a") ∧
    getMaxCookieChunkLength tinyConfig demoRequest (ascii "a") < len (ascii "hello") ∧
    ∃ n : Nat,
      n = ((ascii "hello").length
            + (getMaxCookieChunkLength tinyConfig demoRequest (ascii "a")).toNat - 1)
            / (getMaxCookieChunkLength tinyConfig demoRequest (ascii "a")).toNat ∧
      (writtenHeaders [] (dropCookieWithChunks tinyConfig demoClock demoRequest [] (ascii "a")
        (ascii "hello") 0)).length = n ∧
      (writtenHeaders [] (dropCookieWithChunks tinyConfig demoClock demoRequest [] (ascii "a")
        (ascii "hello") 0)).map Cookie.Name
        = ascii "a" :: (List.range (n - 1)).map
            (fun (i : Nat) => ascii "a" ++ ascii "-" ++ Itoa ((i : Int) + 1)) ∧
      ∀ c ∈ writtenHeaders [] (dropCookieWithChunks tinyConfig demoClock demoRequest []
        (ascii "a") (ascii "hello") 0), c.Value ≠ [] :=
  ⟨by decide, by rw [tinyBudget _ _ (by decide)], by rw [tinyBudget _ _ (by decide)]; decide,
    (chunk_count_and_names tinyConfig demoClock demoRequest [] (ascii "a") (ascii "hello") 0
      (by decide) (by rw [tinyBudget _ _ (by decide)])
      (by rw [tinyBudget _ _ (by decide)]; decide)).imp
      (fun _ h => ⟨h.1, h.2.2.2.2.1, h.2.2.2.2.2.1, h.2.2.2.2.2.2.2 (by decide)⟩)⟩

/-- C4 as stated fails: the value `tok;en` fits the budget of `kc-access`, yet
the one physical cookie written holds `token`, because `http.SetCookie` drops
the byte `';'`; and under the empty name, which is not a valid cookie name,
the value `token` fits the budget and no cookie is written. -/
theorem fitting_value_is_not_written_whole :
    len (ascii "tok;en") ≤ getMaxCookieChunkLength demoConfig demoRequest (ascii "kc-access") ∧
    (writtenHeaders [] (dropCookieWithChunks demoConfig demoClock demoRequest []
      (ascii "kc-access") (ascii "tok;en") Hour)).map (fun c => (c.Name, c.Value))
      = [(ascii "kc-access", ascii "token")] ∧
    ascii "token" ≠ ascii "tok;en" ∧
    len (ascii "token") ≤ getMaxCookieChunkLength demoConfig demoRequest [] ∧
    writtenHeaders [] (dropCookieWithChunks demoConfig demoClock demoRequest [] []
      (ascii "token") Hour) = [] := by
  decide

/-- C4 (amended): when `value` is no longer than the budget computed for
`name`, the call returns after handing one cookie to `http.SetCookie`.  When
`name` is a valid cookie name, exactly one physical cookie is put on the
response: its name is the bare `name` and its value is what
`sanitizeCookieValue` makes of `value`, which is the whole `value` when every
byte of it is a cookie octet.  When `name` is not a valid cookie name, no
cookie is put on the response. -/
theorem single_cookie_when_value_fits (cfg : Config) (clock : Nat → Int) (req : Request)
    (wrt : ResponseWriter) (name value : GoString) (duration : Int)
    (hfit : len value ≤ getMaxCookieChunkLength cfg req name) :
    dropCookieWithChunks cfg clock req wrt name value duration
      = ⟨wrt ++ [newCookie cfg (clock wrt.length) name value duration], Outcome.returned⟩ ∧
    (isCookieNameValid name = true →
      ∃ c : Cookie,
        writtenHeaders wrt (dropCookieWithChunks cfg clock req wrt name value duration) = [c] ∧
        c.Name = name ∧ c.Value = sanitizeCookieValue value ∧
        (value.all isCookieOctet = true → c.Value = value)) ∧
    (isCookieNameValid name = false →
      writtenHeaders wrt (dropCookieWithChunks cfg clock req wrt name value duration) = []) := by
  have h := dropCookieWithChunks_fits cfg clock req wrt name value duration hfit
  refine ⟨h, ?_, ?_⟩
  · intro hname
    refine ⟨(newCookie cfg (clock wrt.length) name value duration).headerLine, ?_, rfl, rfl, ?_⟩
    · rw [h, writtenHeaders_append, setCookieHeaders_of_valid]
      · rfl
      · intro c hc
        rw [List.mem_singleton] at hc
        subst hc
        exact hname
    · intro hvalue
      exact sanitizeCookieValue_of_octets value hvalue
  · intro hname
    rw [h, writtenHeaders_append]
    apply setCookieHeaders_of_invalid
    intro c hc
    rw [List.mem_singleton] at hc
    subst hc
    exact hname

theorem single_cookie_when_value_fits_witness :
    len (ascii "token") ≤ getMaxCookieChunkLength demoConfig demoRequest (ascii "kc-access") ∧
    isCookieNameValid (ascii "kc-access") = true ∧
    (ascii "token").all isCookieOctet = true ∧
    ∃ c : Cookie,
      writtenHeaders [] (dropCookieWithChunks demoConfig demoClock demoRequest []
        (ascii "kc-access") (ascii "token") Hour) = [c] ∧
      c.Name = ascii "kc-access" ∧ c.Value = ascii "token" :=
  ⟨by decide, by decide, by decide,
    ((single_cookie_when_value_fits demoConfig demoClock demoRequest [] (ascii "kc-access")
      (ascii "token") Hour (by decide)).2.1 (by decide)).imp
      (fun _ h => ⟨h.1, h.2.1, h.2.2.2 (by decide)⟩)⟩

/-- C5 as stated fails: with budget 1 the value `x;` is cut into the chunks
`x` and `;`; chunk 1 is the byte slice `value[1:2]`, one byte long, but
`http.SetCookie` drops the byte `';'` and the physical cookie `a-1` has an
empty value. -/
theorem semicolon_chunk_is_not_the_slice :
    isCookieNameValid (ascii "a") = true ∧
    1 ≤ getMaxCookieChunkLength tinyConfig demoRequest (ascii "a") ∧
    getMaxCookieChunkLength tinyConfig demoRequest (ascii "a") < len (ascii "x;") ∧
    slice? (ascii "x;") 1 2 = some (ascii ";") ∧
    ((writtenHeaders [] (dropCookieWithChunks tinyConfig demoClock demoRequest [] (ascii "a")
      (ascii "x;") 0)).map (fun c => (c.Name, c.Value)))[1]? = some (ascii "a-1", []) := by
  have hB : getMaxCookieChunkLength tinyConfig demoRequest (ascii "a") = ((1 : Nat) : Int) := by
    rw [tinyBudget _ _ (by decide)]; rfl
  refine ⟨by decide, by rw [tinyBudget _ _ (by decide)],
    by rw [tinyBudget _ _ (by decide)]; decide, by decide, ?_⟩
  rw [writtenHeaders_encode tinyConfig demoClock demoRequest [] (ascii "a") (ascii "x;") 0
    (by decide) hB (by decide), List.map_map]
  decide

theorem octets_of_slice (value : GoString) (h : value.all isCookieOctet = true)
    (lo hi : Int) (s : GoString) (hs : slice? value lo hi = some s) :
    s.all isCookieOctet = true := by
  unfold slice? at hs
  split_ifs at hs
  rw [← Option.some.inj hs]
  exact octets_of_window value h _ _

theorem replicate_octets (n : Nat) (x : Byte) (hx : isCookieOctet x = true) :
    (List.replicate n x).all isCookieOctet = true := by
  rw [List.all_eq_true]
  intro y hy
  rw [List.eq_of_mem_replicate hy]
  exact hx

/-- C5 (amended): when `name` is a valid cookie name, the budget `b` computed
for it is at least 1 and `value` is longer than `b`, physical cookie `i` of the
`n = ceil(len(value)/b)` put on the response has the name of index `i`, and its
value is what `sanitizeCookieValue` makes of the byte slice
`value[i*b : min((i+1)*b, len(value))]`: the slice itself when every byte of
it is a cookie octet.  Every slice but the last has exactly `b` bytes, and the
last has `len(value) - (n-1)*b` bytes, between 1 and `b`. -/
theorem chunk_is_slice (cfg : Config) (clock : Nat → Int) (req : Request)
    (wrt : ResponseWriter) (name value : GoString) (duration : Int) (i : Nat)
    (hname : isCookieNameValid name = true)
    (hb : 1 ≤ getMaxCookieChunkLength cfg req name)
    (hlong : getMaxCookieChunkLength cfg req name < len value)
    (hi : i < (value.length + (getMaxCookieChunkLength cfg req name).toNat - 1)
            / (getMaxCookieChunkLength cfg req name).toNat) :
    ∃ (c : Cookie) (s : GoString),
      (writtenHeaders wrt
        (dropCookieWithChunks cfg clock req wrt name value duration))[i]? = some c ∧
      c.Name = chunkName name i ∧
      slice? value ((i : Int) * getMaxCookieChunkLength cfg req name)
          (min (((i : Int) + 1) * getMaxCookieChunkLength cfg req name) (len value))
        = some s ∧
      c.Value = sanitizeCookieValue s ∧
      (s.all isCookieOctet = true → c.Value = s) ∧
      (i + 1 < (value.length + (getMaxCookieChunkLength cfg req name).toNat - 1)
            / (getMaxCookieChunkLength cfg req name).toNat →
        len s = getMaxCookieChunkLength cfg req name) ∧
      (i + 1 = (value.length + (getMaxCookieChunkLength cfg req name).toNat - 1)
            / (getMaxCookieChunkLength cfg req name).toNat →
        len s = len value - (i : Int) * getMaxCookieChunkLength cfg req name ∧
        1 ≤ len s ∧ len s ≤ getMaxCookieChunkLength cfg req name) := by
  obtain ⟨b, hb0, hB, hBn⟩ := budget_nat hb
  have hlen : b < value.length := by
    unfold len at hlong; rw [hB] at hlong; exact_mod_cast hlong
  rw [hBn] at hi
  have hib : i * b < value.length := (ceil_gt_iff hb0 _ _).mp hi
  refine ⟨(chunkCookie cfg clock wrt.length name value duration b i).headerLine,
    (value.drop (i * b)).take b, ?_, rfl, ?_, rfl, ?_, ?_, ?_⟩
  · rw [writtenHeaders_encode cfg clock req wrt name value duration hb0 hB hname,
      chunkCount_long hlen, List.getElem?_map, List.getElem?_range hi]
    rfl
  · rw [hB]
    exact slice_window_min value hib
  · intro hs
    exact sanitizeCookieValue_of_octets _ hs
  · intro hnext
    rw [hBn] at hnext
    have h2 : (i + 1) * b < value.length := (ceil_gt_iff hb0 _ _).mp hnext
    rw [Nat.add_mul] at h2
    rw [hB]
    unfold len
    rw [window_length]
    omega
  · intro hlast
    rw [hBn] at hlast
    have h2 : ¬ ((i + 1) * b < value.length) := by
      intro h
      have := (ceil_gt_iff hb0 _ _).mpr h
      omega
    rw [Nat.add_mul] at h2
    rw [hB]
    unfold len
    rw [window_length]
    have h3 : ((i : Int) * (b : Int)) = ((i * b : Nat) : Int) := by push_cast; ring
    rw [h3]
    omega

theorem chunk_is_slice_witness :
    isCookieNameValid (ascii "kc-access") = true ∧
    1 ≤ getMaxCookieChunkLength demoConfig demoRequest (ascii "kc-access") ∧
    getMaxCookieChunkLength demoConfig demoRequest (ascii "kc-access")
      < len (List.replicate 9000 (120 : Byte)) ∧
    ∃ c0 c1 c2 : Cookie,
      (writtenHeaders [] (dropCookieWithChunks demoConfig demoClock demoRequest []
        (ascii "kc-access") (List.replicate 9000 120) Hour))[0]? = some c0 ∧
      (writtenHeaders [] (dropCookieWithChunks demoConfig demoClock demoRequest []
        (ascii "kc-access") (List.replicate 9000 120) Hour))[1]? = some c1 ∧
      (writtenHeaders [] (dropCookieWithChunks demoConfig demoClock demoRequest []
        (ascii "kc-access") (List.replicate 9000 120) Hour))[2]? = some c2 ∧
      c0.Name = ascii "kc-access" ∧ len c0.Value = 4000 ∧
      c1.Name = ascii "kc-access-1" ∧ len c1.Value = 4000 ∧
      c2.Name = ascii "kc-access-2" ∧ len c2.Value = 1000 := by
  have h1 : 1 ≤ getMaxCookieChunkLength demoConfig demoRequest (ascii "kc-access") := by
    rw [demoBudget]; decide
  have hv : (List.replicate 9000 (120 : Byte)).all isCookieOctet = true :=
    replicate_octets 9000 120 (by decide)
  obtain ⟨c0, s0, hc0, hn0, hs0, _, ho0, hm0, _⟩ := chunk_is_slice demoConfig demoClock
    demoRequest [] (ascii "kc-access") (List.replicate 9000 120) Hour 0 (by decide) h1
    demoBudget_lt (by rw [demoCount]; decide)
  obtain ⟨c1, s1, hc1, hn1, hs1, _, ho1, hm1, _⟩ := chunk_is_slice demoConfig demoClock
    demoRequest [] (ascii "kc-access") (List.replicate 9000 120) Hour 1 (by decide) h1
    demoBudget_lt (by rw [demoCount]; decide)
  obtain ⟨c2, s2, hc2, hn2, hs2, _, ho2, _, hl2⟩ := chunk_is_slice demoConfig demoClock
    demoRequest [] (ascii "kc-access") (List.replicate 9000 120) Hour 2 (by decide) h1
    demoBudget_lt (by rw [demoCount]; decide)
  have hv0 := hm0 (by rw [demoCount]; decide)
  have hv1 := hm1 (by rw [demoCount]; decide)
  have hv2 := (hl2 (by rw [demoCount])).1
  rw [← ho0 (octets_of_slice _ hv _ _ _ hs0), demoBudget] at hv0
  rw [← ho1 (octets_of_slice _ hv _ _ _ hs1), demoBudget] at hv1
  rw [← ho2 (octets_of_slice _ hv _ _ _ hs2), demoBudget, len_replicate] at hv2
  refine ⟨by decide, h1, demoBudget_lt, c0, c1, c2, hc0, hc1, hc2, ?_, hv0, ?_, hv1, ?_, ?_⟩
  · rw [hn0]; decide
  · rw [hn1]; decide
  · rw [hn2]; decide
  · rw [hv2]; decide

/-- C6 as stated fails: with a budget of 0 and the empty value the call returns
normally and has written a cookie. -/
theorem zero_budget_writes_and_returns :
    getMaxCookieChunkLength zeroConfig demoRequest (ascii "a") ≤ 0 ∧
    (dropCookieWithChunks zeroConfig demoClock demoRequest [] (ascii "a") [] Hour).outcome
      = Outcome.returned ∧
    written [] (dropCookieWithChunks zeroConfig demoClock demoRequest [] (ascii "a") [] Hour)
      ≠ [] := by
  have hz := zeroBudget demoRequest (ascii "a") (by decide)
  have h := dropCookieWithChunks_fits zeroConfig demoClock demoRequest [] (ascii "a") [] Hour
    (by rw [hz]; decide)
  refine ⟨by rw [hz], by rw [h], ?_⟩
  rw [h, written_append]
  exact List.cons_ne_nil _ _

/-- C6 (amended): when the budget computed for `name` is not positive the call
ends (it never loops), and it has written at most one cookie, which carries the
bare name and an empty value: no suffixed chunk is written.  It has no error
report of its own; it ends in a run-time panic in every case but one.  With a
negative budget it writes nothing and panics; with budget 0 and a non-empty
value it writes the bare-name cookie with the empty value `value[0:0]` and then
panics on the division by the budget, before any chunk is written; with budget
0 and the empty value it writes the one bare-name cookie and returns
normally. -/
theorem nonpositive_budget_behaviour (cfg : Config) (clock : Nat → Int) (req : Request)
    (wrt : ResponseWriter) (name value : GoString) (duration : Int)
    (hb : getMaxCookieChunkLength cfg req name ≤ 0) :
    (dropCookieWithChunks cfg clock req wrt name value duration).outcome
      ≠ Outcome.outOfFuel ∧
    (written wrt (dropCookieWithChunks cfg clock req wrt name value duration)).length ≤ 1 ∧
    (∀ c ∈ written wrt (dropCookieWithChunks cfg clock req wrt name value duration),
      c.Name = name ∧ c.Value = []) ∧
    ((dropCookieWithChunks cfg clock req wrt name value duration).outcome = Outcome.panicked
      ↔ ¬ (getMaxCookieChunkLength cfg req name = 0 ∧ value = [])) ∧
    (getMaxCookieChunkLength cfg req name < 0 →
      dropCookieWithChunks cfg clock req wrt name value duration
        = ⟨wrt, Outcome.panicked⟩) ∧
    (getMaxCookieChunkLength cfg req name = 0 → value ≠ [] →
      dropCookieWithChunks cfg clock req wrt name value duration
        = ⟨wrt ++ [newCookie cfg (clock wrt.length) name [] duration],
            Outcome.panicked⟩) ∧
    (getMaxCookieChunkLength cfg req name = 0 → value = [] →
      dropCookieWithChunks cfg clock req wrt name value duration
        = ⟨wrt ++ [newCookie cfg (clock wrt.length) name [] duration],
            Outcome.returned⟩) := by
  have hfitnil : getMaxCookieChunkLength cfg req name = 0 → value = [] →
      dropCookieWithChunks cfg clock req wrt name value duration
        = ⟨wrt ++ [newCookie cfg (clock wrt.length) name [] duration],
            Outcome.returned⟩ := by
    intro h0 hv
    subst hv
    exact dropCookieWithChunks_fits cfg clock req wrt name [] duration (by rw [h0]; decide)
  have hneg := dropCookieWithChunks_negative cfg clock req wrt name value duration
  have hzero := dropCookieWithChunks_zero cfg clock req wrt name value duration
  rcases lt_or_eq_of_le hb with h | h
  · have hw : written wrt (⟨wrt, Outcome.panicked⟩ : Run) = [] := by
      simpa using written_append wrt [] Outcome.panicked
    rw [hneg h, hw]
    refine ⟨by simp, by simp, ?_, ?_, fun _ => rfl, fun h0 => absurd h0 (by omega),
      fun h0 => absurd h0 (by omega)⟩
    · intro c hc
      cases hc
    · constructor
      · intro _ h0
        omega
      · intro _
        rfl
  · by_cases hv : value = []
    · rw [hfitnil h hv, written_append]
      refine ⟨by simp, by simp, ?_, ?_, fun h0 => absurd h0 (by omega),
        fun _ hv2 => absurd hv hv2, fun _ _ => rfl⟩
      · intro c hc
        rw [List.mem_singleton] at hc
        subst hc
        exact ⟨rfl, rfl⟩
      · constructor
        · intro hp
          cases hp
        · intro hn
          exact absurd ⟨h, hv⟩ hn
    · rw [hzero h hv, written_append]
      refine ⟨by simp, by simp, ?_, ?_, fun h0 => absurd h0 (by omega),
        fun _ _ => rfl, fun _ hv2 => absurd hv2 hv⟩
      · intro c hc
        rw [List.mem_singleton] at hc
        subst hc
        exact ⟨rfl, rfl⟩
      · constructor
        · intro _ hn
          exact hv hn.2
        · intro _
          rfl

theorem nonpositive_budget_behaviour_witness :
    getMaxCookieChunkLength zeroConfig demoRequest (ascii "a") ≤ 0 ∧
    getMaxCookieChunkLength zeroConfig demoRequest (ascii "a") = 0 ∧
    ascii "token" ≠ [] ∧
    dropCookieWithChunks zeroConfig demoClock demoRequest [] (ascii "a") (ascii "token") Hour
      = ⟨[] ++ [newCookie zeroConfig (demoClock ([] : ResponseWriter).length) (ascii "a") []
          Hour], Outcome.panicked⟩ :=
  ⟨by rw [zeroBudget demoRequest (ascii "a") (by decide)],
    zeroBudget demoRequest (ascii "a") (by decide), by decide,
    (nonpositive_budget_behaviour zeroConfig demoClock demoRequest [] (ascii "a")
      (ascii "token") Hour (by rw [zeroBudget demoRequest (ascii "a") (by decide)])).2.2.2.2.2.1
      (zeroBudget demoRequest (ascii "a") (by decide)) (by decide)⟩

/-- C7 as stated fails for the refresh family: with budget 1 a value of 601
bytes is written as `r`, `r-1`, …, `r-600`, and when the request carries
exactly these cookies `clearRefreshTokenCookie` writes no tombstone for
`r-600`. -/
theorem refresh_erase_misses_chunk_600 :
    1 ≤ getMaxCookieChunkLength tinyConfig demoRequest tinyConfig.CookieRefreshName ∧
    ∃ c ∈ written [] (dropRefreshTokenCookie tinyConfig demoClock demoRequest []
        (List.replicate 601 120) 0),
      ∀ t ∈ written [] (clearRefreshTokenCookie tinyConfig demoClock
          (requestWith (written [] (dropRefreshTokenCookie tinyConfig demoClock demoRequest []
            (List.replicate 601 120) 0))) []),
        t.Name ≠ c.Name := by
  have hB : getMaxCookieChunkLength tinyConfig demoRequest tinyConfig.CookieRefreshName
      = ((1 : Nat) : Int) := tinyBudget demoRequest _ (by decide)
  refine ⟨by rw [hB]; decide, chunkCookie tinyConfig demoClock 0 tinyConfig.CookieRefreshName
    (List.replicate 601 120) 0 1 600, ?_, ?_⟩
  · unfold dropRefreshTokenCookie
    rw [written_encode tinyConfig demoClock demoRequest [] _ _ 0 (by decide) hB,
      List.length_replicate]
    exact List.mem_map.mpr ⟨600, List.mem_range.mpr (by decide), rfl⟩
  · intro t ht
    obtain ⟨k, hk, _, heq⟩ := clearRefreshTokenCookie_eq tinyConfig demoClock
      (requestWith (written [] (dropRefreshTokenCookie tinyConfig demoClock demoRequest []
        (List.replicate 601 120) 0))) []
    rw [heq, written_append] at ht
    obtain ⟨i, hi, rfl⟩ := List.mem_map.mp ht
    intro hname
    have h600 : i = 600 := chunkName_inj _ hname
    have := (hk i (by omega) (by have := List.mem_range.mp hi; omega)).1
    omega

/-- C7 (amended): when the budget computed for a family's name is at least 1
and the request carries exactly the cookies that the family's write operation
wrote, in any order, the family's clear operation returns after writing one
tombstone (empty value) per written cookie, under the same names in the same
order; for the refresh family this needs the write to have produced at most
600 cookies. -/
theorem erase_covers_encode (f : Family) (cfg : Config) (clock : Nat → Int) (req : Request)
    (wrt : ResponseWriter) (value : GoString) (duration : Int) (clock2 : Nat → Int)
    (back : Request) (wrt2 : ResponseWriter)
    (hb : 1 ≤ getMaxCookieChunkLength cfg req (f.cookieName cfg))
    (hback : back.Cookies.Perm
      ((written wrt (dropTokenCookie f cfg clock req wrt value duration)).map sentBack))
    (hbound : f = Family.refresh →
      (written wrt (dropTokenCookie f cfg clock req wrt value duration)).length ≤ 600) :
    (clearTokenCookie f cfg clock2 back wrt2).outcome = Outcome.returned ∧
    (written wrt2 (clearTokenCookie f cfg clock2 back wrt2)).map Cookie.Name
      = (written wrt (dropTokenCookie f cfg clock req wrt value duration)).map Cookie.Name ∧
    (∀ t ∈ written wrt2 (clearTokenCookie f cfg clock2 back wrt2), t.Value = []) ∧
    ∀ c ∈ written wrt (dropTokenCookie f cfg clock req wrt value duration),
      ∃ t ∈ written wrt2 (clearTokenCookie f cfg clock2 back wrt2),
        t.Name = c.Name ∧ t.Value = [] := by
  obtain ⟨b, hb0, hB, _⟩ := budget_nat hb
  rw [dropTokenCookie_eq] at hback hbound ⊢
  rw [sentBack_encode cfg clock req wrt _ value duration hb0 hB] at hback
  obtain ⟨hlen, hsome, hnone⟩ := lookup_encoded _ value b _ back hback
  rw [written_encode cfg clock req wrt _ value duration hb0 hB] at hbound ⊢
  have hclear := clear_after_encode f cfg clock2 back wrt2 value b
    (chunkCount b value.length) (chunkCount_pos b value.length hb0) hlen hsome hnone
    (fun h => by simpa using hbound h)
  rw [hclear, written_append]
  refine ⟨rfl, ?_, ?_, ?_⟩
  · rw [List.map_map, List.map_map]
    rfl
  · intro t ht
    obtain ⟨i, _, rfl⟩ := List.mem_map.mp ht
    rfl
  · intro c hc
    obtain ⟨i, hi, rfl⟩ := List.mem_map.mp hc
    exact ⟨tombstone cfg clock2 wrt2.length (f.cookieName cfg) i,
      List.mem_map.mpr ⟨i, hi, rfl⟩, rfl, rfl⟩

theorem erase_covers_encode_witness :
    1 ≤ getMaxCookieChunkLength tinyConfig demoRequest (Family.refresh.cookieName tinyConfig) ∧
    (written [] (dropTokenCookie Family.refresh tinyConfig demoClock demoRequest []
      (ascii "hello") 0)).length ≤ 600 ∧
    (written [] (clearTokenCookie Family.refresh tinyConfig demoClock
        (requestWith (written [] (dropTokenCookie Family.refresh tinyConfig demoClock
          demoRequest [] (ascii "hello") 0))) [])).map Cookie.Name
      = (written [] (dropTokenCookie Family.refresh tinyConfig demoClock demoRequest []
          (ascii "hello") 0)).map Cookie.Name := by
  have hB : getMaxCookieChunkLength tinyConfig demoRequest
      (Family.refresh.cookieName tinyConfig) = ((1 : Nat) : Int) :=
    tinyBudget demoRequest _ (by decide)
  have h1 : 1 ≤ getMaxCookieChunkLength tinyConfig demoRequest
      (Family.refresh.cookieName tinyConfig) := by rw [hB]; decide
  have h600 : (written [] (dropTokenCookie Family.refresh tinyConfig demoClock demoRequest []
      (ascii "hello") 0)).length ≤ 600 := by
    rw [dropTokenCookie_eq,
      written_encode tinyConfig demoClock demoRequest [] _ _ 0 (by decide) hB,
      List.length_map, List.length_range]
    decide
  exact ⟨h1, h600,
    (erase_covers_encode Family.refresh tinyConfig demoClock demoRequest [] (ascii "hello") 0
      demoClock _ [] h1 (requestWith_perm _) (fun _ => h600)).2.1⟩

/-- C8, a defect of the code: a request that carries `kc-access-1` and no
other cookie has a contiguous run of length 1, yet `clearAccessTokenCookie`
writes only the bare-name tombstone, because its loop `idx <
len(req.Cookies())` runs zero times on a request with one cookie.  The sibling
`clearRefreshTokenCookie`, whose loop has the comment "clear divided cookies"
as well, clears that chunk when the same name is its family name. -/
theorem access_erase_skips_present_chunk :
    strayRequest.Cookies.map RequestCookie.Name = [ascii "kc-access-1"] ∧
    (strayRequest.Cookie (demoConfig.CookieAccessName ++ ascii "-" ++ Itoa 1)).isSome = true ∧
    strayRequest.Cookie (demoConfig.CookieAccessName ++ ascii "-" ++ Itoa 2) = none ∧
    (clearAccessTokenCookie demoConfig demoClock strayRequest []).outcome = Outcome.returned ∧
    (written [] (clearAccessTokenCookie demoConfig demoClock strayRequest [])).map Cookie.Name
      = [ascii "kc-access"] ∧
    mirrorConfig.CookieRefreshName = demoConfig.CookieAccessName ∧
    (written [] (clearRefreshTokenCookie mirrorConfig demoClock strayRequest [])).map Cookie.Name
      = [ascii "kc-access", ascii "kc-access-1"] := by
  decide

/-- What `clearAccessTokenCookie` does on any request: it returns after
writing the bare-name tombstone and then the tombstones of `name-1`, …,
`name-k`, in that order and nothing else, where `k` is the largest index below
`len(req.Cookies())` such that `name-1` … `name-k` are all in the request; when
the request also carries the bare-name cookie, `name-(k+1)` is not in the
request, so `name-1` … `name-k` is the maximal contiguous run. -/
theorem clear_access_tombstones (cfg : Config) (clock : Nat → Int) (req : Request)
    (wrt : ResponseWriter) :
    ∃ k : Nat,
      (∀ i : Nat, 1 ≤ i → i ≤ k → i < req.Cookies.length ∧
        (req.Cookie (cfg.CookieAccessName ++ ascii "-" ++ Itoa (i : Int))).isSome) ∧
      (k + 1 < req.Cookies.length →
        req.Cookie (cfg.CookieAccessName ++ ascii "-" ++ Itoa ((k : Int) + 1)) = none) ∧
      ((req.Cookie cfg.CookieAccessName).isSome →
        req.Cookie (cfg.CookieAccessName ++ ascii "-" ++ Itoa ((k : Int) + 1)) = none) ∧
      (clearAccessTokenCookie cfg clock req wrt).outcome = Outcome.returned ∧
      (written wrt (clearAccessTokenCookie cfg clock req wrt)).map Cookie.Name
        = cfg.CookieAccessName :: (List.range k).map
            (fun (i : Nat) => cfg.CookieAccessName ++ ascii "-" ++ Itoa ((i : Int) + 1)) ∧
      ∀ t ∈ written wrt (clearAccessTokenCookie cfg clock req wrt), t.Value = [] := by
  obtain ⟨k, h1, h2, h3⟩ := clearAccessTokenCookie_eq cfg clock req wrt
  have hk1 : chunkName cfg.CookieAccessName (k + 1)
      = cfg.CookieAccessName ++ ascii "-" ++ Itoa ((k : Int) + 1) := by
    rw [chunkName_pos _ (Nat.succ_pos k)]; rfl
  have hstop : k + 1 < req.Cookies.length →
      req.Cookie (cfg.CookieAccessName ++ ascii "-" ++ Itoa ((k : Int) + 1)) = none := by
    intro h
    rw [← hk1]
    exact h2 h
  refine ⟨k, ?_, ?_, ?_, by rw [h3], ?_, ?_⟩
  · intro i hi hik
    have := h1 i hi hik
    rw [chunkName_pos _ hi] at this
    exact this
  · exact hstop
  · intro hbare
    by_contra hpres
    have hlast : (req.Cookie (chunkName cfg.CookieAccessName (k + 1))).isSome := by
      rw [hk1]
      cases hc : req.Cookie (cfg.CookieAccessName ++ ascii "-" ++ Itoa ((k : Int) + 1)) with
      | none => exact absurd hc hpres
      | some _ => rfl
    have hall : ∀ i, i < k + 2 → (req.Cookie (chunkName cfg.CookieAccessName i)).isSome := by
      intro i hi
      rcases Nat.eq_zero_or_pos i with h0 | h0
      · subst h0
        rw [chunkName_zero]
        exact hbare
      · rcases Nat.lt_or_ge i (k + 1) with hlt | hge
        · exact (h1 i h0 (by omega)).2
        · have : i = k + 1 := by omega
          subst this
          exact hlast
    have hcount := present_count_le req cfg.CookieAccessName (k + 2) hall
    exact hpres (hstop (by omega))
  · rw [h3, written_append, tombstone_names]
  · intro t ht
    rw [h3, written_append] at ht
    obtain ⟨i, _, rfl⟩ := List.mem_map.mp ht
    rfl

/-- C9: for every request, `clearRefreshTokenCookie` returns after writing the
bare-name tombstone first, whatever the request carries, and then the
tombstones of `name-1`, …, `name-k`, in that order and nothing else, where `k`
is the largest index `≤ 599` such that `name-1` … `name-k` are all in the
request: each of them was sent, and `name-(k+1)` was not sent unless
`k = 599`. -/
theorem clear_refresh_tombstones (cfg : Config) (clock : Nat → Int) (req : Request)
    (wrt : ResponseWriter) :
    ∃ k : Nat,
      k ≤ 599 ∧
      (∀ i : Nat, 1 ≤ i → i ≤ k →
        (req.Cookie (cfg.CookieRefreshName ++ ascii "-" ++ Itoa (i : Int))).isSome) ∧
      (k < 599 →
        req.Cookie (cfg.CookieRefreshName ++ ascii "-" ++ Itoa ((k : Int) + 1)) = none) ∧
      (clearRefreshTokenCookie cfg clock req wrt).outcome = Outcome.returned ∧
      (written wrt (clearRefreshTokenCookie cfg clock req wrt)).map Cookie.Name
        = cfg.CookieRefreshName :: (List.range k).map
            (fun (i : Nat) => cfg.CookieRefreshName ++ ascii "-" ++ Itoa ((i : Int) + 1)) ∧
      ∀ t ∈ written wrt (clearRefreshTokenCookie cfg clock req wrt), t.Value = [] := by
  obtain ⟨k, h1, h2, h3⟩ := clearRefreshTokenCookie_eq cfg clock req wrt
  refine ⟨k, ?_, ?_, ?_, by rw [h3], ?_, ?_⟩
  · rcases Nat.eq_zero_or_pos k with h | h
    · omega
    · have := (h1 k h (Nat.le_refl k)).1
      omega
  · intro i hi hik
    have := (h1 i hi hik).2
    rwa [chunkName_pos _ hi] at this
  · intro hk
    have := h2 (by omega)
    rw [chunkName_pos _ (Nat.succ_pos k)] at this
    exact this
  · rw [h3, written_append, tombstone_names]
  · intro t ht
    rw [h3, written_append] at ht
    obtain ⟨i, _, rfl⟩ := List.mem_map.mp ht
    rfl

theorem clear_refresh_tombstones_witness :
    ∃ k : Nat,
      k ≤ 599 ∧
      (written [] (clearRefreshTokenCookie demoConfig demoClock gapRequest [])).map Cookie.Name
        = demoConfig.CookieRefreshName :: (List.range k).map
            (fun (i : Nat) => demoConfig.CookieRefreshName ++ ascii "-" ++ Itoa ((i : Int) + 1)) :=
  (clear_refresh_tombstones demoConfig demoClock gapRequest []).imp
    (fun _ h => ⟨h.1, h.2.2.2.2.1⟩)

/-- C10 as stated fails: with session cookies enabled the tombstones written
by `clearAccessTokenCookie` and by `clearRefreshTokenCookie` carry no
`Expires`. -/
theorem session_tombstones_carry_no_expires :
    sessionConfig.EnableSessionCookies = true ∧
    (written [] (clearAccessTokenCookie sessionConfig demoClock demoRequest [])).map
        Cookie.Expires = [none] ∧
    (written [] (clearRefreshTokenCookie sessionConfig demoClock gapRequest [])).map
        Cookie.Expires = [none, none, none] := by
  decide

/-- C10 (amended): every tombstone written by the clear operation of either
family has an empty value; it carries `Expires` equal to the time of its write
minus 10 hours when session cookies are not enabled, and no `Expires` when
they are. -/
theorem tombstone_value_and_expiry (f : Family) (cfg : Config) (clock : Nat → Int)
    (req : Request) (wrt : ResponseWriter) (i : Nat) (c : Cookie)
    (hc : (written wrt (clearTokenCookie f cfg clock req wrt))[i]? = some c) :
    c.Value = [] ∧
    c.Expires = if cfg.EnableSessionCookies then none
      else some (clock (wrt.length + i) - 10 * Hour) := by
  obtain ⟨k, _, heq⟩ := clearTokenCookie_eq f cfg clock req wrt
  rw [heq, written_append, List.getElem?_map] at hc
  cases hr : (List.range (k + 1))[i]? with
  | none => rw [hr] at hc; cases hc
  | some j =>
    rw [hr] at hc
    have hj : j = i := by
      have hlt : i < (List.range (k + 1)).length := by
        by_contra hge
        rw [List.getElem?_eq_none (by omega)] at hr
        cases hr
      rw [List.length_range] at hlt
      rw [List.getElem?_range hlt] at hr
      exact (Option.some.inj hr).symm
    subst hj
    have hcj : tombstone cfg clock wrt.length (f.cookieName cfg) j = c := Option.some.inj hc
    subst hcj
    exact ⟨tombstone_value _ _ _ _ _, tombstone_expires _ _ _ _ _⟩

theorem tombstone_value_and_expiry_witness :
    (written [] (clearTokenCookie Family.refresh demoConfig demoClock gapRequest []))[2]?
      = some (tombstone demoConfig demoClock 0 demoConfig.CookieRefreshName 2) ∧
    (tombstone demoConfig demoClock 0 demoConfig.CookieRefreshName 2).Value = [] ∧
    (tombstone demoConfig demoClock 0 demoConfig.CookieRefreshName 2).Expires
      = if demoConfig.EnableSessionCookies then none
        else some (demoClock (([] : ResponseWriter).length + 2) - 10 * Hour) :=
  ⟨by decide,
    tombstone_value_and_expiry Family.refresh demoConfig demoClock gapRequest [] 2 _
      (by decide)⟩

/-! ## The budget calculator and the write primitive -/

theorem splitHostPort_spec (s : GoString) :
    (58 : Byte) ∉ splitHostPort s ∧
    (s = splitHostPort s ∨ ∃ rest, s = splitHostPort s ++ 58 :: rest) := by
  unfold splitHostPort
  induction s with
  | nil => simp
  | cons a s ih =>
    by_cases ha : a = 58
    · subst ha
      simp [List.takeWhile]
    · have hb : (a != 58) = true := by simpa using ha
      simp only [List.takeWhile_cons, hb, if_true]
      refine ⟨?_, ?_⟩
      · intro hmem
        rcases List.mem_cons.mp hmem with h | h
        · exact ha h.symm
        · exact ih.1 h
      · rcases ih.2 with h | ⟨rest, h⟩
        · left
          rw [← h]
        · right
          exact ⟨rest, by rw [List.cons_append, ← h]⟩

theorem splitHostPort_no_colon (s : GoString) (h : (58 : Byte) ∉ s) : splitHostPort s = s := by
  unfold splitHostPort
  rw [List.takeWhile_eq_self_iff]
  intro x hx
  have : x ≠ 58 := fun hx58 => h (hx58 ▸ hx)
  simpa using this

theorem splitHostPort_append (h rest : GoString) (hh : (58 : Byte) ∉ h) :
    splitHostPort (h ++ 58 :: rest) = h := by
  unfold splitHostPort
  induction h with
  | nil => simp [List.takeWhile]
  | cons a h ih =>
    have ha : a ≠ 58 := fun ha58 => hh (by rw [ha58]; exact List.mem_cons_self _ _)
    have hb : (a != 58) = true := by simpa using ha
    simp only [List.cons_append, List.takeWhile_cons, hb, if_true]
    rw [ih (fun hm => hh (List.mem_cons_of_mem _ hm))]

theorem literal_lengths :
    len (ascii "HttpOnly; ") = 10 ∧
    len (ascii "Expires=Mon, 02 Jan 2006 03:04:05 MST; ") = 39 ∧
    len (ascii "SameSite=Strict ") = 16 ∧ len (ascii "SameSite=Lax ") = 13 ∧
    len (ascii "Secure") = 6 := by
  decide

theorem getMaxCookieChunkLength_eq (cfg : Config) (req : Request) (name : GoString) :
    getMaxCookieChunkLength cfg req name
      = 4069 - len name
        - len (if cfg.CookieDomain ≠ [] then cfg.CookieDomain else splitHostPort req.Host)
        - (if cfg.HTTPOnlyCookie then 10 else 0)
        - (if cfg.EnableSessionCookies then 0 else 39)
        - (if cfg.SameSiteCookie = SameSiteStrict then 16
            else if cfg.SameSiteCookie = SameSiteLax then 13 else 0)
        - (if cfg.SecureCookie then 6 else 0) := by
  obtain ⟨h1, h2, h3, h4, h5⟩ := literal_lengths
  have hD : len (if cfg.CookieDomain ≠ [] then cfg.CookieDomain else splitHostPort req.Host)
      = if cfg.CookieDomain ≠ [] then len cfg.CookieDomain else len (splitHostPort req.Host) := by
    split <;> rfl
  unfold getMaxCookieChunkLength
  rw [h1, h2, h3, h4, h5, hD]
  generalize len name = n
  generalize len cfg.CookieDomain = d
  generalize len (splitHostPort req.Host) = e
  cases cfg.HTTPOnlyCookie <;> cases cfg.EnableSessionCookies <;> cases cfg.SecureCookie <;>
    simp only [Bool.not_true, Bool.not_false, Bool.false_eq_true, if_true, if_false] <;>
    split_ifs <;> omega

theorem clear_absent (f : Family) (cfg : Config) (clock : Nat → Int) (req : Request)
    (wrt : ResponseWriter) (h1 : req.Cookie (chunkName (f.cookieName cfg) 1) = none) :
    clearTokenCookie f cfg clock req wrt
      = ⟨wrt ++ [newCookie cfg (clock wrt.length) (f.cookieName cfg) [] (-10 * Hour)],
          Outcome.returned⟩ := by
  obtain ⟨k, hk, heq⟩ := clearTokenCookie_eq f cfg clock req wrt
  have hk0 : k = 0 := by
    by_contra hne
    have := hk 1 (Nat.le_refl 1) (by omega)
    rw [h1] at this
    cases this
  subst hk0
  rw [heq]
  simp [tombstone, chunkName_zero, List.range_succ]

/-! ## The claims, continued -/

theorem retombstone_eq_iff (cfg : Config) (now1 now2 : Int) (n : GoString) :
    newCookie cfg now2 n [] (-10 * Hour) = newCookie cfg now1 n [] (-10 * Hour)
      ↔ (cfg.EnableSessionCookies = true ∨ now2 = now1) := by
  have hd : ((-10 * Hour : Int) != 0) = true := by decide
  constructor
  · intro h
    have he := congrArg Cookie.Expires h
    unfold newCookie at he
    simp only [hd, Bool.and_true] at he
    cases hs : cfg.EnableSessionCookies with
    | true => exact Or.inl rfl
    | false =>
      rw [hs] at he
      simp only [Bool.not_false, if_true, Option.some.injEq] at he
      exact Or.inr (by omega)
  · intro h
    rcases h with hs | hn
    · unfold newCookie
      simp [hs]
    · rw [hn]

/-- C11 as stated fails: the request carries no cookie, the first application
writes the bare-name tombstone with `Expires` ten hours before the time of its
write, and the second application, to the same request and the response the
first one left, writes a tombstone with a later `Expires`: not the same
tombstone. -/
theorem repeated_erase_differs_in_expires :
    demoRequest.Cookies = [] ∧
    written [] (clearAccessTokenCookie demoConfig demoClock demoRequest [])
      = [newCookie demoConfig 1000000 (ascii "kc-access") [] (-10 * Hour)] ∧
    written (clearAccessTokenCookie demoConfig demoClock demoRequest []).wrt
        (clearAccessTokenCookie demoConfig demoClock demoRequest
          (clearAccessTokenCookie demoConfig demoClock demoRequest []).wrt)
      = [newCookie demoConfig 1000001 (ascii "kc-access") [] (-10 * Hour)] ∧
    (newCookie demoConfig 1000000 (ascii "kc-access") [] (-10 * Hour)).Expires
      = some (-35999999000000) ∧
    (newCookie demoConfig 1000001 (ascii "kc-access") [] (-10 * Hour)).Expires
      = some (-35999998999999) ∧
    written (clearAccessTokenCookie demoConfig demoClock demoRequest []).wrt
        (clearAccessTokenCookie demoConfig demoClock demoRequest
          (clearAccessTokenCookie demoConfig demoClock demoRequest []).wrt)
      ≠ written [] (clearAccessTokenCookie demoConfig demoClock demoRequest []) := by
  decide

/-- C11 (amended; erase of an absent family): when the request carries neither
the bare name nor any `name-i` of a family, the family's clear operation
returns after writing exactly one cookie, the bare-name tombstone, and no chunk
tombstone; a second application to the same request writes a single bare-name
tombstone again, with the same name, value, `Domain`, `Path`, `HttpOnly`,
`Secure` and SameSite, and with `Expires` ten hours before the time of its own
write: the two tombstones are the same exactly when session cookies are
enabled (no `Expires`) or the clock reads the same time at both writes. -/
theorem erase_absent_family (f : Family) (cfg : Config) (clock clock2 : Nat → Int)
    (req : Request) (wrt wrt2 : ResponseWriter)
    (habsent : ∀ i : Nat, req.Cookie (chunkName (f.cookieName cfg) i) = none) :
    (clearTokenCookie f cfg clock req wrt).outcome = Outcome.returned ∧
    written wrt (clearTokenCookie f cfg clock req wrt)
      = [newCookie cfg (clock wrt.length) (f.cookieName cfg) [] (-10 * Hour)] ∧
    (clearTokenCookie f cfg clock2 req wrt2).outcome = Outcome.returned ∧
    written wrt2 (clearTokenCookie f cfg clock2 req wrt2)
      = [newCookie cfg (clock2 wrt2.length) (f.cookieName cfg) [] (-10 * Hour)] ∧
    (clock2 wrt2.length = clock wrt.length →
      written wrt2 (clearTokenCookie f cfg clock2 req wrt2)
        = written wrt (clearTokenCookie f cfg clock req wrt)) ∧
    (written wrt2 (clearTokenCookie f cfg clock2 req wrt2)).map
        (fun c => (c.Name, c.Value, c.Domain, c.Path, c.HttpOnly, c.Secure, c.SameSite))
      = (written wrt (clearTokenCookie f cfg clock req wrt)).map
        (fun c => (c.Name, c.Value, c.Domain, c.Path, c.HttpOnly, c.Secure, c.SameSite)) ∧
    (written wrt2 (clearTokenCookie f cfg clock2 req wrt2)
        = written wrt (clearTokenCookie f cfg clock req wrt)
      ↔ (cfg.EnableSessionCookies = true ∨ clock2 wrt2.length = clock wrt.length)) := by
  rw [clear_absent f cfg clock req wrt (habsent 1), clear_absent f cfg clock2 req wrt2 (habsent 1),
    written_append, written_append]
  refine ⟨rfl, rfl, rfl, rfl, ?_, rfl, ?_⟩
  · intro h
    rw [h]
  · rw [List.cons.injEq, retombstone_eq_iff]
    simp

theorem erase_absent_family_witness :
    (∀ i : Nat, demoRequest.Cookie (chunkName (Family.access.cookieName demoConfig) i) = none) ∧
    written [] (clearTokenCookie Family.access demoConfig demoClock demoRequest [])
      = [newCookie demoConfig (demoClock ([] : ResponseWriter).length)
          (Family.access.cookieName demoConfig) [] (-10 * Hour)] ∧
    written (clearTokenCookie Family.access demoConfig demoClock demoRequest []).wrt
        (clearTokenCookie Family.access demoConfig demoClock demoRequest
          (clearTokenCookie Family.access demoConfig demoClock demoRequest []).wrt)
      = [newCookie demoConfig
          (demoClock (clearTokenCookie Family.access demoConfig demoClock demoRequest
            []).wrt.length)
          (Family.access.cookieName demoConfig) [] (-10 * Hour)] :=
  ⟨fun _ => rfl,
    (erase_absent_family Family.access demoConfig demoClock demoClock demoRequest []
      (clearTokenCookie Family.access demoConfig demoClock demoRequest []).wrt
      (fun _ => rfl)).2.1,
    (erase_absent_family Family.access demoConfig demoClock demoClock demoRequest []
      (clearTokenCookie Family.access demoConfig demoClock demoRequest []).wrt
      (fun _ => rfl)).2.2.2.1⟩

/-- C12: for every request both probes end: `clearRefreshTokenCookie` returns
after writing at most 600 cookies, and `clearAccessTokenCookie` returns after
writing at most `max(1, len(req.Cookies()))` cookies. -/
theorem clear_probe_is_bounded (cfg : Config) (clock : Nat → Int) (req : Request)
    (wrt : ResponseWriter) :
    (clearRefreshTokenCookie cfg clock req wrt).outcome = Outcome.returned ∧
    (written wrt (clearRefreshTokenCookie cfg clock req wrt)).length ≤ 600 ∧
    (clearAccessTokenCookie cfg clock req wrt).outcome = Outcome.returned ∧
    (written wrt (clearAccessTokenCookie cfg clock req wrt)).length
      ≤ max 1 req.Cookies.length := by
  obtain ⟨k, hk, _, heq⟩ := clearRefreshTokenCookie_eq cfg clock req wrt
  obtain ⟨j, hj, _, heq2⟩ := clearAccessTokenCookie_eq cfg clock req wrt
  rw [heq, heq2, written_append, written_append]
  refine ⟨rfl, ?_, rfl, ?_⟩
  · rw [List.length_map, List.length_range]
    rcases Nat.eq_zero_or_pos k with h | h
    · omega
    · have := (hk k h (Nat.le_refl k)).1
      omega
  · rw [List.length_map, List.length_range]
    rcases Nat.eq_zero_or_pos j with h | h
    · omega
    · have := (hj j h (Nat.le_refl j)).1
      omega

/-- C13: `getMaxCookieChunkLength` returns exactly
`4069 - len(name) - len(D) - (10 if HttpOnly) - (39 if not session-only)
- (16 if SameSite is Strict, 13 if Lax) - (6 if Secure)`, where `D` is the
configured cookie domain when that is not empty and otherwise the part of the
request host before its first `':'`; the result can be zero and can be
negative. -/
theorem budget_is_exact_formula :
    (∀ (cfg : Config) (req : Request) (name : GoString), ∃ D : GoString,
      (cfg.CookieDomain ≠ [] → D = cfg.CookieDomain) ∧
      (cfg.CookieDomain = [] →
        (58 : Byte) ∉ D ∧ (req.Host = D ∨ ∃ rest, req.Host = D ++ 58 :: rest)) ∧
      getMaxCookieChunkLength cfg req name
        = 4069 - len name - len D
          - (if cfg.HTTPOnlyCookie then 10 else 0)
          - (if cfg.EnableSessionCookies then 0 else 39)
          - (if cfg.SameSiteCookie = SameSiteStrict then 16
              else if cfg.SameSiteCookie = SameSiteLax then 13 else 0)
          - (if cfg.SecureCookie then 6 else 0)) ∧
    (∃ (cfg : Config) (req : Request) (name : GoString),
      getMaxCookieChunkLength cfg req name = 0) ∧
    (∃ (cfg : Config) (req : Request) (name : GoString),
      getMaxCookieChunkLength cfg req name < 0) := by
  refine ⟨?_, ⟨zeroConfig, demoRequest, ascii "a", zeroBudget _ _ (by decide)⟩,
    ⟨zeroConfig, demoRequest, ascii "ab", ?_⟩⟩
  · intro cfg req name
    refine ⟨if cfg.CookieDomain ≠ [] then cfg.CookieDomain else splitHostPort req.Host,
      fun h => if_pos h, ?_, getMaxCookieChunkLength_eq cfg req name⟩
    intro h
    rw [if_neg (not_not.mpr h)]
    exact splitHostPort_spec req.Host
  · rw [getMaxCookieChunkLength_eq]
    have hd : zeroConfig.CookieDomain = List.replicate 4068 97 := rfl
    rw [hd, if_pos (replicate_ne_nil 4068 97 (by decide)), len_replicate]
    decide

theorem budget_is_exact_formula_witness :
    getMaxCookieChunkLength demoConfig demoRequest (ascii "kc-access")
      = 4069 - 9 - 11 - 10 - 39 - 0 - 0 := by
  obtain ⟨D, hD, _, h⟩ := budget_is_exact_formula.1 demoConfig demoRequest (ascii "kc-access")
  rw [h, hD (by decide)]
  decide

/-- C14: with everything else fixed, turning session cookies on raises the
budget by exactly the length of the literal
`"Expires=Mon, 02 Jan 2006 03:04:05 MST; "`, which is 39; and the budget is a
function of the name, the request host and the configuration alone. -/
theorem session_only_raises_budget_by_expires_literal (cfg : Config) (req req2 : Request)
    (name : GoString) (hoff : cfg.EnableSessionCookies = false)
    (hhost : req2.Host = req.Host) :
    getMaxCookieChunkLength { cfg with EnableSessionCookies := true } req name
      = getMaxCookieChunkLength cfg req name
        + len (ascii "Expires=Mon, 02 Jan 2006 03:04:05 MST; ") ∧
    len (ascii "Expires=Mon, 02 Jan 2006 03:04:05 MST; ") = 39 ∧
    getMaxCookieChunkLength cfg req2 name = getMaxCookieChunkLength cfg req name := by
  refine ⟨?_, literal_lengths.2.1, ?_⟩
  · rw [getMaxCookieChunkLength_eq, getMaxCookieChunkLength_eq, literal_lengths.2.1]
    simp only [hoff]
    simp only [Bool.false_eq_true, if_true, if_false]
    omega
  · rw [getMaxCookieChunkLength_eq, getMaxCookieChunkLength_eq, hhost]

theorem session_only_raises_budget_by_expires_literal_witness :
    demoConfig.EnableSessionCookies = false ∧
    getMaxCookieChunkLength { demoConfig with EnableSessionCookies := true } demoRequest
        (ascii "kc-access")
      = getMaxCookieChunkLength demoConfig demoRequest (ascii "kc-access")
        + len (ascii "Expires=Mon, 02 Jan 2006 03:04:05 MST; ") :=
  ⟨rfl, (session_only_raises_budget_by_expires_literal demoConfig demoRequest demoRequest
    (ascii "kc-access") rfl rfl).1⟩

theorem domain_length_without_override (cfg : Config) (req : Request) (name h : GoString)
    (hnone : cfg.CookieDomain = []) (hh : (58 : Byte) ∉ h)
    (hhost : req.Host = h ∨ ∃ port, req.Host = h ++ 58 :: port) :
    getMaxCookieChunkLength cfg req name
      = 4069 - len name - len h
        - (if cfg.HTTPOnlyCookie then 10 else 0)
        - (if cfg.EnableSessionCookies then 0 else 39)
        - (if cfg.SameSiteCookie = SameSiteStrict then 16
            else if cfg.SameSiteCookie = SameSiteLax then 13 else 0)
        - (if cfg.SecureCookie then 6 else 0) := by
  have hsplit : splitHostPort req.Host = h := by
    rcases hhost with h1 | ⟨port, h1⟩
    · rw [h1, splitHostPort_no_colon h hh]
    · rw [h1, splitHostPort_append h port hh]
  rw [getMaxCookieChunkLength_eq, if_neg (not_not.mpr hnone), hsplit]

theorem domain_length_with_override (cfg : Config) (req req2 : Request) (name : GoString)
    (hset : cfg.CookieDomain ≠ []) :
    getMaxCookieChunkLength cfg req name = getMaxCookieChunkLength cfg req2 name := by
  rw [getMaxCookieChunkLength_eq, getMaxCookieChunkLength_eq, if_pos hset, if_pos hset]

/-- C15 fails on a bracketed IPv6 host: for the host `[::1]:8080` and no
cookie domain, the text before the first `':'` is `[`, so 1 is subtracted for
the domain and not the 5 bytes of `[::1]`. -/
theorem ipv6_host_is_cut_at_first_colon :
    hostConfig.CookieDomain = [] ∧
    ipv6Request.Host = ascii "[::1]" ++ 58 :: ascii "8080" ∧
    splitHostPort ipv6Request.Host = ascii "[" ∧
    len (ascii "[::1]") = 5 ∧
    getMaxCookieChunkLength hostConfig ipv6Request (ascii "kc-access")
      = 4069 - 9 - 1 - 10 - 39 ∧
    getMaxCookieChunkLength hostConfig ipv6Request (ascii "kc-access")
      ≠ 4069 - 9 - len (ascii "[::1]") - 10 - 39 := by
  decide

/-- C16: the cookie `dropCookie` appends carries `Expires = now + d` exactly
when session cookies are off and `d` is not zero; when session cookies are on
or `d` is zero it carries no `Expires`. -/
theorem dropCookie_expires_iff (cfg : Config) (clock : Nat → Int) (wrt : ResponseWriter)
    (host name value : GoString) (d : Int) :
    ∃ c : Cookie,
      dropCookie cfg clock wrt host name value d = wrt ++ [c] ∧
      c.Name = name ∧ c.Value = value ∧
      (c.Expires = some (clock wrt.length + d) ↔
        (cfg.EnableSessionCookies = false ∧ d ≠ 0)) ∧
      ((cfg.EnableSessionCookies = true ∨ d = 0) → c.Expires = none) := by
  refine ⟨newCookie cfg (clock wrt.length) name value d, rfl, rfl, rfl, ?_, ?_⟩
  · unfold newCookie
    cases hs : cfg.EnableSessionCookies <;> by_cases hd : d = 0 <;> simp [hs, hd]
  · unfold newCookie
    intro h
    cases hs : cfg.EnableSessionCookies <;> by_cases hd : d = 0 <;> simp [hs, hd]
    rcases h with h | h
    · rw [hs] at h; cases h
    · exact hd h

theorem dropCookie_expires_iff_witness :
    ∃ c : Cookie,
      dropCookie demoConfig demoClock [] (ascii "example.com") (ascii "kc-access")
        (ascii "token") Hour = [c] ∧
      c.Expires = some (demoClock 0 + Hour) :=
  (dropCookie_expires_iff demoConfig demoClock [] (ascii "example.com") (ascii "kc-access")
    (ascii "token") Hour).imp
    (fun _ h => ⟨h.1, h.2.2.2.1.mpr ⟨rfl, by decide⟩⟩)

theorem setCookieHeaders_dropCookie (cfg : Config) (clock : Nat → Int)
    (wrt : ResponseWriter) (host name value : GoString) (d : Int) :
    (isCookieNameValid name = true →
      setCookieHeaders (dropCookie cfg clock wrt host name value d)
        = setCookieHeaders wrt ++ [(newCookie cfg (clock wrt.length) name value d).headerLine]) ∧
    (isCookieNameValid name = false →
      setCookieHeaders (dropCookie cfg clock wrt host name value d) = setCookieHeaders wrt) := by
  unfold dropCookie
  rw [setCookieHeaders_append]
  constructor
  · intro h
    rw [setCookieHeaders_of_valid [_] (by
      intro c hc
      rw [List.mem_singleton] at hc
      subst hc
      exact h)]
    rfl
  · intro h
    rw [setCookieHeaders_of_invalid [_] (by
      intro c hc
      rw [List.mem_singleton] at hc
      subst hc
      exact h)]
    simp

theorem newCookie_domain (cfg : Config) (now : Int) (name value : GoString) (d : Int) :
    (newCookie cfg now name value d).Domain = cfg.CookieDomain := by
  unfold newCookie
  by_cases h : cfg.CookieDomain = []
  · simp [h]
  · simp [h]

/-- C17 as stated fails: with the configured cookie domain `.example.com` the
`Set-Cookie` header carries `Domain=example.com`, without the leading dot, and
with the configured cookie domain `example.com:8080`, which `net/http` does not
accept as a cookie domain, the header carries no `Domain` attribute at all. -/
theorem domain_attribute_differs_from_configured :
    dotConfig.CookieDomain = ascii ".example.com" ∧
    (setCookieHeaders (dropCookie dotConfig demoClock [] (ascii "example.com:8080")
      (ascii "kc-access") (ascii "token") Hour)).map Cookie.Domain = [ascii "example.com"] ∧
    portConfig.CookieDomain = ascii "example.com:8080" ∧
    validCookieDomain portConfig.CookieDomain = false ∧
    (setCookieHeaders (dropCookie portConfig demoClock [] (ascii "example.com:8080")
      (ascii "kc-access") (ascii "token") Hour)).map Cookie.Domain = [[]] := by
  decide

/-- C17 (amended): for a valid cookie name, the cookie handed to
`http.SetCookie` has the configured cookie domain as its `Domain` and is the
same for any two host arguments; the `Set-Cookie` header `dropCookie` adds has
no `Domain` when no domain is configured or when `net/http` does not accept the
configured one, and otherwise has the configured domain, without its leading
dot if it has one.  The host argument is never used. -/
theorem dropCookie_domain_ignores_host (cfg : Config) (clock : Nat → Int)
    (wrt : ResponseWriter) (host host2 name value : GoString) (d : Int)
    (hname : isCookieNameValid name = true) :
    dropCookie cfg clock wrt host name value d = dropCookie cfg clock wrt host2 name value d ∧
    ∃ c : Cookie,
      setCookieHeaders (dropCookie cfg clock wrt host name value d)
        = setCookieHeaders wrt ++ [c] ∧
      (cfg.CookieDomain = [] → c.Domain = []) ∧
      (validCookieDomain cfg.CookieDomain = false → c.Domain = []) ∧
      (validCookieDomain cfg.CookieDomain = true → cfg.CookieDomain.head? ≠ some 46 →
        c.Domain = cfg.CookieDomain) ∧
      (validCookieDomain cfg.CookieDomain = true → cfg.CookieDomain.head? = some 46 →
        c.Domain = cfg.CookieDomain.drop 1) := by
  have hdom : (newCookie cfg (clock wrt.length) name value d).headerLine.Domain
      = if cfg.CookieDomain.length > 0 then
          if validCookieDomain cfg.CookieDomain then
            (if cfg.CookieDomain.head? = some 46 then cfg.CookieDomain.drop 1
              else cfg.CookieDomain)
          else []
        else [] := by
    unfold Cookie.headerLine
    simp only [newCookie_domain]
  refine ⟨rfl, (newCookie cfg (clock wrt.length) name value d).headerLine,
    (setCookieHeaders_dropCookie cfg clock wrt host name value d).1 hname, ?_, ?_, ?_, ?_⟩
  · intro h
    rw [hdom, h]
    rfl
  · intro h
    rw [hdom, h]
    simp
  · intro hv hh
    have hne : cfg.CookieDomain.length > 0 := by
      apply List.length_pos.mpr
      intro hnil
      rw [hnil] at hv
      revert hv
      decide
    rw [hdom, if_pos hne, hv, if_pos rfl, if_neg hh]
  · intro hv hh
    have hne : cfg.CookieDomain.length > 0 := by
      apply List.length_pos.mpr
      intro hnil
      rw [hnil] at hv
      revert hv
      decide
    rw [hdom, if_pos hne, hv, if_pos rfl, if_pos hh]

theorem dropCookie_domain_ignores_host_witness :
    isCookieNameValid (ascii "kc-access") = true ∧
    validCookieDomain demoConfig.CookieDomain = true ∧
    demoConfig.CookieDomain.head? ≠ some 46 ∧
    ∃ c : Cookie,
      setCookieHeaders (dropCookie demoConfig demoClock [] (ascii "example.com:8080")
        (ascii "kc-access") (ascii "token") Hour) = setCookieHeaders [] ++ [c] ∧
      c.Domain = ascii "example.com" :=
  ⟨by decide, by decide, by decide,
    (dropCookie_domain_ignores_host demoConfig demoClock [] (ascii "example.com:8080")
      (ascii "other.org") (ascii "kc-access") (ascii "token") Hour (by decide)).2.imp
      (fun _ h => ⟨h.1, h.2.2.2.1 (by decide) (by decide)⟩)⟩

/-- C18 as stated fails: with the SameSite mode `bogus` the write succeeds and
the cookie has no SameSite attribute. -/
theorem malformed_samesite_is_dropped_silently :
    bogusConfig.SameSiteCookie ≠ [] ∧
    bogusConfig.SameSiteCookie ≠ SameSiteStrict ∧
    bogusConfig.SameSiteCookie ≠ SameSiteLax ∧
    (dropCookie bogusConfig demoClock [] (ascii "example.com") (ascii "kc-access")
      (ascii "token") Hour).map (fun c => (c.Name, c.Value, c.SameSite))
      = [(ascii "kc-access", ascii "token", SameSite.unset)] := by
  decide

/-- C18 (amended): for every configured SameSite mode that is neither the
Strict nor the Lax constant, `dropCookie` appends the cookie, unchanged in name
and value, with no SameSite attribute, and `getMaxCookieChunkLength` subtracts
nothing for SameSite. -/
theorem samesite_other_modes_write_no_attribute (cfg : Config) (clock : Nat → Int)
    (req : Request) (wrt : ResponseWriter) (host name value : GoString) (d : Int)
    (hstrict : cfg.SameSiteCookie ≠ SameSiteStrict) (hlax : cfg.SameSiteCookie ≠ SameSiteLax) :
    (∃ c : Cookie,
      dropCookie cfg clock wrt host name value d = wrt ++ [c] ∧
      c.Name = name ∧ c.Value = value ∧ c.SameSite = SameSite.unset) ∧
    getMaxCookieChunkLength cfg req name
      = 4069 - len name
        - len (if cfg.CookieDomain ≠ [] then cfg.CookieDomain else splitHostPort req.Host)
        - (if cfg.HTTPOnlyCookie then 10 else 0)
        - (if cfg.EnableSessionCookies then 0 else 39)
        - (if cfg.SecureCookie then 6 else 0) := by
  refine ⟨⟨newCookie cfg (clock wrt.length) name value d, rfl, rfl, rfl, ?_⟩, ?_⟩
  · unfold newCookie
    simp [hstrict, hlax]
  · rw [getMaxCookieChunkLength_eq, if_neg hstrict, if_neg hlax]
    omega

theorem samesite_other_modes_write_no_attribute_witness :
    bogusConfig.SameSiteCookie ≠ SameSiteStrict ∧
    bogusConfig.SameSiteCookie ≠ SameSiteLax ∧
    ∃ c : Cookie,
      dropCookie bogusConfig demoClock [] (ascii "example.com") (ascii "kc-access")
        (ascii "token") Hour = [] ++ [c] ∧
      c.Name = ascii "kc-access" ∧ c.Value = ascii "token" ∧ c.SameSite = SameSite.unset :=
  ⟨by decide, by decide,
    (samesite_other_modes_write_no_attribute bogusConfig demoClock demoRequest []
      (ascii "example.com") (ascii "kc-access") (ascii "token") Hour (by decide)
      (by decide)).1⟩

/-! ## Base64 round trip -/

set_option maxRecDepth 100000 in
theorem b64Index_b64Char :
    ∀ i : Fin 64, b64Char i.val ≠ 61 ∧ b64Index (b64Char i.val) = some i.val := by
  decide

theorem b64Char_ne_pad {i : Nat} (h : i < 64) : b64Char i ≠ 61 :=
  (b64Index_b64Char ⟨i, h⟩).1

theorem b64Index_char {i : Nat} (h : i < 64) : b64Index (b64Char i) = some i :=
  (b64Index_b64Char ⟨i, h⟩).2

theorem toByte_eq (a : Byte) (n : Nat) (h : n % 256 = a.val) : toByte n = a := by
  apply Fin.ext
  simpa [toByte] using h

theorem decodeQuantum_three (a b c : Byte) :
    decodeQuantum
      (b64Char ((a.val * 65536 + b.val * 256 + c.val) / 262144 % 64))
      (b64Char ((a.val * 65536 + b.val * 256 + c.val) / 4096 % 64))
      (b64Char ((a.val * 65536 + b.val * 256 + c.val) / 64 % 64))
      (b64Char ((a.val * 65536 + b.val * 256 + c.val) % 64)) = some [a, b, c] := by
  have ha := a.isLt
  have hb := b.isLt
  have hc := c.isLt
  unfold decodeQuantum
  rw [b64Index_char (Nat.mod_lt _ (by decide)), b64Index_char (Nat.mod_lt _ (by decide))]
  simp only []
  rw [if_neg (b64Char_ne_pad (Nat.mod_lt _ (by decide))),
    b64Index_char (Nat.mod_lt _ (by decide))]
  simp only []
  rw [if_neg (b64Char_ne_pad (Nat.mod_lt _ (by decide))),
    b64Index_char (Nat.mod_lt _ (by decide))]
  simp only []
  rw [toByte_eq a _ (by omega), toByte_eq b _ (by omega), toByte_eq c _ (by omega)]

theorem decodeQuantum_two (a b : Byte) :
    decodeQuantum
      (b64Char ((a.val * 65536 + b.val * 256) / 262144 % 64))
      (b64Char ((a.val * 65536 + b.val * 256) / 4096 % 64))
      (b64Char ((a.val * 65536 + b.val * 256) / 64 % 64)) 61 = some [a, b] := by
  have ha := a.isLt
  have hb := b.isLt
  unfold decodeQuantum
  rw [b64Index_char (Nat.mod_lt _ (by decide)), b64Index_char (Nat.mod_lt _ (by decide))]
  simp only []
  rw [if_neg (b64Char_ne_pad (Nat.mod_lt _ (by decide))),
    b64Index_char (Nat.mod_lt _ (by decide))]
  simp only [if_true]
  rw [toByte_eq a _ (by omega), toByte_eq b _ (by omega)]

theorem decodeQuantum_one (a : Byte) :
    decodeQuantum (b64Char ((a.val * 65536) / 262144 % 64))
      (b64Char ((a.val * 65536) / 4096 % 64)) 61 61 = some [a] := by
  have ha := a.isLt
  unfold decodeQuantum
  rw [b64Index_char (Nat.mod_lt _ (by decide)), b64Index_char (Nat.mod_lt _ (by decide))]
  simp only [if_true]
  rw [toByte_eq a _ (by omega)]

theorem DecodeString_EncodeToString (s : GoString) :
    StdEncoding.DecodeString (StdEncoding.EncodeToString s) = some s := by
  induction s using StdEncoding.EncodeToString.induct with
  | case1 a b c rest ih =>
    rw [StdEncoding.EncodeToString, StdEncoding.DecodeString, decodeQuantum_three, ih]
    simp
  | case2 a b =>
    rw [StdEncoding.EncodeToString, StdEncoding.DecodeString, decodeQuantum_two]
    simp
  | case3 a =>
    rw [StdEncoding.EncodeToString, StdEncoding.DecodeString, decodeQuantum_one]
    simp
  | case4 => rfl

set_option maxRecDepth 100000 in
theorem base64_test_vectors :
    StdEncoding.EncodeToString (ascii "") = ascii "" ∧
    StdEncoding.EncodeToString (ascii "f") = ascii "Zg==" ∧
    StdEncoding.EncodeToString (ascii "fo") = ascii "Zm8=" ∧
    StdEncoding.EncodeToString (ascii "foo") = ascii "Zm9v" ∧
    StdEncoding.EncodeToString (ascii "foob") = ascii "Zm9vYg==" ∧
    StdEncoding.EncodeToString (ascii "fooba") = ascii "Zm9vYmE=" ∧
    StdEncoding.EncodeToString (ascii "foobar") = ascii "Zm9vYmFy" := by
  decide

/-! ## The state cookies -/

theorem returnURI_eq (cfg : Config) (req : Request) :
    (if (cfg.NoProxy && !cfg.NoRedirects) = true then req.XForwardedUri else req.RequestURI)
      = if cfg.NoProxy = true ∧ cfg.NoRedirects = false then req.XForwardedUri
        else req.RequestURI := by
  cases cfg.NoProxy <;> cases cfg.NoRedirects <;> simp

theorem writeStateParameterCookie_eq (cfg : Config) (clock : Nat → Int) (gen : NewV4Result)
    (req : Request) (wrt : ResponseWriter) :
    writeStateParameterCookie cfg clock gen req wrt
      = ⟨wrt ++ [newCookie cfg (clock wrt.length) cfg.CookieRequestURIName
            (StdEncoding.EncodeToString
              (if cfg.NoProxy = true ∧ cfg.NoRedirects = false then req.XForwardedUri
                else req.RequestURI)) 0,
          newCookie cfg (clock (wrt.length + 1)) cfg.CookieOAuthStateName gen.text 0],
        if gen.failed then some StatusInternalServerError else none, gen.text⟩ := by
  unfold writeStateParameterCookie dropCookie
  simp only [returnURI_eq, List.length_append, List.length_singleton, List.append_assoc,
    List.singleton_append]

theorem newCookie_zero_lifetime (cfg : Config) (now : Int) (name value : GoString) :
    (newCookie cfg now name value 0).Expires = none := by
  unfold newCookie
  cases cfg.EnableSessionCookies <;> rfl

/-- C19: when the state token is generated without error,
`writeStateParameterCookie` writes exactly two cookies, first the one named
`CookieRequestURIName` and then the one named `CookieOAuthStateName`, each
under its bare name with its whole value, neither with an `Expires`; the value
of the second is the token, the function returns the token, and it does not
call `WriteHeader`. -/
theorem state_issue_writes_two_cookies (cfg : Config) (clock : Nat → Int) (gen : NewV4Result)
    (req : Request) (wrt : ResponseWriter) (hok : gen.failed = false) :
    ∃ c1 c2 : Cookie,
      writeStateParameterCookie cfg clock gen req wrt = ⟨wrt ++ [c1, c2], none, gen.text⟩ ∧
      c1.Name = cfg.CookieRequestURIName ∧
      c1.Value = StdEncoding.EncodeToString
        (if cfg.NoProxy = true ∧ cfg.NoRedirects = false then req.XForwardedUri
          else req.RequestURI) ∧
      c2.Name = cfg.CookieOAuthStateName ∧ c2.Value = gen.text ∧
      c1.Expires = none ∧ c2.Expires = none ∧
      (writeStateParameterCookie cfg clock gen req wrt).token = gen.text := by
  refine ⟨newCookie cfg (clock wrt.length) cfg.CookieRequestURIName
      (StdEncoding.EncodeToString
        (if cfg.NoProxy = true ∧ cfg.NoRedirects = false then req.XForwardedUri
          else req.RequestURI)) 0,
    newCookie cfg (clock (wrt.length + 1)) cfg.CookieOAuthStateName gen.text 0,
    ?_, rfl, rfl, rfl, rfl, newCookie_zero_lifetime _ _ _ _,
    newCookie_zero_lifetime _ _ _ _, rfl⟩
  rw [writeStateParameterCookie_eq, hok]
  rfl

theorem state_issue_writes_two_cookies_witness :
    demoToken.failed = false ∧
    ∃ c1 c2 : Cookie,
      writeStateParameterCookie forwardAuthConfig demoClock demoToken forwardedRequest []
        = ⟨[] ++ [c1, c2], none, demoToken.text⟩ ∧
      c1.Name = ascii "request_uri" ∧ c2.Name = ascii "OAuth_Token_Request_State" ∧
      c2.Value = ascii "6ba7b810-9dad-41d1-80b4-00c04fd430c8" ∧
      c1.Expires = none ∧ c2.Expires = none :=
  ⟨rfl,
    (state_issue_writes_two_cookies forwardAuthConfig demoClock demoToken forwardedRequest []
      rfl).imp (fun _ h1 => h1.imp (fun _ h =>
        ⟨h.1, h.2.1, h.2.2.2.1, h.2.2.2.2.1, h.2.2.2.2.2.1, h.2.2.2.2.2.2.1⟩))⟩

/-- C20: the first cookie `writeStateParameterCookie` writes is named
`CookieRequestURIName` and its value is the standard Base64 encoding of the
return URI, which is the `X-Forwarded-Uri` header when `NoProxy` is set and
`NoRedirects` is not, and `req.URL.RequestURI()` otherwise; decoding the value
gives the return URI back. -/
theorem request_uri_cookie_is_base64 (cfg : Config) (clock : Nat → Int) (gen : NewV4Result)
    (req : Request) (wrt : ResponseWriter) :
    ∃ c : Cookie,
      (writeStateParameterCookie cfg clock gen req wrt).wrt[wrt.length]? = some c ∧
      c.Name = cfg.CookieRequestURIName ∧
      c.Value = StdEncoding.EncodeToString
        (if cfg.NoProxy = true ∧ cfg.NoRedirects = false then req.XForwardedUri
          else req.RequestURI) ∧
      StdEncoding.DecodeString c.Value
        = some (if cfg.NoProxy = true ∧ cfg.NoRedirects = false then req.XForwardedUri
            else req.RequestURI) := by
  refine ⟨newCookie cfg (clock wrt.length) cfg.CookieRequestURIName
      (StdEncoding.EncodeToString
        (if cfg.NoProxy = true ∧ cfg.NoRedirects = false then req.XForwardedUri
          else req.RequestURI)) 0,
    ?_, rfl, rfl, DecodeString_EncodeToString _⟩
  rw [writeStateParameterCookie_eq]
  simp only []
  rw [List.getElem?_append_right (Nat.le_refl _), Nat.sub_self]
  rfl

set_option maxRecDepth 100000 in
theorem request_uri_cookie_is_base64_witness :
    ∃ c : Cookie,
      (writeStateParameterCookie forwardAuthConfig demoClock demoToken forwardedRequest
        []).wrt[0]? = some c ∧
      c.Value = ascii "L2FwcD94PTE=" ∧
      StdEncoding.DecodeString c.Value = some (ascii "/app?x=1") :=
  (request_uri_cookie_is_base64 forwardAuthConfig demoClock demoToken forwardedRequest []).imp
    (fun _ h => ⟨h.1, h.2.2.1.trans (by decide), h.2.2.2.trans (by decide)⟩)

/-! ## The claims, concluded -/

set_option maxRecDepth 100000 in
/-- C21 fails on a failed token generation: `writeStateParameterCookie` calls
`WriteHeader(500)` and then goes on: it hands both cookies to `http.SetCookie`
and returns the text of the UUID to the caller. -/
theorem failed_generation_still_issues_state :
    failedToken.failed = true ∧
    (writeStateParameterCookie hostConfig demoClock failedToken demoRequest []).status
      = some 500 ∧
    (writeStateParameterCookie hostConfig demoClock failedToken demoRequest []).wrt.map
        (fun c => (c.Name, c.Value))
      = [(ascii "request_uri", ascii "Lw=="),
          (ascii "OAuth_Token_Request_State", ascii "00000000-0000-0000-0000-000000000000")] ∧
    (writeStateParameterCookie hostConfig demoClock failedToken demoRequest []).token
      = ascii "00000000-0000-0000-0000-000000000000" := by
  decide

theorem written_nth_shape (cfg : Config) (clock : Nat → Int) (req : Request)
    (wrt : ResponseWriter) (name value : GoString) (d : Int) (i : Nat) (c : Cookie)
    (hc : (written wrt (dropCookieWithChunks cfg clock req wrt name value d))[i]? = some c) :
    ∃ n v : GoString, c = newCookie cfg (clock (wrt.length + i)) n v d := by
  rcases Int.lt_or_le 0 (getMaxCookieChunkLength cfg req name) with hpos | hle
  · obtain ⟨b, hb0, hB, _⟩ := budget_nat (show 1 ≤ getMaxCookieChunkLength cfg req name by omega)
    rw [written_encode cfg clock req wrt name value d hb0 hB, List.getElem?_map] at hc
    cases hr : (List.range (chunkCount b value.length))[i]? with
    | none => rw [hr] at hc; cases hc
    | some j =>
      rw [hr] at hc
      have hlt : i < (List.range (chunkCount b value.length)).length := by
        by_contra hge
        rw [List.getElem?_eq_none (by omega)] at hr
        cases hr
      rw [List.length_range] at hlt
      rw [List.getElem?_range hlt] at hr
      have hj : i = j := Option.some.inj hr
      subst hj
      exact ⟨chunkName name i, (value.drop (i * b)).take b, (Option.some.inj hc).symm⟩
  · have hone : ∀ (v : GoString) (o : Outcome),
        (written wrt (⟨wrt ++ [newCookie cfg (clock wrt.length) name v d], o⟩ : Run))[i]? = some c →
        ∃ n v : GoString, c = newCookie cfg (clock (wrt.length + i)) n v d := by
      intro v o h
      rw [written_append] at h
      cases i with
      | zero => exact ⟨name, v, (Option.some.inj h).symm⟩
      | succ k => simp at h
    rcases lt_or_eq_of_le hle with h | h
    · rw [dropCookieWithChunks_negative cfg clock req wrt name value d h] at hc
      have hw : written wrt (⟨wrt, Outcome.panicked⟩ : Run) = [] := by
        simpa using written_append wrt [] Outcome.panicked
      rw [hw] at hc
      simp at hc
    · by_cases hv : value = []
      · rw [dropCookieWithChunks_fits cfg clock req wrt name value d
          (by rw [h, hv]; decide)] at hc
        exact hone _ _ hc
      · rw [dropCookieWithChunks_zero cfg clock req wrt name value d h hv] at hc
        exact hone _ _ hc

theorem written_mem_shape (cfg : Config) (clock : Nat → Int) (req : Request)
    (wrt : ResponseWriter) (name value : GoString) (d : Int) (c : Cookie)
    (hc : c ∈ written wrt (dropCookieWithChunks cfg clock req wrt name value d)) :
    ∃ (now : Int) (n v : GoString), c = newCookie cfg now n v d := by
  obtain ⟨i, hi⟩ := List.mem_iff_getElem?.mp hc
  obtain ⟨n, v, h⟩ := written_nth_shape cfg clock req wrt name value d i c hi
  exact ⟨_, n, v, h⟩

theorem newCookie_expires (cfg : Config) (now : Int) (n v : GoString) (d : Int) :
    (newCookie cfg now n v d).Expires
      = if cfg.EnableSessionCookies = false ∧ d ≠ 0 then some (now + d) else none := by
  unfold newCookie
  cases hs : cfg.EnableSessionCookies <;> by_cases hd : d = 0 <;> simp [hs, hd]

theorem demoWritten :
    written [] (dropCookieWithChunks demoConfig demoClock demoRequest [] (ascii "kc-access")
      (List.replicate 9000 120) Hour)
      = (List.range 3).map (chunkCookie demoConfig demoClock 0 (ascii "kc-access")
          (List.replicate 9000 120) Hour 4000) := by
  have hB : getMaxCookieChunkLength demoConfig demoRequest (ascii "kc-access")
      = ((4000 : Nat) : Int) := by rw [demoBudget]; rfl
  rw [written_encode demoConfig demoClock demoRequest [] _ _ Hour (by decide) hB,
    List.length_replicate]
  rfl

/-- C22 as stated fails for a zero lifetime: with session cookies off the
`Expires` literal (39 bytes) is subtracted from the budget, yet the cookie
written with lifetime 0 carries no `Expires`. -/
theorem expires_literal_subtracted_without_expires :
    demoConfig.EnableSessionCookies = false ∧
    getMaxCookieChunkLength demoConfig demoRequest (ascii "kc-access")
      = 4069 - 9 - 11 - 10 - len (ascii "Expires=Mon, 02 Jan 2006 03:04:05 MST; ") ∧
    getMaxCookieChunkLength sessionConfig demoRequest (ascii "kc-access")
      = 4069 - 9 - 11 - 10 ∧
    (written [] (dropCookieWithChunks demoConfig demoClock demoRequest [] (ascii "kc-access")
      (ascii "token") 0)).map (fun c => (c.Name, c.Value, c.Expires))
      = [(ascii "kc-access", ascii "token", none)] := by
  decide

/-- C22 (amended): for every cookie written by a call of
`dropCookieWithChunks`, the `HttpOnly`, `SameSite` and `Secure` literals are
subtracted from the budget of the call exactly when the cookie carries that
attribute, and the `Expires` literal is subtracted exactly when session
cookies are off: whenever the cookie carries `Expires` the literal was
subtracted, with a non-zero lifetime the converse holds too, and with lifetime
zero the cookie carries no `Expires`. -/
theorem attribute_literals_follow_emission (cfg : Config) (clock : Nat → Int)
    (req : Request) (wrt : ResponseWriter) (name value : GoString) (d : Int) (c : Cookie)
    (hc : c ∈ written wrt (dropCookieWithChunks cfg clock req wrt name value d)) :
    getMaxCookieChunkLength cfg req name
      = 4069 - len name
        - len (if cfg.CookieDomain ≠ [] then cfg.CookieDomain else splitHostPort req.Host)
        - (if c.HttpOnly then len (ascii "HttpOnly; ") else 0)
        - (if cfg.EnableSessionCookies then 0
            else len (ascii "Expires=Mon, 02 Jan 2006 03:04:05 MST; "))
        - (match c.SameSite with
            | SameSite.strict => len (ascii "SameSite=Strict ")
            | SameSite.lax => len (ascii "SameSite=Lax ")
            | SameSite.unset => 0)
        - (if c.Secure then len (ascii "Secure") else 0) ∧
    (c.Expires ≠ none → cfg.EnableSessionCookies = false) ∧
    (d ≠ 0 → (c.Expires ≠ none ↔ cfg.EnableSessionCookies = false)) ∧
    (d = 0 → c.Expires = none) := by
  obtain ⟨now, n, v, rfl⟩ := written_mem_shape cfg clock req wrt name value d c hc
  obtain ⟨h1, h2, h3, h4, h5⟩ := literal_lengths
  refine ⟨?_, ?_, ?_, ?_⟩
  · rw [getMaxCookieChunkLength_eq, h1, h2, h3, h4, h5]
    have hH : (newCookie cfg now n v d).HttpOnly = cfg.HTTPOnlyCookie := rfl
    have hS : (newCookie cfg now n v d).Secure = cfg.SecureCookie := rfl
    have hSS : (newCookie cfg now n v d).SameSite
        = if cfg.SameSiteCookie = SameSiteStrict then SameSite.strict
          else if cfg.SameSiteCookie = SameSiteLax then SameSite.lax
          else SameSite.unset := rfl
    rw [hH, hS, hSS]
    by_cases hs : cfg.SameSiteCookie = SameSiteStrict
    · simp only [if_pos hs]
    · by_cases hl : cfg.SameSiteCookie = SameSiteLax
      · simp only [if_neg hs, if_pos hl]
      · simp only [if_neg hs, if_neg hl]
  · rw [newCookie_expires]
    intro h
    by_contra hne
    exact h (if_neg (fun hcond => hne hcond.1))
  · intro hd
    rw [newCookie_expires]
    constructor
    · intro h
      by_contra hne
      exact h (if_neg (fun hcond => hne hcond.1))
    · intro hs
      rw [if_pos ⟨hs, hd⟩]
      exact Option.some_ne_none _
  · intro hd
    rw [newCookie_expires]
    exact if_neg (fun hcond => hcond.2 hd)

theorem attribute_literals_follow_emission_witness :
    (newCookie demoConfig (demoClock 0) (ascii "kc-access") (ascii "token") Hour)
      ∈ written [] (dropCookieWithChunks demoConfig demoClock demoRequest []
          (ascii "kc-access") (ascii "token") Hour) ∧
    ((newCookie demoConfig (demoClock 0) (ascii "kc-access") (ascii "token") Hour).Expires
        ≠ none ↔ demoConfig.EnableSessionCookies = false) :=
  ⟨by decide,
    (attribute_literals_follow_emission demoConfig demoClock demoRequest []
      (ascii "kc-access") (ascii "token") Hour _ (by decide)).2.2.1 (by decide)⟩

theorem chunkCookie_name (cfg : Config) (clock : Nat → Int) (base : Nat)
    (name value : GoString) (d : Int) (b i : Nat) :
    (chunkCookie cfg clock base name value d b i).Name = chunkName name i := rfl

theorem chunkCookie_value (cfg : Config) (clock : Nat → Int) (base : Nat)
    (name value : GoString) (d : Int) (b i : Nat) :
    (chunkCookie cfg clock base name value d b i).Value = (value.drop (i * b)).take b := rfl

/-- C23 as stated fails for a suffixed chunk: in the 9000/4000 example the
cookie `kc-access-1` carries 4000 bytes, while the budget computed for the
name `kc-access-1` is 3998. -/
theorem suffixed_chunk_exceeds_own_budget :
    1 ≤ getMaxCookieChunkLength demoConfig demoRequest (ascii "kc-access") ∧
    ∃ c ∈ written [] (dropCookieWithChunks demoConfig demoClock demoRequest []
        (ascii "kc-access") (List.replicate 9000 120) Hour),
      c.Name = ascii "kc-access-1" ∧ len c.Value = 4000 ∧
      getMaxCookieChunkLength demoConfig demoRequest c.Name = 3998 ∧
      ¬ (len c.Value ≤ getMaxCookieChunkLength demoConfig demoRequest c.Name) := by
  have hname : chunkName (ascii "kc-access") 1 = ascii "kc-access-1" := by decide
  have hbud : getMaxCookieChunkLength demoConfig demoRequest (ascii "kc-access-1") = 3998 := by
    decide
  have hlen : len ((List.drop (1 * 4000) (List.replicate 9000 (120 : Byte))).take 4000)
      = 4000 := by
    unfold len
    rw [window_length, List.length_replicate]
    decide
  refine ⟨by rw [demoBudget]; decide,
    chunkCookie demoConfig demoClock 0 (ascii "kc-access") (List.replicate 9000 120) Hour 4000 1,
    ?_, ?_, ?_, ?_, ?_⟩
  · rw [demoWritten]
    exact List.mem_map.mpr ⟨1, by decide, rfl⟩
  · rw [chunkCookie_name, hname]
  · rw [chunkCookie_value, hlen]
  · rw [chunkCookie_name, hname, hbud]
  · rw [chunkCookie_name, chunkCookie_value, hname, hbud, hlen]
    decide

/-- C23 (amended): when the budget computed for the logical name is at least
1, every cookie written by `dropCookieWithChunks` carries at most that many
bytes; the budget computed for the cookie's own physical name is smaller by the
length of its suffix, and the value stays within that budget plus the length
of the suffix. -/
theorem chunk_within_logical_budget (cfg : Config) (clock : Nat → Int) (req : Request)
    (wrt : ResponseWriter) (name value : GoString) (d : Int) (c : Cookie)
    (hb : 1 ≤ getMaxCookieChunkLength cfg req name)
    (hc : c ∈ written wrt (dropCookieWithChunks cfg clock req wrt name value d)) :
    len c.Value ≤ getMaxCookieChunkLength cfg req name ∧
    getMaxCookieChunkLength cfg req c.Name
      = getMaxCookieChunkLength cfg req name - (len c.Name - len name) ∧
    0 ≤ len c.Name - len name ∧
    len c.Value ≤ getMaxCookieChunkLength cfg req c.Name + (len c.Name - len name) := by
  obtain ⟨b, hb0, hB, _⟩ := budget_nat hb
  rw [written_encode cfg clock req wrt name value d hb0 hB] at hc
  obtain ⟨i, _, rfl⟩ := List.mem_map.mp hc
  have hval : len (chunkCookie cfg clock wrt.length name value d b i).Value ≤ (b : Int) := by
    rw [chunkCookie_value]
    unfold len
    rw [window_length]
    omega
  have hnm : len name ≤ len (chunkCookie cfg clock wrt.length name value d b i).Name := by
    rw [chunkCookie_name]
    unfold chunkName len
    split
    · exact le_refl _
    · simp only [List.length_append]
      omega
  have hbud : getMaxCookieChunkLength cfg req (chunkCookie cfg clock wrt.length name value d b i).Name
      = getMaxCookieChunkLength cfg req name
        - (len (chunkCookie cfg clock wrt.length name value d b i).Name - len name) := by
    rw [getMaxCookieChunkLength_eq, getMaxCookieChunkLength_eq]
    omega
  refine ⟨by rw [hB]; exact hval, hbud, by omega, ?_⟩
  rw [hbud, hB]
  omega

theorem chunk_within_logical_budget_witness :
    1 ≤ getMaxCookieChunkLength demoConfig demoRequest (ascii "kc-access") ∧
    ∃ c ∈ written [] (dropCookieWithChunks demoConfig demoClock demoRequest []
        (ascii "kc-access") (List.replicate 9000 120) Hour),
      c.Name = ascii "kc-access-1" ∧
      len c.Value ≤ getMaxCookieChunkLength demoConfig demoRequest (ascii "kc-access") ∧
      getMaxCookieChunkLength demoConfig demoRequest c.Name
        = getMaxCookieChunkLength demoConfig demoRequest (ascii "kc-access")
          - (len c.Name - len (ascii "kc-access")) ∧
      0 ≤ len c.Name - len (ascii "kc-access") ∧
      len c.Value ≤ getMaxCookieChunkLength demoConfig demoRequest c.Name
        + (len c.Name - len (ascii "kc-access")) := by
  have h1 : 1 ≤ getMaxCookieChunkLength demoConfig demoRequest (ascii "kc-access") := by
    rw [demoBudget]; decide
  have hname : chunkName (ascii "kc-access") 1 = ascii "kc-access-1" := by decide
  have hmem : chunkCookie demoConfig demoClock 0 (ascii "kc-access") (List.replicate 9000 120)
      Hour 4000 1 ∈ written [] (dropCookieWithChunks demoConfig demoClock demoRequest []
        (ascii "kc-access") (List.replicate 9000 120) Hour) := by
    rw [demoWritten]
    exact List.mem_map.mpr ⟨1, by decide, rfl⟩
  exact ⟨h1, _, hmem, by rw [chunkCookie_name, hname],
    chunk_within_logical_budget demoConfig demoClock demoRequest [] (ascii "kc-access")
      (List.replicate 9000 120) Hour _ h1 hmem⟩

theorem chunkName_length_ge (name : GoString) (i : Nat) :
    name.length ≤ (chunkName name i).length := by
  unfold chunkName
  split
  · exact Nat.le_refl _
  · simp only [List.length_append]
    omega

theorem clearAccessTokenCookie_eq_of_bare (cfg : Config) (clock : Nat → Int) (req : Request)
    (wrt : ResponseWriter) (hbare : (req.Cookie cfg.CookieAccessName).isSome) :
    ∃ k : Nat,
      (∀ i, 1 ≤ i → i ≤ k → (req.Cookie (chunkName cfg.CookieAccessName i)).isSome) ∧
      req.Cookie (chunkName cfg.CookieAccessName (k + 1)) = none ∧
      clearAccessTokenCookie cfg clock req wrt
        = ⟨wrt ++ (List.range (k + 1)).map (tombstone cfg clock wrt.length cfg.CookieAccessName),
            Outcome.returned⟩ := by
  obtain ⟨k, h1, h2, h3⟩ := clearAccessTokenCookie_eq cfg clock req wrt
  refine ⟨k, fun i hi hk => (h1 i hi hk).2, ?_, h3⟩
  by_contra hpres
  have hlast : (req.Cookie (chunkName cfg.CookieAccessName (k + 1))).isSome := by
    cases hc : req.Cookie (chunkName cfg.CookieAccessName (k + 1)) with
    | none => exact absurd hc hpres
    | some _ => rfl
  have hall : ∀ i, i < k + 2 → (req.Cookie (chunkName cfg.CookieAccessName i)).isSome := by
    intro i hi
    rcases Nat.eq_zero_or_pos i with h0 | h0
    · subst h0
      rw [chunkName_zero]
      exact hbare
    · rcases Nat.lt_or_ge i (k + 1) with hlt | hge
      · exact (h1 i h0 (by omega)).2
      · have : i = k + 1 := by omega
        subst this
        exact hlast
  have hcount := present_count_le req cfg.CookieAccessName (k + 2) hall
  exact hpres (h2 (by omega))

theorem run_le_of_absent (req1 req2 : Request) (name : GoString) (k1 k2 : Nat)
    (hsame : ∀ i : Nat, (req1.Cookie (chunkName name i)).isSome
      = (req2.Cookie (chunkName name i)).isSome)
    (hpres : ∀ i, 1 ≤ i → i ≤ k2 → (req2.Cookie (chunkName name i)).isSome)
    (habs : req1.Cookie (chunkName name (k1 + 1)) = none) : k2 ≤ k1 := by
  by_contra hlt
  have h2 := hpres (k1 + 1) (by omega) (by omega)
  rw [← hsame (k1 + 1), habs] at h2
  cases h2

/-- C24, a defect of the code: the requests `strayRequest` and
`crowdedRequest` carry the same cookies of the access family (only
`kc-access-1`) and differ in the unrelated cookie `theme`, yet
`clearAccessTokenCookie` writes one tombstone for the first and two for the
second, because its loop is bounded by `len(req.Cookies())`, the number of all
cookies of the request.  The sibling `clearRefreshTokenCookie`, bounded by 600,
writes the same two tombstones for both requests when the same name is its
family name. -/
theorem unrelated_cookie_changes_access_erase :
    (∀ i : Nat, (strayRequest.Cookie (chunkName demoConfig.CookieAccessName i)).isSome
      = (crowdedRequest.Cookie (chunkName demoConfig.CookieAccessName i)).isSome) ∧
    (written [] (clearAccessTokenCookie demoConfig demoClock strayRequest [])).map Cookie.Name
      = [ascii "kc-access"] ∧
    (written [] (clearAccessTokenCookie demoConfig demoClock crowdedRequest [])).map Cookie.Name
      = [ascii "kc-access", ascii "kc-access-1"] ∧
    mirrorConfig.CookieRefreshName = demoConfig.CookieAccessName ∧
    (written [] (clearRefreshTokenCookie mirrorConfig demoClock strayRequest [])).map Cookie.Name
      = [ascii "kc-access", ascii "kc-access-1"] ∧
    (written [] (clearRefreshTokenCookie mirrorConfig demoClock crowdedRequest [])).map
        Cookie.Name
      = [ascii "kc-access", ascii "kc-access-1"] := by
  refine ⟨?_, by decide, by decide, by decide, by decide, by decide⟩
  intro i
  have hne : chunkName demoConfig.CookieAccessName i ≠ ascii "theme" := by
    intro h
    have hlen := chunkName_length_ge demoConfig.CookieAccessName i
    rw [h] at hlen
    revert hlen
    decide
  rw [Bool.eq_iff_iff, cookie_isSome_iff, cookie_isSome_iff]
  simp [strayRequest, crowdedRequest, hne]

/-- Where the clear operations do depend on the family's cookies only: two
requests that carry the same cookies of a family get the same tombstones from
the family's clear operation, whatever else they carry, for the refresh family
always and for the access family when the family's bare-name cookie is among
the cookies they carry. -/
theorem clear_depends_on_family_cookies (f : Family) (cfg : Config) (clock : Nat → Int)
    (req1 req2 : Request) (wrt : ResponseWriter)
    (hsame : ∀ i : Nat, (req1.Cookie (chunkName (f.cookieName cfg) i)).isSome
      = (req2.Cookie (chunkName (f.cookieName cfg) i)).isSome)
    (hbare : f = Family.access → (req1.Cookie cfg.CookieAccessName).isSome) :
    clearTokenCookie f cfg clock req1 wrt = clearTokenCookie f cfg clock req2 wrt := by
  cases f
  · have hb1 := hbare rfl
    have hb2 : (req2.Cookie cfg.CookieAccessName).isSome := by
      have := hsame 0
      simp only [Family.cookieName, chunkName_zero] at this
      rw [← this]
      exact hb1
    obtain ⟨k1, hp1, ha1, e1⟩ := clearAccessTokenCookie_eq_of_bare cfg clock req1 wrt hb1
    obtain ⟨k2, hp2, ha2, e2⟩ := clearAccessTokenCookie_eq_of_bare cfg clock req2 wrt hb2
    have h21 := run_le_of_absent req1 req2 cfg.CookieAccessName k1 k2 hsame hp2 ha1
    have h12 := run_le_of_absent req2 req1 cfg.CookieAccessName k2 k1
      (fun i => (hsame i).symm) hp1 ha2
    have : k1 = k2 := by omega
    subst this
    show clearAccessTokenCookie cfg clock req1 wrt = clearAccessTokenCookie cfg clock req2 wrt
    rw [e1, e2]
  · obtain ⟨k1, hp1, ha1, e1⟩ := clearRefreshTokenCookie_eq cfg clock req1 wrt
    obtain ⟨k2, hp2, ha2, e2⟩ := clearRefreshTokenCookie_eq cfg clock req2 wrt
    have h21 : k2 ≤ k1 := by
      by_contra hlt
      have h := hp2 (k1 + 1) (by omega) (by omega)
      have hs := hsame (k1 + 1)
      simp only [Family.cookieName] at hs
      rw [← hs, ha1 (by omega)] at h
      cases h.2
    have h12 : k1 ≤ k2 := by
      by_contra hlt
      have h := hp1 (k2 + 1) (by omega) (by omega)
      have hs := hsame (k2 + 1)
      simp only [Family.cookieName] at hs
      rw [hs, ha2 (by omega)] at h
      cases h.2
    have : k1 = k2 := by omega
    subst this
    show clearRefreshTokenCookie cfg clock req1 wrt = clearRefreshTokenCookie cfg clock req2 wrt
    rw [e1, e2]

theorem sanitizeCookiePath_of_valid (v : GoString) (h : v.all validCookiePathByte = true) :
    sanitizeCookiePath v = v := by
  unfold sanitizeCookiePath sanitizeOrWarn
  rw [List.filter_eq_self]
  exact List.all_eq_true.mp h

/-- C25 as stated fails: for the empty name `dropCookie` adds no `Set-Cookie`
header; for the value `tok;en` the header holds `token`; and for the base URI
`/app;v=1` the header holds the path `/appv=1`. -/
theorem dropCookie_header_differs_from_arguments :
    setCookieHeaders (dropCookie demoConfig demoClock [] (ascii "example.com:8080") []
      (ascii "token") Hour) = [] ∧
    (setCookieHeaders (dropCookie demoConfig demoClock [] (ascii "example.com:8080")
      (ascii "kc-access") (ascii "tok;en") Hour)).map (fun c => (c.Name, c.Value))
      = [(ascii "kc-access", ascii "token")] ∧
    ascii "token" ≠ ascii "tok;en" ∧
    oddPathConfig.BaseURI = ascii "/app;v=1" ∧
    (setCookieHeaders (dropCookie oddPathConfig demoClock [] (ascii "example.com:8080")
      (ascii "kc-access") (ascii "token") Hour)).map Cookie.Path = [ascii "/appv=1"] := by
  decide

/-- C25 (amended): `dropCookie` hands exactly one cookie to `http.SetCookie`.
For a valid cookie name exactly one `Set-Cookie` header is added: its name is
the given one; its value is what `sanitizeCookieValue` makes of the given one,
which is the given value when every byte of it is a cookie octet; its path is
what `sanitizeCookiePath` makes of the configured base URI, or `"/"` when that
is empty, which is the base URI itself when every byte of it is a valid path
byte; its `HttpOnly` and `Secure` flags are those of the configuration, and its
SameSite is Strict for the mode Strict, Lax for the mode Lax and absent when no
mode is configured.  For a name that is not a valid cookie name no header is
added. -/
theorem dropCookie_attributes (cfg : Config) (clock : Nat → Int) (wrt : ResponseWriter)
    (host name value : GoString) (d : Int) :
    (∃ c : Cookie, dropCookie cfg clock wrt host name value d = wrt ++ [c]) ∧
    (isCookieNameValid name = true →
      ∃ c : Cookie,
        setCookieHeaders (dropCookie cfg clock wrt host name value d)
          = setCookieHeaders wrt ++ [c] ∧
        c.Name = name ∧ c.Value = sanitizeCookieValue value ∧
        (value.all isCookieOctet = true → c.Value = value) ∧
        c.Path = sanitizeCookiePath (if cfg.BaseURI = [] then ascii "/" else cfg.BaseURI) ∧
        (cfg.BaseURI ≠ [] → cfg.BaseURI.all validCookiePathByte = true →
          c.Path = cfg.BaseURI) ∧
        (cfg.BaseURI = [] → c.Path = ascii "/") ∧
        c.HttpOnly = cfg.HTTPOnlyCookie ∧ c.Secure = cfg.SecureCookie ∧
        (cfg.SameSiteCookie = SameSiteStrict → c.SameSite = SameSite.strict) ∧
        (cfg.SameSiteCookie = SameSiteLax → c.SameSite = SameSite.lax) ∧
        (cfg.SameSiteCookie = [] → c.SameSite = SameSite.unset)) ∧
    (isCookieNameValid name = false →
      setCookieHeaders (dropCookie cfg clock wrt host name value d) = setCookieHeaders wrt) := by
  have hsl : SameSiteLax ≠ SameSiteStrict := by decide
  have hns : ([] : GoString) ≠ SameSiteStrict := by decide
  have hnl : ([] : GoString) ≠ SameSiteLax := by decide
  have hpath : (newCookie cfg (clock wrt.length) name value d).headerLine.Path
      = sanitizeCookiePath (if cfg.BaseURI = [] then ascii "/" else cfg.BaseURI) := by
    unfold Cookie.headerLine newCookie
    by_cases h : cfg.BaseURI = []
    · simp only [h, if_true]
      rfl
    · simp only [h, if_false]
      rw [if_pos (List.length_pos.mpr h)]
  have hh := setCookieHeaders_dropCookie cfg clock wrt host name value d
  refine ⟨⟨_, rfl⟩, ?_, hh.2⟩
  intro hname
  refine ⟨(newCookie cfg (clock wrt.length) name value d).headerLine, hh.1 hname, rfl, rfl,
    ?_, hpath, ?_, ?_, rfl, rfl, ?_, ?_, ?_⟩
  · intro hvalue
    exact sanitizeCookieValue_of_octets value hvalue
  · intro h hall
    rw [hpath, if_neg h]
    exact sanitizeCookiePath_of_valid _ hall
  · intro h
    rw [hpath, if_pos h]
    decide
  · intro h
    show (newCookie cfg (clock wrt.length) name value d).SameSite = SameSite.strict
    unfold newCookie
    simp [h]
  · intro h
    show (newCookie cfg (clock wrt.length) name value d).SameSite = SameSite.lax
    unfold newCookie
    simp [h, hsl]
  · intro h
    show (newCookie cfg (clock wrt.length) name value d).SameSite = SameSite.unset
    unfold newCookie
    simp [h, hns, hnl]

theorem dropCookie_attributes_witness :
    isCookieNameValid (ascii "kc-access") = true ∧
    demoConfig.BaseURI = [] ∧ demoConfig.SameSiteCookie = [] ∧
    ∃ c : Cookie,
      setCookieHeaders (dropCookie demoConfig demoClock [] (ascii "example.com")
        (ascii "kc-access") (ascii "token") Hour) = setCookieHeaders [] ++ [c] ∧
      c.Name = ascii "kc-access" ∧ c.Value = ascii "token" ∧ c.Path = ascii "/" ∧
      c.HttpOnly = true ∧ c.Secure = false ∧ c.SameSite = SameSite.unset :=
  ⟨by decide, rfl, rfl,
    ((dropCookie_attributes demoConfig demoClock [] (ascii "example.com") (ascii "kc-access")
      (ascii "token") Hour).2.1 (by decide)).imp
      (fun _ h => ⟨h.1, h.2.1, h.2.2.2.1 (by decide), h.2.2.2.2.2.2.1 rfl, h.2.2.2.2.2.2.2.1,
        h.2.2.2.2.2.2.2.2.1, h.2.2.2.2.2.2.2.2.2.2.2 rfl⟩)⟩

theorem filter_name_of_nodup (l : List Cookie) (hnd : (l.map Cookie.Name).Nodup)
    (c : Cookie) (hc : c ∈ l) :
    l.filter (fun x => decide (x.Name = c.Name)) = [c] := by
  induction l with
  | nil => cases hc
  | cons a l ih =>
    rw [List.map_cons, List.nodup_cons] at hnd
    rcases List.mem_cons.mp hc with h | h
    · subst h
      have hnone : l.filter (fun x => decide (x.Name = c.Name)) = [] := by
        rw [List.filter_eq_nil_iff]
        intro x hx hxn
        have : x.Name = c.Name := by simpa using hxn
        exact hnd.1 (this ▸ List.mem_map_of_mem Cookie.Name hx)
      rw [List.filter_cons_of_pos (by simp), hnone]
    · have hne : ¬ (a.Name = c.Name) := by
        intro heq
        exact hnd.1 (heq ▸ List.mem_map_of_mem Cookie.Name h)
      rw [List.filter_cons_of_neg (by simpa using hne)]
      exact ih hnd.2 h

/-- C26: when the budget computed for `name` is at least 1, the names of the
cookies written by one call of `dropCookieWithChunks` are pairwise distinct,
so for each written cookie the written cookies with its name are that cookie
alone. -/
theorem written_names_are_distinct (cfg : Config) (clock : Nat → Int) (req : Request)
    (wrt : ResponseWriter) (name value : GoString) (d : Int)
    (hb : 1 ≤ getMaxCookieChunkLength cfg req name) :
    ((written wrt (dropCookieWithChunks cfg clock req wrt name value d)).map
      Cookie.Name).Nodup ∧
    ∀ c ∈ written wrt (dropCookieWithChunks cfg clock req wrt name value d),
      (written wrt (dropCookieWithChunks cfg clock req wrt name value d)).filter
        (fun x => decide (x.Name = c.Name)) = [c] := by
  obtain ⟨b, hb0, hB, _⟩ := budget_nat hb
  have hnd : ((written wrt (dropCookieWithChunks cfg clock req wrt name value d)).map
      Cookie.Name).Nodup := by
    rw [names_encode cfg clock req wrt name value d hb0 hB]
    exact chunkNames_nodup name _
  exact ⟨hnd, fun c hc => filter_name_of_nodup _ hnd c hc⟩

theorem written_names_are_distinct_witness :
    1 ≤ getMaxCookieChunkLength tinyConfig demoRequest (ascii "a") ∧
    ((written [] (dropCookieWithChunks tinyConfig demoClock demoRequest [] (ascii "a")
      (ascii "hello") 0)).map Cookie.Name).Nodup :=
  ⟨by rw [tinyBudget _ _ (by decide)],
    (written_names_are_distinct tinyConfig demoClock demoRequest [] (ascii "a")
      (ascii "hello") 0 (by rw [tinyBudget _ _ (by decide)])).1⟩

theorem chunkCookie_expires (cfg : Config) (clock : Nat → Int) (base : Nat)
    (name value : GoString) (d : Int) (b i : Nat) :
    (chunkCookie cfg clock base name value d b i).Expires
      = if cfg.EnableSessionCookies = false ∧ d ≠ 0 then some (clock (base + i) + d)
        else none :=
  newCookie_expires cfg _ _ _ d

/-- C27 as stated fails for `Expires`: in the 9000/4000 example, with
persistent cookies and a clock that advances between the writes, the first two
cookies carry different `Expires` instants. -/
theorem chunks_can_differ_in_expires :
    ∃ c0 ∈ written [] (dropCookieWithChunks demoConfig demoClock demoRequest []
        (ascii "kc-access") (List.replicate 9000 120) Hour),
      ∃ c1 ∈ written [] (dropCookieWithChunks demoConfig demoClock demoRequest []
          (ascii "kc-access") (List.replicate 9000 120) Hour),
        c0.Expires = some (1000000 + Hour) ∧ c1.Expires = some (1000001 + Hour) ∧
        c0.Expires ≠ c1.Expires := by
  have hcond : demoConfig.EnableSessionCookies = false ∧ Hour ≠ 0 := by decide
  have h0 : (chunkCookie demoConfig demoClock 0 (ascii "kc-access") (List.replicate 9000 120)
      Hour 4000 0).Expires = some (1000000 + Hour) := by
    rw [chunkCookie_expires, if_pos hcond]
    rfl
  have h1 : (chunkCookie demoConfig demoClock 0 (ascii "kc-access") (List.replicate 9000 120)
      Hour 4000 1).Expires = some (1000001 + Hour) := by
    rw [chunkCookie_expires, if_pos hcond]
    rfl
  refine ⟨_, ?_, _, ?_, h0, h1, ?_⟩
  · rw [demoWritten]
    exact List.mem_map.mpr ⟨0, by decide, rfl⟩
  · rw [demoWritten]
    exact List.mem_map.mpr ⟨1, by decide, rfl⟩
  · rw [h0, h1]
    decide

/-- C27 (amended): the cookies written by one call of `dropCookieWithChunks`
share the same `Domain`, `Path`, `HttpOnly`, `Secure` and `SameSite` and the
same lifetime: either none of them carries `Expires`, or each carries the time
of its own write plus the lifetime of the call, so two of them carry the same
`Expires` when the clock read the same time at their writes. -/
theorem chunks_share_attributes (cfg : Config) (clock : Nat → Int) (req : Request)
    (wrt : ResponseWriter) (name value : GoString) (d : Int) (i j : Nat) (c1 c2 : Cookie)
    (h1 : (written wrt (dropCookieWithChunks cfg clock req wrt name value d))[i]? = some c1)
    (h2 : (written wrt (dropCookieWithChunks cfg clock req wrt name value d))[j]? = some c2) :
    c1.Domain = c2.Domain ∧ c1.Path = c2.Path ∧ c1.HttpOnly = c2.HttpOnly ∧
    c1.Secure = c2.Secure ∧ c1.SameSite = c2.SameSite ∧
    c1.Expires = (if cfg.EnableSessionCookies = false ∧ d ≠ 0
      then some (clock (wrt.length + i) + d) else none) ∧
    c2.Expires = (if cfg.EnableSessionCookies = false ∧ d ≠ 0
      then some (clock (wrt.length + j) + d) else none) ∧
    (c1.Expires = none ↔ c2.Expires = none) ∧
    (clock (wrt.length + i) = clock (wrt.length + j) → c1.Expires = c2.Expires) := by
  obtain ⟨n1, v1, rfl⟩ := written_nth_shape cfg clock req wrt name value d i c1 h1
  obtain ⟨n2, v2, rfl⟩ := written_nth_shape cfg clock req wrt name value d j c2 h2
  refine ⟨rfl, rfl, rfl, rfl, rfl, newCookie_expires _ _ _ _ _, newCookie_expires _ _ _ _ _,
    ?_, ?_⟩
  · rw [newCookie_expires, newCookie_expires]
    by_cases hc : cfg.EnableSessionCookies = false ∧ d ≠ 0
    · simp [hc]
    · simp [hc]
  · intro hclock
    rw [newCookie_expires, newCookie_expires, hclock]

theorem chunks_share_attributes_witness :
    ∃ c0 c1 : Cookie,
      (written [] (dropCookieWithChunks tinyConfig demoClock demoRequest [] (ascii "a")
        (ascii "hello") Hour))[0]? = some c0 ∧
      (written [] (dropCookieWithChunks tinyConfig demoClock demoRequest [] (ascii "a")
        (ascii "hello") Hour))[1]? = some c1 ∧
      c0.Domain = c1.Domain ∧ c0.Path = c1.Path ∧ c0.HttpOnly = c1.HttpOnly ∧
      c0.Secure = c1.Secure ∧ c0.SameSite = c1.SameSite := by
  have hB : getMaxCookieChunkLength tinyConfig demoRequest (ascii "a") = ((1 : Nat) : Int) :=
    tinyBudget demoRequest _ (by decide)
  have hw := written_encode tinyConfig demoClock demoRequest [] (ascii "a") (ascii "hello")
    Hour (by decide) hB
  have hcount : chunkCount 1 (ascii "hello").length = 5 := by decide
  rw [hcount] at hw
  have h0 : (written [] (dropCookieWithChunks tinyConfig demoClock demoRequest [] (ascii "a")
      (ascii "hello") Hour))[0]?
      = some (chunkCookie tinyConfig demoClock 0 (ascii "a") (ascii "hello") Hour 1 0) := by
    rw [hw]
    rfl
  have h1 : (written [] (dropCookieWithChunks tinyConfig demoClock demoRequest [] (ascii "a")
      (ascii "hello") Hour))[1]?
      = some (chunkCookie tinyConfig demoClock 0 (ascii "a") (ascii "hello") Hour 1 1) := by
    rw [hw]
    rfl
  have h := chunks_share_attributes tinyConfig demoClock demoRequest [] (ascii "a")
    (ascii "hello") Hour 0 1 _ _ h0 h1
  exact ⟨_, _, h0, h1, h.1, h.2.1, h.2.2.1, h.2.2.2.1, h.2.2.2.2.1⟩

theorem few_of_small_request (req : Request) (name : GoString)
    (hsmall : req.Cookies.length < 600) :
    ∀ l : List Nat, l.Nodup →
      (∀ i ∈ l, 1 ≤ i ∧ (req.Cookie (name ++ ascii "-" ++ Itoa (i : Int))).isSome) →
      l.length < 600 := by
  intro l hnd hall
  have hsub : l.map (chunkName name) ⊆ req.Cookies.map RequestCookie.Name := by
    intro x hx
    obtain ⟨i, hi, rfl⟩ := List.mem_map.mp hx
    have := hall i hi
    rw [chunkName_pos name this.1]
    exact (cookie_isSome_iff req _).mp this.2
  have hnd2 : (l.map (chunkName name)).Nodup :=
    List.Nodup.map_on (fun _ _ _ _ h => chunkName_inj name h) hnd
  have := (List.subperm_of_subset hnd2 hsub).length_le
  simp only [List.length_map] at this
  omega

/-- C28: when both families have the same name `N`, the request carries the
cookie `N`, and fewer than 600 of the suffixed names `N-1`, `N-2`, … are in the
request, `clearAccessTokenCookie` and `clearRefreshTokenCookie` write the same
sequence of tombstones. -/
theorem clear_access_eq_clear_refresh (cfg : Config) (clock : Nat → Int) (req : Request)
    (wrt : ResponseWriter)
    (hname : cfg.CookieAccessName = cfg.CookieRefreshName)
    (hbare : (req.Cookie cfg.CookieAccessName).isSome)
    (hfew : ∀ l : List Nat, l.Nodup →
      (∀ i ∈ l, 1 ≤ i ∧
        (req.Cookie (cfg.CookieAccessName ++ ascii "-" ++ Itoa (i : Int))).isSome) →
      l.length < 600) :
    clearAccessTokenCookie cfg clock req wrt = clearRefreshTokenCookie cfg clock req wrt := by
  obtain ⟨ka, hpa, haa, ea⟩ := clearAccessTokenCookie_eq_of_bare cfg clock req wrt hbare
  obtain ⟨kr, hpr, har, er⟩ := clearRefreshTokenCookie_eq cfg clock req wrt
  rw [← hname] at hpr har er
  have hkr : kr ≤ 599 := by
    rcases Nat.eq_zero_or_pos kr with h | h
    · omega
    · have := (hpr kr h (Nat.le_refl kr)).1
      omega
  have habs : req.Cookie (chunkName cfg.CookieAccessName (kr + 1)) = none := by
    rcases Nat.lt_or_ge (kr + 1) 600 with hlt | hge
    · exact har hlt
    · by_contra hpres
      have hlast : (req.Cookie (chunkName cfg.CookieAccessName (kr + 1))).isSome := by
        cases hc : req.Cookie (chunkName cfg.CookieAccessName (kr + 1)) with
        | none => exact absurd hc hpres
        | some _ => rfl
      have hlen := hfew (List.range' 1 (kr + 1)) (List.nodup_range' 1 (kr + 1)) (by
        intro i hi
        rw [List.mem_range'_1] at hi
        refine ⟨hi.1, ?_⟩
        rw [← chunkName_pos _ hi.1]
        rcases Nat.lt_or_ge i (kr + 1) with hlt | hge2
        · exact (hpr i hi.1 (by omega)).2
        · have : i = kr + 1 := by omega
          subst this
          exact hlast)
      rw [List.length_range'] at hlen
      omega
  have h1 := run_le_of_absent req req cfg.CookieAccessName ka kr (fun _ => rfl)
    (fun i hi hk => (hpr i hi hk).2) haa
  have h2 := run_le_of_absent req req cfg.CookieAccessName kr ka (fun _ => rfl) hpa habs
  have : ka = kr := by omega
  subst this
  rw [ea, er]

theorem clear_access_eq_clear_refresh_witness :
    sessionConfig.CookieAccessName = { sessionConfig with CookieRefreshName :=
      sessionConfig.CookieAccessName }.CookieRefreshName ∧
    clearAccessTokenCookie { sessionConfig with CookieRefreshName :=
        sessionConfig.CookieAccessName } demoClock
        (requestWith [newCookie sessionConfig 0 (ascii "kc-access") (ascii "x") 0,
          newCookie sessionConfig 0 (ascii "kc-access-1") (ascii "y") 0]) []
      = clearRefreshTokenCookie { sessionConfig with CookieRefreshName :=
        sessionConfig.CookieAccessName } demoClock
        (requestWith [newCookie sessionConfig 0 (ascii "kc-access") (ascii "x") 0,
          newCookie sessionConfig 0 (ascii "kc-access-1") (ascii "y") 0]) [] :=
  ⟨rfl,
    clear_access_eq_clear_refresh _ demoClock _ [] rfl (by decide)
      (few_of_small_request _ _ (by decide))⟩

end Gatekeeper
